import Mathlib

/-!
# Oragono: the ZNC playback emulation of irc/znc.go and the tokens of irc/utils/crypto.go

A shallow embedding of the Go code.

* Go strings are modelled as lists of Unicode code points.  The code only ever
  cuts and compares strings at ASCII bytes, so for well-formed UTF-8 text the byte
  view and the code-point view agree; ill-formed UTF-8 is outside the model.
* Machine integers are `Int`/`Nat` with explicit wrap-around.
* `float64` values are exact dyadic numbers, rounded to nearest, ties to even, as
  IEEE 754 prescribes and as `strconv.ParseFloat` and the `float64` product do.
* The handlers act on a `World`: the playback request stored on the session, and
  the log of the calls they make to the rest of the server (history store,
  replay, response buffer), which is not part of irc/znc.go.
-/

namespace Oragono

/-! ## Strings -/

/-- Go strings, as lists of code points. -/
abbrev GoString := List Char

/-- Go `strings.IndexByte`: index of the first occurrence of `c`, or `-1`. -/
def IndexByte : GoString → Char → Int
  | [], _ => -1
  | x :: xs, c =>
    if x = c then 0
    else
      let r := IndexByte xs c
      if r = -1 then -1 else r + 1

/-- Go slice expression `s[:i]`. -/
def sliceTo (s : GoString) (i : Int) : GoString := s.take i.toNat

/-- Go slice expression `s[i:]`. -/
def sliceFrom (s : GoString) (i : Int) : GoString := s.drop i.toNat

/-- ASCII decimal digit test, `'0' <= c && c <= '9'`. -/
def isDigit (c : Char) : Bool := decide (48 ≤ c.toNat) && decide (c.toNat ≤ 57)

/-- Value of an ASCII decimal digit, `c - '0'`. -/
def digitVal (c : Char) : Nat := c.toNat - 48

/-! ## Machine integers -/

/-- Largest `int64`. -/
def maxInt64 : Int := 9223372036854775807

/-- Smallest `int64`. -/
def minInt64 : Int := -9223372036854775808

/-- Largest `uint64`. -/
def maxUint64 : Nat := 18446744073709551615

/-- Two's complement wrap-around of an integer into the `int64` range. -/
def wrap64 (x : Int) : Int := (x + 9223372036854775808) % 18446744073709551616 - 9223372036854775808

/-- Membership in the `int64` range. -/
def inInt64 (x : Int) : Prop := minInt64 ≤ x ∧ x ≤ maxInt64

instance (x : Int) : Decidable (inInt64 x) := by unfold inInt64; exact inferInstance

/-! ## strconv.ParseInt -/

/-- The two error values `strconv` attaches to a `NumError`. -/
inductive NumErr where
  | ErrSyntax
  | ErrRange
  deriving DecidableEq

/-- Go `strconv.ParseUint(s, 10, 64)`, the digit loop: `n` is the value read so far.
A non-digit is a syntax error with value 0; an overflow stops the loop at once
with the value `maxUint64` and a range error. -/
def parseUintLoop : GoString → Nat → Nat × Option NumErr
  | [], n => (n, none)
  | c :: cs, n =>
    if isDigit c then
      if n ≥ maxUint64 / 10 + 1 then (maxUint64, some NumErr.ErrRange)
      else
        let n10 := n * 10
        let n1 := (n10 + digitVal c) % 18446744073709551616
        if n1 < n10 ∨ n1 > maxUint64 then (maxUint64, some NumErr.ErrRange)
        else parseUintLoop cs n1
    else (0, some NumErr.ErrSyntax)

/-- Go `strconv.ParseUint(s, 10, 64)`. -/
def ParseUint (s : GoString) : Nat × Option NumErr :=
  if s = [] then (0, some NumErr.ErrSyntax) else parseUintLoop s 0

/-- Go `strconv.ParseInt(s, 10, 64)`: the value and the error (`none` is `nil`). -/
def ParseInt (s : GoString) : Int × Option NumErr :=
  match s with
  | [] => (0, some NumErr.ErrSyntax)
  | c :: cs =>
    let neg : Bool := decide (c = '-')
    let body : GoString := if c = '+' ∨ c = '-' then cs else s
    let r := ParseUint body
    if r.2 = some NumErr.ErrSyntax then (0, some NumErr.ErrSyntax)
    else
      let un := r.1
      let cutoff : Nat := 9223372036854775808
      if neg = false ∧ un ≥ cutoff then (maxInt64, some NumErr.ErrRange)
      else if neg = true ∧ un > cutoff then (minInt64, some NumErr.ErrRange)
      else (if neg then -(un : Int) else (un : Int), none)

/-! ## float64 -/

/-- A `float64` value: a finite number `(-1)^neg * mant * 2^exp`, an infinity, or NaN. -/
inductive F64 where
  | fin (neg : Bool) (mant : Nat) (exp : Int)
  | inf (neg : Bool)
  | nan
  deriving DecidableEq

/-- The natural number `x * 2^e` for `e ≥ 0`, and `x` itself for `e < 0`. -/
def scale (x : Nat) (e : Int) : Nat := x * 2 ^ e.toNat

/-- Division of naturals rounded to the nearest integer, ties to even. -/
def rneDiv (n d : Nat) : Nat :=
  let q := n / d
  let r := n % d
  if 2 * r < d then q
  else if d < 2 * r then q + 1
  else if q % 2 = 0 then q else q + 1

/-- The least `j`, counted from `j`, with `n < 2^(2^j)`; `fuel` bounds the search. -/
def ilog2Bits : Nat → Nat → Nat → Nat
  | 0, j, _ => j
  | fuel + 1, j, n => if n < 2 ^ 2 ^ j then j else ilog2Bits fuel (j + 1) n

/-- Binary search for the binary logarithm of `n`, knowing `2^lo ≤ n < 2^(lo + 2^bits)`. -/
def ilog2Search : Nat → Nat → Nat → Nat
  | 0, lo, _ => lo
  | bits + 1, lo, n =>
    if 2 ^ (lo + 2 ^ bits) ≤ n then ilog2Search bits (lo + 2 ^ bits) n
    else ilog2Search bits lo n

/-- The number `k` with `2^k ≤ n < 2^(k+1)` for positive `n` (and 0 for `n = 0`). -/
def ilog2 (n : Nat) : Nat := ilog2Search (ilog2Bits n 0 n) 0 n

/-- The integer `k` with `2^k ≤ num/den < 2^(k+1)`, for positive `num` and `den`. -/
def ilog2Ratio (num den : Nat) : Int :=
  let k : Int := (ilog2 num : Int) - (ilog2 den : Int)
  if scale den k ≤ scale num (-k) then k else k - 1

/-- IEEE 754 rounding to nearest, ties to even, of the rational `num/den ≥ 0` into
binary64: 53 bits of mantissa, gradual underflow below `2^-1022`, overflow to
infinity. -/
def roundF64 (neg : Bool) (num den : Nat) : F64 :=
  if num = 0 then F64.fin neg 0 (-1074)
  else
    let e : Int := max (ilog2Ratio num den - 52) (-1074)
    let m := rneDiv (scale num (-e)) (scale den e)
    let m1 := if m = 2 ^ 53 then 2 ^ 52 else m
    let e1 := if m = 2 ^ 53 then e + 1 else e
    if e1 > 971 then F64.inf neg else F64.fin neg m1 e1

/-- Conversion of an integer constant to `float64`. -/
def F64.ofNat (n : Nat) : F64 := roundF64 false n 1

/-- The `float64` product `x * y`. -/
def F64.mul : F64 → F64 → F64
  | F64.nan, _ => F64.nan
  | _, F64.nan => F64.nan
  | F64.inf s, F64.inf t => F64.inf (xor s t)
  | F64.inf s, F64.fin t m _ => if m = 0 then F64.nan else F64.inf (xor s t)
  | F64.fin s m _, F64.inf t => if m = 0 then F64.nan else F64.inf (xor s t)
  | F64.fin s m e, F64.fin t n f =>
    roundF64 (xor s t) (scale (m * n) (e + f)) (scale 1 (-(e + f)))

/-- Truncation of a `float64` towards zero, when the result fits an `int64`. -/
def F64.truncInt64 (x : F64) : Option Int :=
  match x with
  | F64.fin s m e =>
    let t : Int := ((scale m e / scale 1 (-e) : Nat) : Int)
    let v : Int := if s then -t else t
    if inInt64 v then some v else none
  | _ => none

/-- The Go conversion `int64(x)` of a `float64`: truncation towards zero.  When
the truncated value does not fit an `int64` (or `x` is an infinity or NaN) the Go
specification leaves the result to the implementation; `oor` is that choice. -/
def F64.toInt64 (oor : F64 → Int) (x : F64) : Int :=
  match F64.truncInt64 x with
  | some v => v
  | none => wrap64 (oor x)

/-! ## strconv.ParseFloat -/

/-- Positive zero. -/
def F64.zero : F64 := F64.fin false 0 (-1074)

/-- Go `strconv.lower`: the byte `c | ('x' - 'X')`; code points outside ASCII are
never equal to an ASCII letter in either view and are left alone. -/
def lowerOr (c : Char) : Char :=
  if c.toNat < 128 then Char.ofNat (c.toNat ||| 32) else c

/-- ASCII upper-case letters moved to lower case, as in `commonPrefixLenIgnoreCase`. -/
def asciiLower (c : Char) : Char :=
  if 65 ≤ c.toNat ∧ c.toNat ≤ 90 then Char.ofNat (c.toNat + 32) else c

/-- Go `strconv.commonPrefixLenIgnoreCase(s, pre)` for a lower-case `pre`. -/
def commonPrefixLenIgnoreCase : GoString → GoString → Nat
  | c :: cs, p :: ps => if asciiLower c = p then commonPrefixLenIgnoreCase cs ps + 1 else 0
  | _, _ => 0

/-- The `'i', 'I'` case of `strconv.special`, entered directly or by falling
through after a sign of length `nsign`. -/
def specialInf (neg : Bool) (nsign : Nat) (s : GoString) : Option (F64 × Nat) :=
  let n := commonPrefixLenIgnoreCase s "infinity".toList
  let n1 := if 3 < n ∧ n < 8 then 3 else n
  if n1 = 3 ∨ n1 = 8 then some (F64.inf neg, nsign + n1) else none

/-- Go `strconv.special`: recognises a prefix spelling an infinity or NaN and
reports the value and the number of bytes consumed. -/
def special (s : GoString) : Option (F64 × Nat) :=
  match s with
  | [] => none
  | c :: cs =>
    if c = '+' ∨ c = '-' then specialInf (decide (c = '-')) 1 cs
    else if c = 'i' ∨ c = 'I' then specialInf false 0 s
    else if c = 'n' ∨ c = 'N' then
      if commonPrefixLenIgnoreCase s "nan".toList = 3 then some (F64.nan, 3) else none
    else none

/-- Go `strconv.underscoreOK`, the scan of the number proper: `saw` is the class of
the last character seen (`'0'` digit, `'_'` underscore, `'!'` other, `'^'` start). -/
def underscoreScan (hex : Bool) : GoString → Char → Bool
  | [], saw => decide (saw ≠ '_')
  | c :: cs, saw =>
    if isDigit c ∨ (hex = true ∧ 97 ≤ (lowerOr c).toNat ∧ (lowerOr c).toNat ≤ 102) then
      underscoreScan hex cs '0'
    else if c = '_' then
      if saw ≠ '0' then false else underscoreScan hex cs '_'
    else if saw = '_' then false
    else underscoreScan hex cs '!'

/-- Go `strconv.underscoreOK`: underscores must separate digits (or follow a base
prefix). -/
def underscoreOK (s : GoString) : Bool :=
  let s1 : GoString :=
    match s with
    | c :: cs => if c = '-' ∨ c = '+' then cs else s
    | [] => s
  match s1 with
  | a :: b :: rest =>
    if a = '0' ∧ (lowerOr b = 'b' ∨ lowerOr b = 'o' ∨ lowerOr b = 'x') then
      underscoreScan (decide (lowerOr b = 'x')) rest '0'
    else underscoreScan false s1 '^'
  | _ => underscoreScan false s1 '^'

/-- The state of the mantissa loop of `strconv.readFloat`.  Go keeps the first 19
digits and a truncation flag and recovers the exact digits in its slow path; the
value it returns is the correctly rounded one, so the model keeps the whole
mantissa `mant` and the number `fracDigits` of digits read after the point. -/
structure MantState where
  mant : Nat
  fracDigits : Nat
  sawdot : Bool
  sawdigits : Bool
  underscores : Bool

/-- The mantissa loop of `strconv.readFloat`; returns the state and the unread rest. -/
def readMantissa (hex : Bool) : GoString → MantState → MantState × GoString
  | [], st => (st, [])
  | c :: cs, st =>
    if c = '_' then readMantissa hex cs { st with underscores := true }
    else if c = '.' then
      if st.sawdot then (st, c :: cs) else readMantissa hex cs { st with sawdot := true }
    else if isDigit c then
      readMantissa hex cs
        { st with sawdigits := true,
                  mant := st.mant * (if hex then 16 else 10) + digitVal c,
                  fracDigits := if st.sawdot then st.fracDigits + 1 else st.fracDigits }
    else if hex = true ∧ 97 ≤ (lowerOr c).toNat ∧ (lowerOr c).toNat ≤ 102 then
      readMantissa hex cs
        { st with sawdigits := true,
                  mant := st.mant * 16 + ((lowerOr c).toNat - 97 + 10),
                  fracDigits := if st.sawdot then st.fracDigits + 1 else st.fracDigits }
    else (st, c :: cs)

/-- The exponent digit loop of `strconv.readFloat`: the exponent stops growing
once it has reached 10000. -/
def readExpDigits : GoString → Nat → Bool → Nat × Bool × GoString
  | [], e, us => (e, us, [])
  | c :: cs, e, us =>
    if isDigit c then readExpDigits cs (if e < 10000 then e * 10 + digitVal c else e) us
    else if c = '_' then readExpDigits cs e true
    else (e, us, c :: cs)

/-- What `strconv.readFloat` has read: sign, base, all mantissa digits, the number
of them after the point, and the signed exponent. -/
structure FloatLit where
  neg : Bool
  hex : Bool
  mant : Nat
  fracDigits : Nat
  e : Int

/-- The optional exponent of `strconv.readFloat`: the signed exponent, whether an
underscore was seen and the unread rest, or `none` when the text is malformed. -/
def readExponent (hex : Bool) (r : GoString) : Option (Int × Bool × GoString) :=
  match r with
  | x :: xs =>
    if lowerOr x = (if hex then 'p' else 'e') then
      match xs with
      | [] => none
      | y :: ys =>
        let esign : Int := if y = '-' then -1 else 1
        let ds : GoString := if y = '+' ∨ y = '-' then ys else xs
        match ds with
        | [] => none
        | d :: _ =>
          if isDigit d then
            let r3 := readExpDigits ds 0 false
            some ((r3.1 : Int) * esign, r3.2.1, r3.2.2)
          else none
    else if hex then none
    else some (0, false, r)
  | [] => if hex then none else some (0, false, [])

/-- The base prefix test of `strconv.readFloat`:
`i+2 < len(s) && s[i] == '0' && lower(s[i+1]) == 'x'`. -/
def hasHexPrefix : GoString → Bool
  | a :: b :: _ :: _ => decide (a = '0') && decide (lowerOr b = 'x')
  | _ => false

/-- Go `strconv.readFloat`: the literal read from the front of `s` and the unread
rest, or `none` when no well-formed number starts `s`. -/
def readFloat (s : GoString) : Option (FloatLit × GoString) :=
  match s with
  | [] => none
  | c :: cs =>
    let neg : Bool := decide (c = '-')
    let s1 : GoString := if c = '+' ∨ c = '-' then cs else s
    let hex : Bool := hasHexPrefix s1
    let s2 : GoString := if hex then s1.drop 2 else s1
    let r1 := readMantissa hex s2 ⟨0, 0, false, false, false⟩
    if r1.1.sawdigits = false then none
    else
      match readExponent hex r1.2 with
      | none => none
      | some (e, us, rest) =>
        if (r1.1.underscores || us) = true
            ∧ underscoreOK (s.take (s.length - rest.length)) = false then none
        else some (⟨neg, hex, r1.1.mant, r1.1.fracDigits, e⟩, rest)

/-- The `float64` nearest to the literal: `mant * 10^(e - fracDigits)` for a decimal
literal, `mant * 2^(e - 4 * fracDigits)` for a hexadecimal one. -/
def FloatLit.value (l : FloatLit) : F64 :=
  if l.hex then
    let k : Int := l.e - 4 * (l.fracDigits : Int)
    roundF64 l.neg (scale l.mant k) (scale 1 (-k))
  else
    let k : Int := l.e - (l.fracDigits : Int)
    roundF64 l.neg (l.mant * 10 ^ k.toNat) (10 ^ (-k).toNat)

/-- Go `strconv.ParseFloat(s, 64)`: the value and the error (`none` is `nil`).  A
syntax error comes with the value 0, a range error with an infinity. -/
def ParseFloat (s : GoString) : F64 × Option NumErr :=
  match special s with
  | some (f, n) => if n ≠ s.length then (F64.zero, some NumErr.ErrSyntax) else (f, none)
  | none =>
    match readFloat s with
    | none => (F64.zero, some NumErr.ErrSyntax)
    | some (lit, rest) =>
      if rest ≠ [] then (F64.zero, some NumErr.ErrSyntax)
      else
        match lit.value with
        | F64.inf sgn => (F64.inf sgn, some NumErr.ErrRange)
        | f => (f, none)

/-! ## time.Time -/

/-- The two locations a `*time.Location` of the code can point to. -/
inductive Location where
  | Local
  | UTC
  deriving DecidableEq

/-- Go `time.Time`: the `wall` and `ext` words and the location pointer. -/
structure Time where
  wall : Nat
  ext : Int
  loc : Option Location
  deriving DecidableEq

/-- The zero `time.Time` (`var t time.Time`): January 1, year 1, 00:00:00 UTC. -/
def Time.zero : Time := ⟨0, 0, none⟩

/-- Seconds from January 1, year 1 to January 1, 1970. -/
def unixToInternal : Int := 62135596800

/-- Seconds from January 1, year 1 to January 1, 1885. -/
def wallToInternal : Int := 59453308800

/-- Go `time.unixTime`. -/
def unixTime (sec : Int) (nsec : Int) : Time :=
  ⟨nsec.toNat, wrap64 (sec + unixToInternal), some Location.Local⟩

/-- Go `time.Unix(sec, nsec)`: any `nsec` is accepted and carried into `sec`. -/
def Unix (sec : Int) (nsec : Int) : Time :=
  if nsec < 0 ∨ nsec ≥ 1000000000 then
    let n := Int.tdiv nsec 1000000000
    let sec1 := wrap64 (sec + n)
    let nsec1 := nsec - n * 1000000000
    if nsec1 < 0 then unixTime (wrap64 (sec1 - 1)) (nsec1 + 1000000000)
    else unixTime sec1 nsec1
  else unixTime sec nsec

/-- Go `(*Time).sec`: seconds since January 1, year 1. -/
def Time.sec (t : Time) : Int :=
  if t.wall / 2 ^ 63 % 2 = 1 then wrap64 (wallToInternal + ((t.wall % 2 ^ 63 / 2 ^ 30 : Nat) : Int))
  else t.ext

/-- Go `Time.Unix`: seconds since the Unix epoch. -/
def Time.Unix (t : Time) : Int := wrap64 (t.sec - unixToInternal)

/-- Go `Time.Nanosecond`: the nanosecond offset within the second. -/
def Time.Nanosecond (t : Time) : Nat := t.wall % 2 ^ 30

/-- Go `Time.IsZero`. -/
def Time.IsZero (t : Time) : Bool := decide (t.sec = 0) && decide (t.Nanosecond = 0)

/-- Go `Time.After`: whether the instant `t` is later than `u`; two times that both
carry a monotonic clock reading are compared by that reading. -/
def Time.After (t u : Time) : Bool :=
  if t.wall / 2 ^ 63 % 2 = 1 ∧ u.wall / 2 ^ 63 % 2 = 1 then decide (t.ext > u.ext)
  else decide (t.sec > u.sec) || (decide (t.sec = u.sec) && decide (t.Nanosecond > u.Nanosecond))

/-! ## irc/znc.go: the wire-time codec -/

/-- The text before the first `'.'` (all of `str` when there is none):
`secondsPortion` in `zncWireTimeToTime`. -/
def secondsPortion (str : GoString) : GoString :=
  let dot := IndexByte str '.'
  if dot = -1 then str else sliceTo str dot

/-- The text from the first `'.'` on (empty when there is none): `fracPortion` in
`zncWireTimeToTime`. -/
def fracPortion (str : GoString) : GoString :=
  let dot := IndexByte str '.'
  if dot = -1 then [] else sliceFrom str dot

/-- The nanosecond argument `int64(fraction*1000000000)` of `zncWireTimeToTime`. -/
def fracNanos (oor : F64 → Int) (fraction : F64) : Int :=
  F64.toInt64 oor (F64.mul fraction (F64.ofNat 1000000000))

/-- Go `zncWireTimeToTime` (irc/znc.go).  `oor` is the implementation's choice for
`int64(x)` when `x` is out of range. -/
def zncWireTimeToTime (oor : F64 → Int) (str : GoString) : Time :=
  let seconds := (ParseInt (secondsPortion str)).1
  let fraction := (ParseFloat (fracPortion str)).1
  Unix seconds (fracNanos oor fraction)

/-- The amd64 choice for an out-of-range `int64(x)`: the "integer indefinite"
value `0x8000000000000000` of CVTTSD2SQ. -/
def oorAmd64 : F64 → Int := fun _ => -9223372036854775808

/-- Value of a string of decimal digits, most significant first. -/
def decimalValue (ds : GoString) : Nat := ds.foldl (fun a c => a * 10 + digitVal c) 0

/-- A non-empty string of ASCII decimal digits. -/
def isDigits (ds : GoString) : Bool := !ds.isEmpty && ds.all isDigit

/-- Whether `s` is a decimal representation of `n`: an optional sign followed by
one or more decimal digits whose value, with that sign, is `n`. -/
def isDecimalOf (s : GoString) (n : Int) : Bool :=
  match s with
  | [] => false
  | c :: cs =>
    if c = '-' then isDigits cs && decide (n = -(decimalValue cs : Int))
    else if c = '+' then isDigits cs && decide (n = (decimalValue cs : Int))
    else isDigits s && decide (n = (decimalValue s : Int))

/-! ## Strings, continued -/

/-- Go `strings.Split(s, sep)` for a one-byte separator: the pieces between the
separators, always at least one. -/
def Split : GoString → Char → List GoString
  | [], _ => [[]]
  | c :: cs, sep =>
    if c = sep then [] :: Split cs sep
    else
      match Split cs sep with
      | [] => [[c]]
      | piece :: pieces => (c :: piece) :: pieces

/-- Go `unicode.ToLower`: ASCII is handled inline, any other code point goes through
the Unicode case tables, `lowerCase` here. -/
def unicodeToLower (lowerCase : Char → Char) (r : Char) : Char :=
  if r.toNat ≤ 127 then asciiLower r else lowerCase r

/-- Go `strings.ToLower`: every code point mapped by `unicode.ToLower` (the ASCII
fast path of the Go code computes the same string). -/
def ToLower (lowerCase : Char → Char) (s : GoString) : GoString :=
  s.map (unicodeToLower lowerCase)

/-- Go `unicode.IsSpace`: the Latin-1 spaces `'\t'`, `'\n'`, `'\v'`, `'\f'`, `'\r'`, `' '`,
U+0085, U+00A0, and the other code points with the White_Space property. -/
def isSpace (r : Char) : Bool :=
  let n := r.toNat
  decide (9 ≤ n ∧ n ≤ 13) || decide (n = 32) || decide (n = 133) || decide (n = 160)
    || decide (n = 5760) || decide (8192 ≤ n ∧ n ≤ 8202) || decide (n = 8232)
    || decide (n = 8233) || decide (n = 8239) || decide (n = 8287) || decide (n = 12288)

/-- The scan of `strings.Fields`: `cur` is the field being read, empty between
fields. -/
def fieldsLoop : GoString → GoString → List GoString
  | [], cur => if cur = [] then [] else [cur]
  | c :: cs, cur =>
    if isSpace c then
      if cur = [] then fieldsLoop cs [] else cur :: fieldsLoop cs []
    else fieldsLoop cs (cur ++ [c])

/-- Go `strings.Fields`: the maximal runs of non-space code points, in order. -/
def Fields (s : GoString) : List GoString := fieldsLoop s []

/-- The `%!(EXTRA ...)` report of `fmt` for string operands left unused. -/
def sprintfExtra : List GoString → GoString
  | [] => []
  | a :: rest =>
    "%!(EXTRA string=".toList ++ a
      ++ (rest.map (fun x => ", string=".toList ++ x)).flatten ++ ")".toList

/-- Whether the rune after a `'%'` is a verb that `fmt` prints for a string operand
without further directive: not a flag (`#`, `0`, `+`, `-`, space), not the start of
a width, a precision or an argument index (a digit, `*`, `.`, `[`), and not one of
the string verbs `q`, `x`, `X`. -/
def isPlainVerb (v : Char) : Bool :=
  !isDigit v && decide (v ∉ ['#', '+', '-', ' ', '*', '.', '[', 'q', 'x', 'X'])

/-- Whether every `'%'` of a format is directly followed by a plain verb, or ends
the format. -/
def plainFormat : GoString → Bool
  | [] => true
  | c :: rest =>
    if c = '%' then
      match rest with
      | [] => true
      | v :: rest1 => isPlainVerb v && plainFormat rest1
    else plainFormat rest

/-- Go `fmt.Sprintf(format, args...)` for string operands and a plain format: `%s`
and `%v` print the operand, `%T` its type `string`, `%%` a percent sign without
taking an operand, a verb without operand prints `%!v(MISSING)`, any other verb is
reported as `%!v(string=operand)`, a trailing `'%'` as `%!(NOVERB)`, unused
operands as `%!(EXTRA ...)`. -/
def sprintfPlain : GoString → List GoString → GoString
  | [], args => sprintfExtra args
  | c :: rest, args =>
    if c = '%' then
      match rest with
      | [] => "%!(NOVERB)".toList ++ sprintfExtra args
      | v :: rest1 =>
        if v = '%' then '%' :: sprintfPlain rest1 args
        else
          match args with
          | [] => ("%!".toList ++ [v] ++ "(MISSING)".toList) ++ sprintfPlain rest1 []
          | a :: as =>
            (if v = 's' ∨ v = 'v' then a
             else if v = 'T' then "string".toList
             else "%!".toList ++ [v] ++ "(string=".toList ++ a ++ ")".toList)
              ++ sprintfPlain rest1 as
    else c :: sprintfPlain rest args

/-- Go `fmt.Sprintf(format, args...)` for string operands.  A plain format is
computed here; for a format with flags, widths, precisions, argument indexes or
the verbs `q`, `x`, `X` the result is that of `fmt`, `other` here. -/
def Sprintf (other : GoString → List GoString → GoString) (format : GoString)
    (args : List GoString) : GoString :=
  if plainFormat format then sprintfPlain format args else other format args

/-! ## irc/znc.go: playback requests and the handlers -/

/-- Go `map[string]bool` insertion `m[k] = v` on an association list. -/
def mapSet : List (GoString × Bool) → GoString → Bool → List (GoString × Bool)
  | [], k, v => [(k, v)]
  | (k1, v1) :: rest, k, v =>
    if k1 = k then (k, v) :: rest else (k1, v1) :: mapSet rest k v

/-- Go map read `m[k]` on a possibly nil `map[string]bool`: `false` for a missing key
and for the nil map. -/
def mapGet (m : Option (List (GoString × Bool))) (k : GoString) : Bool :=
  match m with
  | none => false
  | some kvs => (kvs.lookup k).getD false

/-- Go `zncPlaybackTimes` (irc/znc.go): `targets` is `none` for the nil map. -/
structure zncPlaybackTimes where
  after : Time
  before : Time
  targets : Option (List (GoString × Bool))
  deriving DecidableEq

/-- The part of the session the handlers write: the field
`rb.session.zncPlaybackTimes`, `none` for the nil pointer. -/
structure Session where
  zncPlaybackTimes : Option zncPlaybackTimes
  deriving DecidableEq

/-- A call made by the handlers to code outside irc/znc.go, with its arguments as
passed (the receiver, `client` and `rb` are left out): `client.history.Between`,
`client.replayPrivmsgHistory`, `channel.autoReplayHistory`, `rb.Flush` and `rb.Add`
(whose first argument is always `nil`). -/
inductive Call (Item Channel : Type) where
  | historyBetween (after before : Time) (flag : Bool) (limit : Int)
  | replayPrivmsgHistory (items : List Item) (flag : Bool)
  | autoReplayHistory (channel : Channel) (sinceMarker : GoString)
  | rbFlush (blocking : Bool)
  | rbAdd (pfx : GoString) (command : GoString) (params : List GoString)
  deriving DecidableEq

/-- What the handlers read from their collaborators: the platform, the Unicode
case table, the server name, `rb.target.Nick()`, the translation `client.t`,
`fmt.Sprintf` on the formats that are not plain, `config.History.ChathistoryMax`,
the items `client.history.Between` returns, the channels `client.Channels()`
returns, and `CasefoldChannel` (`none` for an error). -/
structure Env (Item Channel : Type) where
  oor : F64 → Int
  lowerCase : Char → Char
  serverName : GoString
  nick : GoString
  t : GoString → GoString
  sprintfOther : GoString → List GoString → GoString
  chathistoryMax : Int
  between : Time → Time → Bool → Int → List Item
  channels : List Channel
  casefoldChannel : GoString → Option GoString

/-- The state the handlers act on: the session, and the log of the calls made so
far, oldest first, each with the playback request the session held when the
call was made.  The field `zncPlaybackTimes` is written by `zncPlaybackHandler`
only: the callees read it and are taken not to write it. -/
structure World (Item Channel : Type) where
  session : Session
  calls : List (Call Item Channel × Option zncPlaybackTimes)
  deriving DecidableEq

/-- Record a call to a collaborator. -/
def World.call {Item Channel : Type} (w : World Item Channel) (c : Call Item Channel) :
    World Item Channel :=
  { w with calls := w.calls ++ [(c, w.session.zncPlaybackTimes)] }

/-- The loop over the comma-separated names of `zncPlaybackHandler`: the map is
created at the first name that casefolds. -/
def resolveTargets (casefoldChannel : GoString → Option GoString) (targetString : GoString) :
    Option (List (GoString × Bool)) :=
  (Split targetString ',').foldl
    (fun targets targetName =>
      match casefoldChannel targetName with
      | some cfTarget => some (mapSet (targets.getD []) cfTarget true)
      | none => targets)
    none

/-- The final loop of `zncPlaybackHandler`: for each channel, `autoReplayHistory`
then a blocking flush. -/
def replayChannels {Item Channel : Type} (channels : List Channel) (w : World Item Channel) :
    World Item Channel :=
  channels.foldl
    (fun w channel => (w.call (Call.autoReplayHistory channel [])).call (Call.rbFlush true)) w

/-- Go `zncPlaybackHandler` (irc/znc.go). -/
def zncPlaybackHandler {Item Channel : Type} (env : Env Item Channel) (_command : GoString)
    (params : List GoString) (w : World Item Channel) : World Item Channel :=
  if params.length < 2 then w
  else if ToLower env.lowerCase (params.getD 0 []) ≠ "play".toList then w
  else
    let targetString := params.getD 1 []
    let after := if 2 < params.length then zncWireTimeToTime env.oor (params.getD 2 []) else Time.zero
    let before := if 3 < params.length then zncWireTimeToTime env.oor (params.getD 3 []) else Time.zero
    let r : World Item Channel × Option (List (GoString × Bool)) :=
      if params.getD 1 [] = "*".toList then
        let items := env.between after before false env.chathistoryMax
        ((w.call (Call.historyBetween after before false env.chathistoryMax)).call
          (Call.replayPrivmsgHistory items true), none)
      else (w, resolveTargets env.casefoldChannel targetString)
    let w2 : World Item Channel :=
      { r.1 with session := { zncPlaybackTimes := some ⟨after, before, r.2⟩ } }
    replayChannels env.channels w2

/-- Go `zncCommandHandler` (irc/znc.go). -/
abbrev zncCommandHandler (Item Channel : Type) : Type :=
  Env Item Channel → GoString → List GoString → World Item Channel → World Item Channel

/-- Go `zncHandlers` (irc/znc.go): the module registry. -/
def zncHandlers (Item Channel : Type) : List (GoString × zncCommandHandler Item Channel) :=
  [("*playback".toList, zncPlaybackHandler)]

/-- Go `zncModuleHandler` (irc/znc.go). -/
def zncModuleHandler {Item Channel : Type} (env : Env Item Channel) (command : GoString)
    (params : List GoString) (w : World Item Channel) : World Item Channel :=
  let command := ToLower env.lowerCase command
  match (zncHandlers Item Channel).lookup command with
  | some subHandler => subHandler env command params w
  | none =>
    let nick := env.nick
    (w.call (Call.rbAdd env.serverName "NOTICE".toList
        [nick, Sprintf env.sprintfOther
          (env.t "Oragono does not emulate the ZNC module %s".toList) [command]])).call
      (Call.rbAdd "*status!znc@znc.in".toList "NOTICE".toList
        [nick, Sprintf env.sprintfOther (env.t "No such module [%s]".toList) [command]])

/-- Go `zncPrivmsgHandler` (irc/znc.go). -/
def zncPrivmsgHandler {Item Channel : Type} (env : Env Item Channel) (command : GoString)
    (privmsg : GoString) (w : World Item Channel) : World Item Channel :=
  zncModuleHandler env command (Fields privmsg) w

/-! ## irc/utils/crypto.go

In this file the strings are tokens compared and produced byte by byte, so a
string is modelled as its list of bytes. -/

/-- A Go `byte`. -/
abbrev Byte := Fin 256

/-- Go `subtle.ConstantTimeByteEq(x, y)`: `int((uint32(x^y) - 1) >> 31)`. -/
def ConstantTimeByteEq (x y : Nat) : Nat :=
  (((x ^^^ y) + 4294967295) % 4294967296) >>> 31

/-- Go `subtle.ConstantTimeCompare(x, y)`: 1 when the two slices have equal
contents and 0 otherwise, also when their lengths differ. -/
def ConstantTimeCompare (x y : List Byte) : Nat :=
  if x.length ≠ y.length then 0
  else
    ConstantTimeByteEq
      ((x.zip y).foldl (fun v p => v ||| (p.1.val ^^^ p.2.val)) 0) 0

/-- Go `SecretTokensMatch` (irc/utils/crypto.go). -/
def SecretTokensMatch (storedToken suppliedToken : List Byte) : Bool :=
  if storedToken.length = 0 then false
  else decide (ConstantTimeCompare storedToken suppliedToken = 1)

/-- Go `SecretTokenLength` (irc/utils/crypto.go). -/
def SecretTokenLength : Nat := 26

/-- The byte of an ASCII character. -/
def byteOf (c : Char) : Byte := Fin.ofNat c.toNat

/-- The alphabet of `B32Encoder` (irc/utils/crypto.go), as bytes. -/
def b32Alphabet : List Byte := "abcdefghijkmnpqrstuvwxyz23456789".toList.map byteOf

/-- The `switch len(src)` of Go `(*base32.Encoding).Encode`: the eight 5-bit blocks
`b[0..7]` unpacked from the first bytes of `src`, at most five of them; byte shifts
wrap at 256. -/
def b32Quantum (src : List Byte) : List Nat :=
  match src with
  | [] => [0, 0, 0, 0, 0, 0, 0, 0]
  | [s0] =>
    [s0.val >>> 3,
     0 ||| ((s0.val <<< 2) % 256 &&& 31),
     0, 0, 0, 0, 0, 0]
  | [s0, s1] =>
    [s0.val >>> 3,
     ((s1.val >>> 6) &&& 31) ||| ((s0.val <<< 2) % 256 &&& 31),
     (s1.val >>> 1) &&& 31,
     0 ||| ((s1.val <<< 4) % 256 &&& 31),
     0, 0, 0, 0]
  | [s0, s1, s2] =>
    [s0.val >>> 3,
     ((s1.val >>> 6) &&& 31) ||| ((s0.val <<< 2) % 256 &&& 31),
     (s1.val >>> 1) &&& 31,
     ((s2.val >>> 4) &&& 31) ||| ((s1.val <<< 4) % 256 &&& 31),
     0 ||| ((s2.val <<< 1) % 256 &&& 31),
     0, 0, 0]
  | [s0, s1, s2, s3] =>
    [s0.val >>> 3,
     ((s1.val >>> 6) &&& 31) ||| ((s0.val <<< 2) % 256 &&& 31),
     (s1.val >>> 1) &&& 31,
     ((s2.val >>> 4) &&& 31) ||| ((s1.val <<< 4) % 256 &&& 31),
     (s3.val >>> 7) ||| ((s2.val <<< 1) % 256 &&& 31),
     (s3.val >>> 2) &&& 31,
     0 ||| ((s3.val <<< 3) % 256 &&& 31),
     0]
  | s0 :: s1 :: s2 :: s3 :: s4 :: _ =>
    [s0.val >>> 3,
     ((s1.val >>> 6) &&& 31) ||| ((s0.val <<< 2) % 256 &&& 31),
     (s1.val >>> 1) &&& 31,
     ((s2.val >>> 4) &&& 31) ||| ((s1.val <<< 4) % 256 &&& 31),
     (s3.val >>> 7) ||| ((s2.val <<< 1) % 256 &&& 31),
     (s3.val >>> 2) &&& 31,
     (s4.val >>> 5) ||| ((s3.val <<< 3) % 256 &&& 31),
     s4.val &&& 31]

/-- The bytes Go `Encode` writes for one quantum into a destination with `size`
bytes left: `enc.encode[b[i]&31]` for the first `min size 8` blocks. -/
def b32Symbols (encode : List Byte) (b : List Nat) (size : Nat) : List Byte :=
  (b.take (min size 8)).map (fun x => encode.getD (x &&& 31) 0)

/-- Go `(*base32.Encoding).Encode` without padding: `size` is the length of what is
left of `dst`; a final quantum of fewer than five bytes ends the loop. -/
def b32Encode (encode : List Byte) : List Byte → Nat → List Byte
  | [], _ => []
  | s0 :: s1 :: s2 :: s3 :: s4 :: rest, size =>
    b32Symbols encode (b32Quantum [s0, s1, s2, s3, s4]) size ++ b32Encode encode rest (size - 8)
  | src, size => b32Symbols encode (b32Quantum src) size

/-- Go `(*base32.Encoding).EncodedLen` without padding. -/
def b32EncodedLen (n : Nat) : Nat := (n * 8 + 4) / 5

/-- Go `B32Encoder.EncodeToString` (irc/utils/crypto.go): base32 over the alphabet
of `B32Encoder`, without padding. -/
def B32EncodeToString (src : List Byte) : List Byte :=
  b32Encode b32Alphabet src (b32EncodedLen src.length)

/-- Go `GenerateSecretToken` (irc/utils/crypto.go), as a function of the 16 bytes
`rand.Read` has left in `buf`. -/
def GenerateSecretToken (buf : List Byte) : List Byte := B32EncodeToString buf

/-! ## Vocabulary of the statements -/

/-- The two calls of the immediate private-message replay, as logged while the
session holds `req`: the history query and the replay of its result. -/
def immediateReplay {Item Channel : Type} (env : Env Item Channel) (after before : Time)
    (req : Option zncPlaybackTimes) : List (Call Item Channel × Option zncPlaybackTimes) :=
  [(Call.historyBetween after before false env.chathistoryMax, req),
   (Call.replayPrivmsgHistory (env.between after before false env.chathistoryMax) true, req)]

/-- One replay-then-flush cycle per channel, in order, as logged while the session
holds `req`. -/
def channelCycles {Item Channel : Type} (channels : List Channel)
    (req : Option zncPlaybackTimes) : List (Call Item Channel × Option zncPlaybackTimes) :=
  channels.flatMap
    (fun channel => [(Call.autoReplayHistory channel [], req), (Call.rbFlush true, req)])

/-- Whether a call is a history range query. -/
def Call.isHistoryBetween {Item Channel : Type} : Call Item Channel → Bool
  | Call.historyBetween _ _ _ _ => true
  | _ => false

/-- Whether a call is a private-message replay. -/
def Call.isReplayPrivmsgHistory {Item Channel : Type} : Call Item Channel → Bool
  | Call.replayPrivmsgHistory _ _ => true
  | _ => false

/-- Whether a call is a channel auto-replay. -/
def Call.isAutoReplayHistory {Item Channel : Type} : Call Item Channel → Bool
  | Call.autoReplayHistory _ _ => true
  | _ => false

/-- Whether a call is a flush of the response buffer. -/
def Call.isFlush {Item Channel : Type} : Call Item Channel → Bool
  | Call.rbFlush _ => true
  | _ => false

/-- Whether a call adds a message to the response buffer. -/
def Call.isAdd {Item Channel : Type} : Call Item Channel → Bool
  | Call.rbAdd _ _ _ => true
  | _ => false

/-- Modelled from the spec: the "whitespace-delimited fields" of a text, as the
non-empty pieces between its white-space code points. -/
def whitespaceDelimitedFields (s : GoString) : List GoString :=
  (s.splitOnP isSpace).filter (fun f => f ≠ [])

/-- The bound `zncPlaybackHandler` decodes from the parameter at index `i`: the zero
time when the parameter is absent. -/
def boundAt (oor : F64 → Int) (params : List GoString) (i : Nat) : Time :=
  if i < params.length then zncWireTimeToTime oor (params.getD i []) else Time.zero

/-- Whether `zncPlaybackHandler` accepts a parameter list: at least two parameters,
the first one equal to `"play"` once lower-cased. -/
def accepted (lowerCase : Char → Char) (params : List GoString) : Bool :=
  decide (2 ≤ params.length) && decide (ToLower lowerCase (params.getD 0 []) = "play".toList)

/-- The playback request an accepted parameter list describes. -/
def requestOf {Item Channel : Type} (env : Env Item Channel) (params : List GoString) :
    zncPlaybackTimes :=
  ⟨boundAt env.oor params 2, boundAt env.oor params 3,
    if params.getD 1 [] = "*".toList then none
    else resolveTargets env.casefoldChannel (params.getD 1 [])⟩

/-! ## Sample collaborators, to instantiate the statements -/

/-- Modelled from the spec: `CasefoldChannel` (irc/strings.go, not under src/)
normalizes a channel name to its canonical comparison form and fails on a name
that is not a channel name.  This stand-in accepts a name that starts with `'#'`
and has no space, and folds its ASCII letters. -/
def sampleCasefoldChannel (name : GoString) : Option GoString :=
  match name with
  | [] => none
  | c :: _ => if c = '#' ∧ ' ' ∉ name then some (name.map asciiLower) else none

/-- A translation that knows one German text and leaves every other text alone. -/
def sampleTranslation (s : GoString) : GoString :=
  if s = "No such module [%s]".toList then "Kein solches Modul [%s]".toList else s

/-- Sample collaborators: an amd64 server named `irc.example.com`, a requester
`alice` in the channels `#general` and `#dev`, no translation, three stored
history items whatever the range.  Every sample text is a plain format, so
`sprintfOther` is never reached: it is a stand-in that returns the format. -/
def sampleEnv : Env Nat GoString where
  oor := oorAmd64
  lowerCase := fun c => c
  serverName := "irc.example.com".toList
  nick := "alice".toList
  t := fun s => s
  sprintfOther := fun format _ => format
  chathistoryMax := 1000
  between := fun _ _ _ _ => [1, 2, 3]
  channels := ["#general".toList, "#dev".toList]
  casefoldChannel := sampleCasefoldChannel

/-- The sample collaborators for a requester whose language has a translation. -/
def sampleEnvTranslated : Env Nat GoString := { sampleEnv with t := sampleTranslation }

/-- A fresh session: no playback request stored, no call made. -/
def sampleWorld : World Nat GoString := ⟨⟨none⟩, []⟩

/-- A 16-byte buffer: the bytes 3, 20, 37, ..., 17 apart. -/
def sampleBuffer : List Byte := (List.range 16).map (fun i => Fin.ofNat (i * 17 + 3))

/-- The same buffer with the low bit of its last byte flipped. -/
def sampleBufferLastBit : List Byte := (List.range 15).map (fun i => Fin.ofNat (i * 17 + 3)) ++ [3]

/-- A session that already holds a playback request. -/
def sampleWorldBusy : World Nat GoString :=
  ⟨⟨some ⟨Unix 5 0, Unix 6 0, some [("#old".toList, true)]⟩⟩, [(Call.rbFlush false, none)]⟩

/-! ## Lemmas on the parsers -/

theorem isDigit_iff (c : Char) : isDigit c = true ↔ 48 ≤ c.toNat ∧ c.toNat ≤ 57 := by
  simp [isDigit]

theorem digitVal_le_of_isDigit {c : Char} (h : isDigit c = true) : digitVal c ≤ 9 := by
  rw [isDigit_iff] at h
  unfold digitVal
  omega

theorem isDigit_ne {c d : Char} (h : isDigit c = true) (hd : isDigit d = false) : c ≠ d := by
  intro hcd
  rw [hcd, hd] at h
  exact Bool.noConfusion h

theorem le_foldl_digits (ds : GoString) (n : Nat) :
    n ≤ ds.foldl (fun a c => a * 10 + digitVal c) n := by
  induction ds generalizing n with
  | nil => simp
  | cons c cs ih =>
    simp only [List.foldl_cons]
    have := ih (n * 10 + digitVal c)
    omega

theorem parseUintLoop_digits (ds : GoString) (n : Nat)
    (hd : ∀ c ∈ ds, isDigit c = true)
    (hv : ds.foldl (fun a c => a * 10 + digitVal c) n ≤ maxUint64) :
    parseUintLoop ds n = (ds.foldl (fun a c => a * 10 + digitVal c) n, none) := by
  induction ds generalizing n with
  | nil => simp [parseUintLoop]
  | cons c cs ih =>
    have hc : isDigit c = true := hd c (List.mem_cons_self _ _)
    have hcs : ∀ x ∈ cs, isDigit x = true := fun x hx => hd x (List.mem_cons_of_mem _ hx)
    simp only [List.foldl_cons] at hv
    have hge := le_foldl_digits cs (n * 10 + digitVal c)
    have hmax : n * 10 + digitVal c ≤ maxUint64 := le_trans hge hv
    unfold maxUint64 at hmax
    have h9 := digitVal_le_of_isDigit hc
    have hmod : (n * 10 + digitVal c) % 18446744073709551616 = n * 10 + digitVal c :=
      Nat.mod_eq_of_lt (by omega)
    unfold parseUintLoop
    simp only [hc, if_true, maxUint64, hmod, List.foldl_cons]
    rw [if_neg (by omega), if_neg (by omega)]
    exact ih _ hcs hv

theorem isDigits_iff (ds : GoString) :
    isDigits ds = true ↔ ds ≠ [] ∧ ∀ c ∈ ds, isDigit c = true := by
  cases ds <;> simp [isDigits]

theorem isDigit_minus : isDigit '-' = false := by decide
theorem isDigit_plus : isDigit '+' = false := by decide
theorem isDigit_dot : isDigit '.' = false := by decide

theorem ParseUint_digits (ds : GoString) (hd : isDigits ds = true)
    (hv : decimalValue ds ≤ maxUint64) : ParseUint ds = (decimalValue ds, none) := by
  rw [isDigits_iff] at hd
  unfold ParseUint
  rw [if_neg hd.1]
  exact parseUintLoop_digits ds 0 hd.2 hv

theorem ParseInt_unsigned (ds : GoString) (hd : isDigits ds = true)
    (hv : (decimalValue ds : Int) ≤ maxInt64) :
    ParseInt ds = ((decimalValue ds : Int), none) := by
  have hd2 := (isDigits_iff ds).1 hd
  unfold maxInt64 at hv
  cases ds with
  | nil => exact absurd rfl hd2.1
  | cons c cs =>
    have hc : isDigit c = true := hd2.2 c (List.mem_cons_self _ _)
    have hm : c ≠ '-' := isDigit_ne hc isDigit_minus
    have hp : c ≠ '+' := isDigit_ne hc isDigit_plus
    have hu := ParseUint_digits (c :: cs) hd (by unfold maxUint64; omega)
    simp only [ParseInt, hm, hp, or_self, if_false, hu, decide_False]
    simp
    omega

theorem ParseInt_plus (ds : GoString) (hd : isDigits ds = true)
    (hv : (decimalValue ds : Int) ≤ maxInt64) :
    ParseInt ('+' :: ds) = ((decimalValue ds : Int), none) := by
  unfold maxInt64 at hv
  have hu := ParseUint_digits ds hd (by unfold maxUint64; omega)
  simp [ParseInt, hu]
  omega

theorem ParseInt_minus (ds : GoString) (hd : isDigits ds = true)
    (hv : minInt64 ≤ -(decimalValue ds : Int)) :
    ParseInt ('-' :: ds) = (-(decimalValue ds : Int), none) := by
  unfold minInt64 at hv
  have hu := ParseUint_digits ds hd (by unfold maxUint64; omega)
  simp [ParseInt, hu]
  omega

theorem ParseInt_of_isDecimalOf (s : GoString) (n : Int) (h : isDecimalOf s n = true)
    (hn : inInt64 n) : ParseInt s = (n, none) := by
  unfold inInt64 at hn
  cases s with
  | nil => simp [isDecimalOf] at h
  | cons c cs =>
    simp only [isDecimalOf] at h
    by_cases hm : c = '-'
    · subst hm
      simp only [if_true, Bool.and_eq_true, decide_eq_true_eq] at h
      rw [h.2] at hn ⊢
      exact ParseInt_minus cs h.1 hn.1
    · rw [if_neg hm] at h
      by_cases hp : c = '+'
      · subst hp
        simp only [if_true, Bool.and_eq_true, decide_eq_true_eq] at h
        rw [h.2] at hn ⊢
        exact ParseInt_plus cs h.1 hn.2
      · rw [if_neg hp] at h
        simp only [Bool.and_eq_true, decide_eq_true_eq] at h
        rw [h.2] at hn ⊢
        exact ParseInt_unsigned (c :: cs) h.1 hn.2

theorem IndexByte_of_not_mem (s : GoString) (c : Char) (h : c ∉ s) : IndexByte s c = -1 := by
  induction s with
  | nil => rfl
  | cons x xs ih =>
    have hx : x ≠ c := fun e => h (e ▸ List.mem_cons_self _ _)
    have hxs : c ∉ xs := fun e => h (List.mem_cons_of_mem _ e)
    simp [IndexByte, hx, ih hxs]

theorem dot_not_mem_of_isDigits (ds : GoString) (hd : isDigits ds = true) : '.' ∉ ds := by
  intro hmem
  have := ((isDigits_iff ds).1 hd).2 _ hmem
  rw [isDigit_dot] at this
  exact Bool.noConfusion this

theorem dot_not_mem_of_isDecimalOf (s : GoString) (n : Int) (h : isDecimalOf s n = true) :
    '.' ∉ s := by
  cases s with
  | nil => simp
  | cons c cs =>
    simp only [isDecimalOf] at h
    by_cases hm : c = '-'
    · subst hm
      simp only [if_true, Bool.and_eq_true] at h
      intro hmem
      rcases List.mem_cons.1 hmem with h1 | h1
      · exact absurd h1 (by decide)
      · exact dot_not_mem_of_isDigits cs h.1 h1
    · rw [if_neg hm] at h
      by_cases hp : c = '+'
      · subst hp
        simp only [if_true, Bool.and_eq_true] at h
        intro hmem
        rcases List.mem_cons.1 hmem with h1 | h1
        · exact absurd h1 (by decide)
        · exact dot_not_mem_of_isDigits cs h.1 h1
      · rw [if_neg hp] at h
        simp only [Bool.and_eq_true] at h
        exact dot_not_mem_of_isDigits _ h.1

theorem secondsPortion_of_not_mem (s : GoString) (h : '.' ∉ s) : secondsPortion s = s := by
  simp [secondsPortion, IndexByte_of_not_mem s '.' h]

theorem fracPortion_of_not_mem (s : GoString) (h : '.' ∉ s) : fracPortion s = [] := by
  simp [fracPortion, IndexByte_of_not_mem s '.' h]

theorem ParseFloat_nil : ParseFloat [] = (F64.zero, some NumErr.ErrSyntax) := by decide

theorem toInt64_zero (oor : F64 → Int) (neg : Bool) (e : Int) :
    F64.toInt64 oor (F64.fin neg 0 e) = 0 := by
  simp [F64.toInt64, F64.truncInt64, scale, inInt64, minInt64, maxInt64]

theorem fracNanos_zero (oor : F64 → Int) : fracNanos oor F64.zero = 0 := by
  have h : F64.mul F64.zero (F64.ofNat 1000000000) = F64.fin false 0 (-1074) := by decide!
  rw [fracNanos, h, toInt64_zero]

theorem Unix_zero_nsec (sec : Int) : Unix sec 0 = unixTime sec 0 := by
  simp [Unix]

theorem Time_Unix_Unix (n : Int) (hn : inInt64 n) : (Unix n 0).Unix = n := by
  unfold inInt64 minInt64 maxInt64 at hn
  rw [Unix_zero_nsec]
  simp only [unixTime, Time.Unix, Time.sec, Int.toNat_zero, Nat.zero_div, Nat.zero_mod,
    if_false, wrap64, unixToInternal]
  norm_num
  omega

theorem Time_Nanosecond_Unix (n : Int) : (Unix n 0).Nanosecond = 0 := by
  rw [Unix_zero_nsec]
  simp [unixTime, Time.Nanosecond]

theorem zncWireTimeToTime_integer (oor : F64 → Int) (s : GoString) (n : Int)
    (hs : isDecimalOf s n = true) (hn : inInt64 n) : zncWireTimeToTime oor s = Unix n 0 := by
  have hdot := dot_not_mem_of_isDecimalOf s n hs
  unfold zncWireTimeToTime
  rw [secondsPortion_of_not_mem s hdot, fracPortion_of_not_mem s hdot,
    ParseInt_of_isDecimalOf s n hs hn, ParseFloat_nil]
  simp only [fracNanos_zero]

theorem IndexByte_append_dot (ip fp : GoString) (h : '.' ∉ ip) :
    IndexByte (ip ++ '.' :: fp) '.' = (ip.length : Int) := by
  induction ip with
  | nil => simp [IndexByte]
  | cons x xs ih =>
    have hx : x ≠ '.' := fun e => h (e ▸ List.mem_cons_self _ _)
    have hxs : '.' ∉ xs := fun e => h (List.mem_cons_of_mem _ e)
    show IndexByte (x :: (xs ++ '.' :: fp)) '.' = _
    unfold IndexByte
    rw [if_neg hx, ih hxs]
    simp only [List.length_cons, Nat.cast_add, Nat.cast_one]
    rw [if_neg (by omega)]

theorem secondsPortion_append_dot (ip fp : GoString) (h : '.' ∉ ip) :
    secondsPortion (ip ++ '.' :: fp) = ip := by
  have hne : (ip.length : Int) ≠ -1 := by omega
  simp [secondsPortion, IndexByte_append_dot ip fp h, hne, sliceTo]

theorem fracPortion_append_dot (ip fp : GoString) (h : '.' ∉ ip) :
    fracPortion (ip ++ '.' :: fp) = '.' :: fp := by
  have hne : (ip.length : Int) ≠ -1 := by omega
  simp [fracPortion, IndexByte_append_dot ip fp h, hne, sliceFrom]

theorem isDigit_underscore : isDigit '_' = false := by decide

theorem readMantissa_digits (ds : GoString) (st : MantState)
    (hd : ∀ c ∈ ds, isDigit c = true) (hdot : st.sawdot = true) :
    readMantissa false ds st =
      (⟨ds.foldl (fun a c => a * 10 + digitVal c) st.mant, st.fracDigits + ds.length, true,
          st.sawdigits || !ds.isEmpty, st.underscores⟩, []) := by
  induction ds generalizing st with
  | nil =>
    cases st
    simp only [readMantissa, List.foldl_nil, List.length_nil, Nat.add_zero, List.isEmpty_nil,
      Bool.not_true, Bool.or_false] at *
    rw [hdot]
  | cons c cs ih =>
    have hc : isDigit c = true := hd c (List.mem_cons_self _ _)
    have hcs : ∀ x ∈ cs, isDigit x = true := fun x hx => hd x (List.mem_cons_of_mem _ hx)
    have h1 : c ≠ '_' := isDigit_ne hc isDigit_underscore
    have h2 : c ≠ '.' := isDigit_ne hc isDigit_dot
    unfold readMantissa
    rw [if_neg h1, if_neg h2, if_pos hc, ih _ hcs (by simpa using hdot)]
    simp [hdot]
    omega

theorem ParseFloat_dot_digits (fp : GoString) (hd : isDigits fp = true) :
    (ParseFloat ('.' :: fp)).1 = roundF64 false (decimalValue fp) (10 ^ fp.length) := by
  have hd2 := (isDigits_iff fp).1 hd
  have hne : fp.isEmpty = false := by
    cases fp with
    | nil => exact absurd rfl hd2.1
    | cons _ _ => rfl
  have hsp : special ('.' :: fp) = none := by simp [special]
  have hm : readMantissa false ('.' :: fp) ⟨0, 0, false, false, false⟩ =
      (⟨decimalValue fp, fp.length, true, true, false⟩, []) := by
    unfold readMantissa
    rw [if_neg (by decide), if_pos rfl]
    simp only [Bool.false_eq_true, if_false]
    rw [readMantissa_digits fp _ hd2.2 rfl]
    simp [hne, decimalValue]
  have hhex : hasHexPrefix ('.' :: fp) = false := by
    rcases fp with _ | ⟨a, _ | ⟨b, r⟩⟩ <;> simp [hasHexPrefix]
  have hrf : readFloat ('.' :: fp) = some (⟨false, false, decimalValue fp, fp.length, 0⟩, []) := by
    unfold readFloat
    simp only [show ('.' : Char) ≠ '-' from by decide, show ('.' : Char) ≠ '+' from by decide,
      or_self, if_false, decide_False, hhex, Bool.false_eq_true, hm, readExponent]
    simp
  unfold ParseFloat
  rw [hsp]
  simp only [hrf]
  have hv : FloatLit.value ⟨false, false, decimalValue fp, fp.length, 0⟩
      = roundF64 false (decimalValue fp) (10 ^ fp.length) := by
    simp [FloatLit.value]
  rw [hv]
  cases roundF64 false (decimalValue fp) (10 ^ fp.length) <;> simp

theorem nanos_exact_one_digit : ∀ v < 10,
    F64.truncInt64 (F64.mul (roundF64 false v 10) (F64.ofNat 1000000000))
      = some ((v * 100000000 : Nat) : Int) := by decide!

theorem nanos_exact_two_digits : ∀ v < 100,
    F64.truncInt64 (F64.mul (roundF64 false v 100) (F64.ofNat 1000000000))
      = some ((v * 10000000 : Nat) : Int) := by decide!

theorem nanos_exact_three_digits_0 : ∀ v < 100,
    F64.truncInt64 (F64.mul (roundF64 false (v + 0) 1000) (F64.ofNat 1000000000))
      = some (((v + 0) * 1000000 : Nat) : Int) := by decide!

theorem nanos_exact_three_digits_1 : ∀ v < 100,
    F64.truncInt64 (F64.mul (roundF64 false (v + 100) 1000) (F64.ofNat 1000000000))
      = some (((v + 100) * 1000000 : Nat) : Int) := by decide!

theorem nanos_exact_three_digits_2 : ∀ v < 100,
    F64.truncInt64 (F64.mul (roundF64 false (v + 200) 1000) (F64.ofNat 1000000000))
      = some (((v + 200) * 1000000 : Nat) : Int) := by decide!

theorem nanos_exact_three_digits_3 : ∀ v < 100,
    F64.truncInt64 (F64.mul (roundF64 false (v + 300) 1000) (F64.ofNat 1000000000))
      = some (((v + 300) * 1000000 : Nat) : Int) := by decide!

theorem nanos_exact_three_digits_4 : ∀ v < 100,
    F64.truncInt64 (F64.mul (roundF64 false (v + 400) 1000) (F64.ofNat 1000000000))
      = some (((v + 400) * 1000000 : Nat) : Int) := by decide!

theorem nanos_exact_three_digits_5 : ∀ v < 100,
    F64.truncInt64 (F64.mul (roundF64 false (v + 500) 1000) (F64.ofNat 1000000000))
      = some (((v + 500) * 1000000 : Nat) : Int) := by decide!

theorem nanos_exact_three_digits_6 : ∀ v < 100,
    F64.truncInt64 (F64.mul (roundF64 false (v + 600) 1000) (F64.ofNat 1000000000))
      = some (((v + 600) * 1000000 : Nat) : Int) := by decide!

theorem nanos_exact_three_digits_7 : ∀ v < 100,
    F64.truncInt64 (F64.mul (roundF64 false (v + 700) 1000) (F64.ofNat 1000000000))
      = some (((v + 700) * 1000000 : Nat) : Int) := by decide!

theorem nanos_exact_three_digits_8 : ∀ v < 100,
    F64.truncInt64 (F64.mul (roundF64 false (v + 800) 1000) (F64.ofNat 1000000000))
      = some (((v + 800) * 1000000 : Nat) : Int) := by decide!

theorem nanos_exact_three_digits_9 : ∀ v < 100,
    F64.truncInt64 (F64.mul (roundF64 false (v + 900) 1000) (F64.ofNat 1000000000))
      = some (((v + 900) * 1000000 : Nat) : Int) := by decide!

theorem nanos_exact_three_digits : ∀ v < 1000,
    F64.truncInt64 (F64.mul (roundF64 false v 1000) (F64.ofNat 1000000000))
      = some ((v * 1000000 : Nat) : Int) := by
  intro v hv
  have hsplit : v = v % 100 + 100 * (v / 100) := by omega
  have hlt : v % 100 < 100 := Nat.mod_lt _ (by decide)
  have hk : v / 100 < 10 := by omega
  generalize hq : v / 100 = k at hsplit hk
  generalize v % 100 = r at hsplit hlt
  subst hsplit
  interval_cases k
  · exact nanos_exact_three_digits_0 r hlt
  · exact nanos_exact_three_digits_1 r hlt
  · exact nanos_exact_three_digits_2 r hlt
  · exact nanos_exact_three_digits_3 r hlt
  · exact nanos_exact_three_digits_4 r hlt
  · exact nanos_exact_three_digits_5 r hlt
  · exact nanos_exact_three_digits_6 r hlt
  · exact nanos_exact_three_digits_7 r hlt
  · exact nanos_exact_three_digits_8 r hlt
  · exact nanos_exact_three_digits_9 r hlt

theorem decimalValue_append_lt (ds : GoString) (n : Nat) (hd : ∀ c ∈ ds, isDigit c = true) :
    ds.foldl (fun a c => a * 10 + digitVal c) n < (n + 1) * 10 ^ ds.length := by
  induction ds generalizing n with
  | nil => simp
  | cons c cs ih =>
    have hc : isDigit c = true := hd c (List.mem_cons_self _ _)
    have hcs : ∀ x ∈ cs, isDigit x = true := fun x hx => hd x (List.mem_cons_of_mem _ hx)
    have h9 := digitVal_le_of_isDigit hc
    simp only [List.foldl_cons, List.length_cons]
    calc cs.foldl (fun a c => a * 10 + digitVal c) (n * 10 + digitVal c)
        < (n * 10 + digitVal c + 1) * 10 ^ cs.length := ih _ hcs
      _ ≤ ((n + 1) * 10) * 10 ^ cs.length := Nat.mul_le_mul_right _ (by omega)
      _ = (n + 1) * 10 ^ (cs.length + 1) := by ring

theorem decimalValue_lt (ds : GoString) (hd : ∀ c ∈ ds, isDigit c = true) :
    decimalValue ds < 10 ^ ds.length := by
  have := decimalValue_append_lt ds 0 hd
  simpa [decimalValue] using this

theorem toInt64_of_truncInt64 (oor : F64 → Int) (x : F64) (v : Int)
    (h : F64.truncInt64 x = some v) : F64.toInt64 oor x = v := by
  simp [F64.toInt64, h]

theorem fracNanos_short_fraction (oor : F64 → Int) (fp : GoString) (hd : isDigits fp = true)
    (hlen : fp.length ≤ 3) :
    fracNanos oor (roundF64 false (decimalValue fp) (10 ^ fp.length))
      = ((decimalValue fp * 10 ^ (9 - fp.length) : Nat) : Int) := by
  have hd2 := (isDigits_iff fp).1 hd
  have hlt := decimalValue_lt fp hd2.2
  have hpos : 0 < fp.length := List.length_pos.2 hd2.1
  unfold fracNanos
  apply toInt64_of_truncInt64
  have hcases : fp.length = 1 ∨ fp.length = 2 ∨ fp.length = 3 := by omega
  rcases hcases with h | h | h
  · rw [h] at hlt ⊢
    exact nanos_exact_one_digit _ hlt
  · rw [h] at hlt ⊢
    exact nanos_exact_two_digits _ hlt
  · rw [h] at hlt ⊢
    exact nanos_exact_three_digits _ hlt

theorem zncWireTimeToTime_digits_dot_digits (oor : F64 → Int) (ip fp : GoString)
    (hip : isDigits ip = true) (hfp : isDigits fp = true)
    (hn : (decimalValue ip : Int) ≤ maxInt64) :
    zncWireTimeToTime oor (ip ++ '.' :: fp)
      = Unix (decimalValue ip)
          (fracNanos oor (roundF64 false (decimalValue fp) (10 ^ fp.length))) := by
  have hdot := dot_not_mem_of_isDigits ip hip
  unfold zncWireTimeToTime
  rw [secondsPortion_append_dot ip fp hdot, fracPortion_append_dot ip fp hdot,
    ParseInt_unsigned ip hip hn, ParseFloat_dot_digits fp hfp]

theorem ParseInt_syntax_error (s : GoString) (h : (ParseInt s).2 = some NumErr.ErrSyntax) :
    (ParseInt s).1 = 0 := by
  cases s with
  | nil => rfl
  | cons c cs =>
    simp only [ParseInt] at h ⊢
    split_ifs at h ⊢ <;> simp_all

theorem ParseInt_range (s : GoString) (h : (ParseInt s).2 = some NumErr.ErrRange) :
    (ParseInt s).1 = maxInt64 ∨ (ParseInt s).1 = minInt64 := by
  cases s with
  | nil => simp [ParseInt] at h
  | cons c cs =>
    simp only [ParseInt] at h ⊢
    split_ifs at h ⊢ <;> simp_all

theorem ParseFloat_syntax_error (s : GoString) (h : (ParseFloat s).2 = some NumErr.ErrSyntax) :
    (ParseFloat s).1 = F64.zero := by
  unfold ParseFloat at h ⊢
  split at h
  · split_ifs at h ⊢
    simp_all
  · split at h
    · rfl
    · split_ifs at h ⊢
      · rfl
      · split at h <;> simp_all

theorem ParseFloat_range (s : GoString) (h : (ParseFloat s).2 = some NumErr.ErrRange) :
    ∃ sgn, (ParseFloat s).1 = F64.inf sgn := by
  unfold ParseFloat at h ⊢
  split at h
  · split_ifs at h ⊢
    simp_all
  · split at h
    · simp at h
    · split_ifs at h ⊢
      · simp at h
      · split at h
        · rename_i sgn heq
          exact ⟨sgn, by simp [heq]⟩
        · simp at h

theorem fracNanos_inf (oor : F64 → Int) (sgn : Bool) :
    fracNanos oor (F64.inf sgn) = wrap64 (oor (F64.inf sgn)) := by
  have h : F64.ofNat 1000000000 = F64.fin false 8388608000000000 (-23) := by decide
  simp [fracNanos, h, F64.mul, F64.toInt64, F64.truncInt64]

/-! ## Error analysis of the float64 rounding -/

theorem ilog2Bits_spec (fuel j n : Nat) (h : n < 2 ^ 2 ^ (j + fuel)) :
    n < 2 ^ 2 ^ ilog2Bits fuel j n := by
  induction fuel generalizing j with
  | zero => simpa [ilog2Bits] using h
  | succ fuel ih =>
    unfold ilog2Bits
    by_cases hlt : n < 2 ^ 2 ^ j
    · rw [if_pos hlt]
      exact hlt
    · rw [if_neg hlt]
      apply ih
      have e : j + 1 + fuel = j + (fuel + 1) := by omega
      rw [e]
      exact h

theorem ilog2Search_spec (bits lo n : Nat) (h1 : 2 ^ lo ≤ n) (h2 : n < 2 ^ (lo + 2 ^ bits)) :
    2 ^ ilog2Search bits lo n ≤ n ∧ n < 2 ^ (ilog2Search bits lo n + 1) := by
  induction bits generalizing lo with
  | zero =>
    simp only [ilog2Search]
    exact ⟨h1, by simpa using h2⟩
  | succ bits ih =>
    unfold ilog2Search
    by_cases hge : 2 ^ (lo + 2 ^ bits) ≤ n
    · rw [if_pos hge]
      apply ih _ hge
      have e : lo + 2 ^ bits + 2 ^ bits = lo + 2 ^ (bits + 1) := by
        rw [pow_succ]
        omega
      rw [e]
      exact h2
    · rw [if_neg hge]
      exact ih _ h1 (by omega)

theorem ilog2_spec (n : Nat) (hn : 0 < n) : 2 ^ ilog2 n ≤ n ∧ n < 2 ^ (ilog2 n + 1) := by
  unfold ilog2
  apply ilog2Search_spec
  · simpa using hn
  · rw [Nat.zero_add]
    apply ilog2Bits_spec
    rw [Nat.zero_add]
    have h1 : n < 2 ^ n := Nat.lt_two_pow n
    have h2 : 2 ^ n ≤ 2 ^ 2 ^ n := Nat.pow_le_pow_right (by decide) (le_of_lt h1)
    omega

theorem ilog2_lt_of_lt_pow (n k : Nat) (hn : 0 < n) (h : n < 2 ^ k) : ilog2 n < k := by
  by_contra hk
  have h1 := (ilog2_spec n hn).1
  have h2 : 2 ^ k ≤ 2 ^ ilog2 n := Nat.pow_le_pow_right (by decide) (by omega)
  omega

theorem ilog2Ratio_le (num den j : Nat) (hnum : 0 < num) (hden : 0 < den)
    (h : num < den * 2 ^ j) : ilog2Ratio num den ≤ (j : Int) - 1 := by
  have hd := (ilog2_spec den hden).2
  have hlt : num < 2 ^ (ilog2 den + 1 + j) := by
    calc num < den * 2 ^ j := h
      _ < 2 ^ (ilog2 den + 1) * 2 ^ j := Nat.mul_lt_mul_of_pos_right hd (by positivity)
      _ = 2 ^ (ilog2 den + 1 + j) := by rw [← pow_add]
  have hk := ilog2_lt_of_lt_pow num _ hnum hlt
  unfold ilog2Ratio
  simp only
  split_ifs with htest
  · by_contra hcon
    have hk0 : (ilog2 num : Int) - (ilog2 den : Int) = (j : Int) := by omega
    rw [hk0] at htest
    simp only [scale, Int.toNat_ofNat] at htest
    have hz : (-(j : Int)).toNat = 0 := by omega
    rw [hz, pow_zero, Nat.mul_one] at htest
    omega
  · omega

theorem rneDiv_cases (n d : Nat) :
    (rneDiv n d = n / d ∧ 2 * (n % d) ≤ d) ∨ (rneDiv n d = n / d + 1 ∧ d ≤ 2 * (n % d)) := by
  unfold rneDiv
  simp only
  split_ifs with h1 h2 h3
  · exact Or.inl ⟨rfl, by omega⟩
  · exact Or.inr ⟨rfl, by omega⟩
  · exact Or.inl ⟨rfl, by omega⟩
  · exact Or.inr ⟨rfl, by omega⟩

theorem rneDiv_error (n d : Nat) (hd : 0 < d) :
    |(rneDiv n d : ℚ) - (n : ℚ) / (d : ℚ)| ≤ 1 / 2 := by
  have hdq : (0 : ℚ) < d := by exact_mod_cast hd
  have hn : (n : ℚ) = (d : ℚ) * ((n / d : Nat) : ℚ) + ((n % d : Nat) : ℚ) := by
    exact_mod_cast (Nat.div_add_mod n d).symm
  have hdiv : (n : ℚ) / (d : ℚ) = ((n / d : Nat) : ℚ) + ((n % d : Nat) : ℚ) / (d : ℚ) := by
    rw [hn]
    field_simp
    ring
  rw [abs_le, hdiv]
  rcases rneDiv_cases n d with ⟨he, h2⟩ | ⟨he, h2⟩
  · have h2q : 2 * ((n % d : Nat) : ℚ) ≤ d := by exact_mod_cast h2
    have hle : ((n % d : Nat) : ℚ) / (d : ℚ) ≤ 1 / 2 := by
      rw [div_le_iff₀ hdq]
      linarith
    have hge : (0 : ℚ) ≤ ((n % d : Nat) : ℚ) / (d : ℚ) := by positivity
    rw [he]
    constructor <;> linarith
  · have h2q : (d : ℚ) ≤ 2 * ((n % d : Nat) : ℚ) := by exact_mod_cast h2
    have hr : ((n % d : Nat) : ℚ) < d := by exact_mod_cast Nat.mod_lt n hd
    have hge : 1 / 2 ≤ ((n % d : Nat) : ℚ) / (d : ℚ) := by
      rw [le_div_iff₀ hdq]
      linarith
    have hlt : ((n % d : Nat) : ℚ) / (d : ℚ) < 1 := by
      rw [div_lt_iff₀ hdq]
      linarith
    rw [he]
    push_cast
    constructor <;> linarith

theorem scale_ratio (x y : Nat) (E : Int) :
    ((scale x (-E) : Nat) : ℚ) / ((scale y E : Nat) : ℚ)
      = (x : ℚ) / (y : ℚ) * (2 : ℚ) ^ (-E) := by
  unfold scale
  push_cast
  rcases le_or_lt 0 E with h | h
  · have h1 : (-E).toNat = 0 := by omega
    obtain ⟨k, rfl⟩ := Int.eq_ofNat_of_zero_le h
    rw [h1, Int.toNat_ofNat, pow_zero, mul_one, zpow_neg, zpow_natCast]
    field_simp
  · have h1 : E.toNat = 0 := by omega
    obtain ⟨k, hk⟩ := Int.eq_ofNat_of_zero_le (show 0 ≤ -E by omega)
    rw [h1, hk, Int.toNat_ofNat, pow_zero, mul_one, zpow_natCast]
    field_simp

theorem roundF64_value (num den : Nat) (hnum : 0 < num)
    (hE : max (ilog2Ratio num den - 52) (-1074) + 1 ≤ 971) :
    ∃ m e, roundF64 false num den = F64.fin false m e
      ∧ (e = max (ilog2Ratio num den - 52) (-1074)
          ∨ e = max (ilog2Ratio num den - 52) (-1074) + 1)
      ∧ (m : ℚ) * (2 : ℚ) ^ e
          = (rneDiv (scale num (-(max (ilog2Ratio num den - 52) (-1074))))
              (scale den (max (ilog2Ratio num den - 52) (-1074))) : ℚ)
            * (2 : ℚ) ^ (max (ilog2Ratio num den - 52) (-1074)) := by
  unfold roundF64
  rw [if_neg (by omega)]
  simp only
  generalize max (ilog2Ratio num den - 52) (-1074) = E at hE ⊢
  by_cases hm : rneDiv (scale num (-E)) (scale den E) = 2 ^ 53
  · rw [if_pos hm, if_pos hm, if_neg (by omega)]
    refine ⟨_, _, rfl, Or.inr rfl, ?_⟩
    rw [hm, zpow_add₀ (by norm_num : (2 : ℚ) ≠ 0)]
    push_cast
    ring
  · rw [if_neg hm, if_neg hm, if_neg (by omega)]
    exact ⟨_, _, rfl, Or.inl rfl, rfl⟩

theorem roundF64_error (num den : Nat) (hnum : 0 < num) (hden : 0 < den) (E : Int)
    (hEdef : E = max (ilog2Ratio num den - 52) (-1074)) (hE : E + 1 ≤ 971) :
    ∃ m e, roundF64 false num den = F64.fin false m e ∧ (e = E ∨ e = E + 1)
      ∧ |(m : ℚ) * (2 : ℚ) ^ e - (num : ℚ) / (den : ℚ)| ≤ (2 : ℚ) ^ E / 2 := by
  subst hEdef
  obtain ⟨m, e, hr, he, hv⟩ := roundF64_value num den hnum hE
  refine ⟨m, e, hr, he, ?_⟩
  generalize max (ilog2Ratio num den - 52) (-1074) = E at hv ⊢
  have hdpos : 0 < scale den E := by
    unfold scale
    positivity
  have herr := rneDiv_error (scale num (-E)) (scale den E) hdpos
  rw [scale_ratio] at herr
  have hpos : (0 : ℚ) < (2 : ℚ) ^ E := by positivity
  have hcancel : (2 : ℚ) ^ (-E) * (2 : ℚ) ^ E = 1 := by
    rw [← zpow_add₀ (by norm_num : (2 : ℚ) ≠ 0)]
    simp
  rw [hv]
  have key : (rneDiv (scale num (-E)) (scale den E) : ℚ) * (2 : ℚ) ^ E - (num : ℚ) / (den : ℚ)
      = ((rneDiv (scale num (-E)) (scale den E) : ℚ)
          - (num : ℚ) / (den : ℚ) * (2 : ℚ) ^ (-E)) * (2 : ℚ) ^ E := by
    rw [sub_mul, mul_assoc, hcancel, mul_one]
  rw [key, abs_mul, abs_of_pos hpos]
  calc |(rneDiv (scale num (-E)) (scale den E) : ℚ)
          - (num : ℚ) / (den : ℚ) * (2 : ℚ) ^ (-E)| * (2 : ℚ) ^ E
      ≤ 1 / 2 * (2 : ℚ) ^ E := mul_le_mul_of_nonneg_right herr (le_of_lt hpos)
    _ = (2 : ℚ) ^ E / 2 := by ring

theorem F64_ofNat_billion : F64.ofNat 1000000000 = F64.fin false 8388608000000000 (-23) := by
  decide

theorem truncInt64_of_neg_exp (m : Nat) (e : Int) (he : e < 0)
    (hb : m / 2 ^ (-e).toNat ≤ 9223372036854775807) :
    F64.truncInt64 (F64.fin false m e) = some ((m / 2 ^ (-e).toNat : Nat) : Int) := by
  have h1 : e.toNat = 0 := by omega
  have hin : inInt64 ((m / 2 ^ (-e).toNat : Nat) : Int) := by
    generalize m / 2 ^ (-e).toNat = t at hb
    unfold inInt64 minInt64 maxInt64
    omega
  simp only [F64.truncInt64, scale, h1, pow_zero, Nat.mul_one, Nat.one_mul, Bool.false_eq_true,
    if_false, hin, if_true]

theorem floor_div_pow (m J : Nat) :
    ((m / 2 ^ J : Nat) : ℚ) ≤ (m : ℚ) / (2 : ℚ) ^ J
      ∧ (m : ℚ) / (2 : ℚ) ^ J < ((m / 2 ^ J : Nat) : ℚ) + 1 := by
  have hpos : (0 : ℚ) < (2 : ℚ) ^ J := by positivity
  have h1 : m / 2 ^ J * 2 ^ J ≤ m := Nat.div_mul_le_self m (2 ^ J)
  have h2 : m < (m / 2 ^ J + 1) * 2 ^ J := by
    have := Nat.lt_succ_self (m / 2 ^ J)
    exact (Nat.div_lt_iff_lt_mul (by positivity)).1 this
  constructor
  · rw [le_div_iff₀ hpos]
    exact_mod_cast h1
  · rw [div_lt_iff₀ hpos]
    exact_mod_cast h2

theorem zpow_neg_toNat (e : Int) (he : e < 0) :
    (2 : ℚ) ^ e = 1 / (2 : ℚ) ^ (-e).toNat := by
  obtain ⟨k, hk⟩ := Int.eq_ofNat_of_zero_le (show 0 ≤ -e by omega)
  have he2 : e = -(k : Int) := by omega
  rw [hk, Int.toNat_ofNat, he2, zpow_neg, zpow_natCast, one_div]

theorem zpow_two_le (a b : Int) (h : a ≤ b) : (2 : ℚ) ^ a ≤ (2 : ℚ) ^ b :=
  zpow_le_zpow_right₀ (by norm_num) h

theorem two_zpow_neg54 : (2 : ℚ) ^ (-54 : Int) = 1 / 18014398509481984 := by
  rw [show (-54 : Int) = -((54 : Nat) : Int) from rfl, zpow_neg, zpow_natCast]
  norm_num

theorem two_zpow_neg24 : (2 : ℚ) ^ (-24 : Int) = 1 / 16777216 := by
  rw [show (-24 : Int) = -((24 : Nat) : Int) from rfl, zpow_neg, zpow_natCast]
  norm_num

theorem half_zpow (E : Int) : (2 : ℚ) ^ E / 2 = (2 : ℚ) ^ (E - 1) := by
  rw [zpow_sub₀ (by norm_num : (2 : ℚ) ≠ 0), zpow_one]

theorem billion_ratio (m1 : Nat) (e1 : Int) (he1 : e1 ≤ 0) :
    ((m1 * 8388608000000000 : Nat) : ℚ) / ((2 ^ (-(e1 + -23)).toNat : Nat) : ℚ)
      = (m1 : ℚ) * (2 : ℚ) ^ e1 * 1000000000 := by
  obtain ⟨k, hk⟩ := Int.eq_ofNat_of_zero_le (show 0 ≤ -e1 by omega)
  have he : e1 = -(k : Int) := by omega
  have hK : (-(e1 + -23)).toNat = k + 23 := by omega
  rw [hK, he, zpow_neg, zpow_natCast]
  push_cast
  rw [pow_add]
  field_simp
  ring

theorem fracNanos_bound_rat (oor : F64 → Int) (v den : Nat) (hden : 0 < den) (hv : v < den) :
    ∃ t : Nat, fracNanos oor (roundF64 false v den) = (t : Int)
      ∧ (t : ℚ) < (v : ℚ) / (den : ℚ) * 1000000000 + 1
      ∧ (v : ℚ) / (den : ℚ) * 1000000000 - 2 < (t : ℚ) := by
  have hdq : (0 : ℚ) < den := by exact_mod_cast hden
  have hq0 : (0 : ℚ) ≤ (v : ℚ) / (den : ℚ) := by positivity
  have hq1 : (v : ℚ) / (den : ℚ) < 1 := by
    rw [div_lt_one hdq]
    exact_mod_cast hv
  rcases Nat.eq_zero_or_pos v with hv0 | hv0
  · subst hv0
    refine ⟨0, ?_, ?_, ?_⟩
    · exact fracNanos_zero oor
    · norm_num
    · norm_num
  -- first rounding: the fraction itself
  have hk1 : ilog2Ratio v den ≤ -1 := by
    have := ilog2Ratio_le v den 0 hv0 hden (by simpa using hv)
    simpa using this
  have hE1 : max (ilog2Ratio v den - 52) (-1074) ≤ -53 := max_le (by omega) (by omega)
  obtain ⟨m1, e1, hx, he1, herr1⟩ :=
    roundF64_error v den hv0 hden _ rfl (by omega)
  generalize max (ilog2Ratio v den - 52) (-1074) = E1 at hE1 he1 herr1
  have hb1 : (2 : ℚ) ^ E1 / 2 ≤ 1 / 18014398509481984 := by
    rw [half_zpow, ← two_zpow_neg54]
    exact zpow_two_le _ _ (by omega)
  have herr1' := le_trans herr1 hb1
  rw [abs_le] at herr1'
  have he1neg : e1 ≤ -52 := by omega
  rw [hx]
  unfold fracNanos
  rw [F64_ofNat_billion]
  have hmul : F64.mul (F64.fin false m1 e1) (F64.fin false 8388608000000000 (-23))
      = roundF64 false (m1 * 8388608000000000) (2 ^ (-(e1 + -23)).toNat) := by
    have h0 : (e1 + -23).toNat = 0 := by omega
    simp [F64.mul, scale, h0]
  rw [hmul]
  rcases Nat.eq_zero_or_pos m1 with hm0 | hm0
  · subst hm0
    refine ⟨0, ?_, ?_, ?_⟩
    · simp only [Nat.zero_mul, roundF64, if_true]
      exact toInt64_zero oor false _
    · push_cast
      linarith
    · push_cast
      simp only [Nat.cast_zero, zero_mul, zero_sub] at herr1'
      linarith [herr1'.1]
  -- second rounding: the product
  have hnum : 0 < m1 * 8388608000000000 := Nat.mul_pos hm0 (by decide)
  have hden2 : 0 < 2 ^ (-(e1 + -23)).toNat := by positivity
  have hp := billion_ratio m1 e1 (by omega)
  have hplt : ((m1 * 8388608000000000 : Nat) : ℚ) / ((2 ^ (-(e1 + -23)).toNat : Nat) : ℚ)
      < 1073741824 := by
    rw [hp]
    linarith [herr1'.2]
  have hnat : m1 * 8388608000000000 < 2 ^ (-(e1 + -23)).toNat * 2 ^ 30 := by
    have hd2q : (0 : ℚ) < ((2 ^ (-(e1 + -23)).toNat : Nat) : ℚ) := by exact_mod_cast hden2
    rw [div_lt_iff₀ hd2q] at hplt
    have : ((m1 * 8388608000000000 : Nat) : ℚ)
        < ((2 ^ (-(e1 + -23)).toNat * 2 ^ 30 : Nat) : ℚ) := by
      push_cast at hplt ⊢
      linarith
    exact_mod_cast this
  have hk2 := ilog2Ratio_le _ _ 30 hnum hden2 hnat
  have hE2 : max (ilog2Ratio (m1 * 8388608000000000) (2 ^ (-(e1 + -23)).toNat) - 52) (-1074)
      ≤ -23 := max_le (by omega) (by omega)
  obtain ⟨m2, e2, hy, he2, herr2⟩ :=
    roundF64_error _ _ hnum hden2 _ rfl (by omega)
  generalize max (ilog2Ratio (m1 * 8388608000000000) (2 ^ (-(e1 + -23)).toNat) - 52) (-1074)
    = E2 at hE2 he2 herr2
  have hb2 : (2 : ℚ) ^ E2 / 2 ≤ 1 / 16777216 := by
    rw [half_zpow, ← two_zpow_neg24]
    exact zpow_two_le _ _ (by omega)
  have herr2' := le_trans herr2 hb2
  rw [hp, abs_le] at herr2'
  have he2neg : e2 < 0 := by omega
  have hfl := floor_div_pow m2 (-e2).toNat
  have hyv : (m2 : ℚ) * (2 : ℚ) ^ e2 = (m2 : ℚ) / (2 : ℚ) ^ (-e2).toNat := by
    rw [zpow_neg_toNat e2 he2neg]
    ring
  rw [hyv] at herr2'
  have htq : ((m2 / 2 ^ (-e2).toNat : Nat) : ℚ) < 1073741826 := by
    linarith [hfl.1, herr2'.2, herr1'.2]
  have htn : m2 / 2 ^ (-e2).toNat ≤ 9223372036854775807 := by
    have : m2 / 2 ^ (-e2).toNat < 1073741826 := by exact_mod_cast htq
    omega
  refine ⟨m2 / 2 ^ (-e2).toNat, ?_, ?_, ?_⟩
  · rw [hy]
    exact toInt64_of_truncInt64 oor _ _ (truncInt64_of_neg_exp m2 e2 he2neg htn)
  · linarith [hfl.1, herr2'.2, herr1'.2]
  · linarith [hfl.2, herr2'.1, herr1'.1]

theorem fracNanos_bound (oor : F64 → Int) (fp : GoString) (hfp : isDigits fp = true) :
    ∃ ns : Nat, fracNanos oor (roundF64 false (decimalValue fp) (10 ^ fp.length)) = (ns : Int)
      ∧ decimalValue fp * 10 ^ 9 < (ns + 2) * 10 ^ fp.length
      ∧ ns * 10 ^ fp.length < decimalValue fp * 10 ^ 9 + 10 ^ fp.length
      ∧ (fp.length ≤ 9 →
          ns = decimalValue fp * 10 ^ (9 - fp.length)
            ∨ ns + 1 = decimalValue fp * 10 ^ (9 - fp.length)) := by
  have hd2 := (isDigits_iff fp).1 hfp
  have hlt := decimalValue_lt fp hd2.2
  have hden : 0 < 10 ^ fp.length := by positivity
  obtain ⟨t, ht, h1, h2⟩ := fracNanos_bound_rat oor (decimalValue fp) (10 ^ fp.length) hden hlt
  have hdq : (0 : ℚ) < ((10 ^ fp.length : Nat) : ℚ) := by exact_mod_cast hden
  have hmul : (decimalValue fp : ℚ) / ((10 ^ fp.length : Nat) : ℚ) * 1000000000
        * ((10 ^ fp.length : Nat) : ℚ)
      = (decimalValue fp : ℚ) * 1000000000 := by
    field_simp
  have h1' := mul_lt_mul_of_pos_right h1 hdq
  have h2' := mul_lt_mul_of_pos_right h2 hdq
  rw [add_mul, hmul, one_mul] at h1'
  rw [sub_mul, hmul] at h2'
  have hu : decimalValue fp * 10 ^ 9 < (t + 2) * 10 ^ fp.length := by
    have : ((decimalValue fp * 10 ^ 9 : Nat) : ℚ) < (((t + 2) * 10 ^ fp.length : Nat) : ℚ) := by
      push_cast at h2' ⊢
      linarith
    exact_mod_cast this
  have hl : t * 10 ^ fp.length < decimalValue fp * 10 ^ 9 + 10 ^ fp.length := by
    have : ((t * 10 ^ fp.length : Nat) : ℚ)
        < ((decimalValue fp * 10 ^ 9 + 10 ^ fp.length : Nat) : ℚ) := by
      push_cast at h1' ⊢
      linarith
    exact_mod_cast this
  refine ⟨t, ht, hu, hl, ?_⟩
  intro h9
  have hsplit : (10 : Nat) ^ 9 = 10 ^ (9 - fp.length) * 10 ^ fp.length := by
    rw [← pow_add]
    congr 1
    omega
  rw [hsplit, ← Nat.mul_assoc] at hu hl
  have hu' : decimalValue fp * 10 ^ (9 - fp.length) < t + 2 :=
    Nat.lt_of_mul_lt_mul_right hu
  have hl' : t < decimalValue fp * 10 ^ (9 - fp.length) + 1 := by
    have : t * 10 ^ fp.length
        < (decimalValue fp * 10 ^ (9 - fp.length) + 1) * 10 ^ fp.length := by
      rw [Nat.add_mul, Nat.one_mul]
      exact hl
    exact Nat.lt_of_mul_lt_mul_right this
  omega

/-! ## Lemmas on the handlers -/

theorem World.call_session {Item Channel : Type} (w : World Item Channel)
    (c : Call Item Channel) : (w.call c).session = w.session := rfl

theorem replayChannels_eq {Item Channel : Type} (channels : List Channel)
    (w : World Item Channel) :
    replayChannels channels w
      = ⟨w.session, w.calls ++ channelCycles channels w.session.zncPlaybackTimes⟩ := by
  induction channels generalizing w with
  | nil => simp [replayChannels, channelCycles]
  | cons ch rest ih =>
    have h : replayChannels (ch :: rest) w
        = replayChannels rest ((w.call (Call.autoReplayHistory ch [])).call (Call.rbFlush true)) :=
      rfl
    rw [h, ih]
    simp [World.call, channelCycles]

theorem accepted_iff (lowerCase : Char → Char) (params : List GoString) :
    accepted lowerCase params = true
      ↔ 2 ≤ params.length ∧ ToLower lowerCase (params.getD 0 []) = "play".toList := by
  simp [accepted]

theorem zncPlaybackHandler_rejected {Item Channel : Type} (env : Env Item Channel)
    (command : GoString) (params : List GoString) (w : World Item Channel)
    (h : accepted env.lowerCase params = false) :
    zncPlaybackHandler env command params w = w := by
  have h2 : ¬ (2 ≤ params.length ∧ ToLower env.lowerCase (params.getD 0 []) = "play".toList) := by
    rw [← accepted_iff, h]
    exact Bool.false_ne_true
  unfold zncPlaybackHandler
  by_cases hl : params.length < 2
  · rw [if_pos hl]
  · rw [if_neg hl]
    have hp : ToLower env.lowerCase (params.getD 0 []) ≠ "play".toList :=
      fun e => h2 ⟨by omega, e⟩
    rw [if_pos hp]

theorem zncPlaybackHandler_accepted {Item Channel : Type} (env : Env Item Channel)
    (command : GoString) (params : List GoString) (w : World Item Channel)
    (h : accepted env.lowerCase params = true) :
    zncPlaybackHandler env command params w
      = ⟨⟨some (requestOf env params)⟩,
          w.calls
            ++ (if params.getD 1 [] = "*".toList then
                  immediateReplay env (boundAt env.oor params 2) (boundAt env.oor params 3)
                    w.session.zncPlaybackTimes
                else [])
            ++ channelCycles env.channels (some (requestOf env params))⟩ := by
  rw [accepted_iff] at h
  unfold zncPlaybackHandler
  rw [if_neg (by omega), if_neg (by simpa using h.2)]
  simp only [replayChannels_eq]
  by_cases hs : params.getD 1 [] = "*".toList
  · simp only [hs, if_true, World.call, immediateReplay, requestOf, boundAt,
      List.append_assoc, List.cons_append, List.nil_append]
  · simp only [hs, if_false, requestOf, boundAt, List.append_nil]

theorem channelCycles_mem {Item Channel : Type} (channels : List Channel)
    (req : Option zncPlaybackTimes) (c : Call Item Channel × Option zncPlaybackTimes)
    (h : c ∈ channelCycles channels req) :
    (∃ ch ∈ channels, c = (Call.autoReplayHistory ch [], req)) ∨ c = (Call.rbFlush true, req) := by
  induction channels with
  | nil => simp [channelCycles] at h
  | cons ch rest ih =>
    have hc : (channelCycles (ch :: rest) req : List (Call Item Channel × Option zncPlaybackTimes))
        = (Call.autoReplayHistory ch [], req) :: (Call.rbFlush true, req)
            :: channelCycles rest req := rfl
    rw [hc] at h
    rcases List.mem_cons.1 h with h1 | h1
    · exact Or.inl ⟨ch, List.mem_cons_self _ _, h1⟩
    · rcases List.mem_cons.1 h1 with h2 | h2
      · exact Or.inr h2
      · rcases ih h2 with ⟨ch2, hm, he⟩ | h3
        · exact Or.inl ⟨ch2, List.mem_cons_of_mem _ hm, he⟩
        · exact Or.inr h3

theorem channelCycles_countP {Item Channel : Type} [DecidableEq Item] [DecidableEq Channel]
    (channels : List Channel) (req : Option zncPlaybackTimes) (ch : Channel) :
    (channelCycles channels req : List (Call Item Channel × Option zncPlaybackTimes)).countP
        (fun c => decide (c.1 = Call.autoReplayHistory ch []))
      = channels.countP (fun c => decide (c = ch)) := by
  induction channels with
  | nil => rfl
  | cons c rest ih =>
    have hc : (channelCycles (c :: rest) req : List (Call Item Channel × Option zncPlaybackTimes))
        = (Call.autoReplayHistory c [], req) :: (Call.rbFlush true, req)
            :: channelCycles rest req := rfl
    rw [hc]
    simp only [List.countP_cons, ih]
    by_cases h : c = ch
    · subst h
      simp
    · have h' : ¬ (Call.autoReplayHistory c [] : Call Item Channel) = Call.autoReplayHistory ch [] := by
        intro e
        injection e with e1
        exact h e1
      simp [h, h']

theorem lookup_cons_eq (k1 k2 : GoString) (v : Bool) (rest : List (GoString × Bool)) :
    List.lookup k1 ((k2, v) :: rest) = if k1 = k2 then some v else List.lookup k1 rest := by
  by_cases h : k1 = k2
  · subst h
    simp [List.lookup]
  · have hb : (k1 == k2) = false := by simpa using h
    simp [List.lookup, hb, h]

theorem lookup_mapSet (m : List (GoString × Bool)) (k k1 : GoString) (v : Bool) :
    (mapSet m k v).lookup k1 = if k1 = k then some v else m.lookup k1 := by
  induction m with
  | nil =>
    unfold mapSet
    rw [lookup_cons_eq]
  | cons p rest ih =>
    obtain ⟨k2, v2⟩ := p
    unfold mapSet
    by_cases h2 : k2 = k
    · subst h2
      rw [if_pos rfl, lookup_cons_eq, lookup_cons_eq]
      split_ifs <;> rfl
    · rw [if_neg h2, lookup_cons_eq, lookup_cons_eq, ih]
      by_cases h3 : k1 = k2
      · have h4 : k1 ≠ k := fun e => h2 (h3.symm.trans e)
        rw [if_pos h3, if_neg h4, if_pos h3]
      · rw [if_neg h3, if_neg h3]

theorem mapGet_mapSet_true (m : Option (List (GoString × Bool))) (k k1 : GoString) :
    mapGet (some (mapSet (m.getD []) k true)) k1 = true ↔ k1 = k ∨ mapGet m k1 = true := by
  simp only [mapGet]
  rw [lookup_mapSet]
  by_cases h : k1 = k
  · simp [h]
  · cases m <;> simp [h, List.lookup]

theorem resolve_foldl_mapGet (cf : GoString → Option GoString) (names : List GoString)
    (acc : Option (List (GoString × Bool))) (k : GoString) :
    mapGet (names.foldl
        (fun targets targetName =>
          match cf targetName with
          | some cfTarget => some (mapSet (targets.getD []) cfTarget true)
          | none => targets) acc) k = true
      ↔ mapGet acc k = true ∨ ∃ name ∈ names, cf name = some k := by
  induction names generalizing acc with
  | nil => simp
  | cons n rest ih =>
    rw [List.foldl_cons, ih]
    cases hn : cf n with
    | none =>
      simp only [List.mem_cons, exists_eq_or_imp, hn]
      simp
    | some c =>
      simp only [List.mem_cons, exists_eq_or_imp, hn, mapGet_mapSet_true, Option.some.injEq]
      constructor
      · rintro ((h | h) | h)
        · exact Or.inr (Or.inl h.symm)
        · exact Or.inl h
        · exact Or.inr (Or.inr h)
      · rintro (h | h | h)
        · exact Or.inl (Or.inr h)
        · exact Or.inl (Or.inl h.symm)
        · exact Or.inr h

theorem resolve_foldl_none (cf : GoString → Option GoString) (names : List GoString)
    (acc : Option (List (GoString × Bool))) :
    names.foldl
        (fun targets targetName =>
          match cf targetName with
          | some cfTarget => some (mapSet (targets.getD []) cfTarget true)
          | none => targets) acc = none
      ↔ acc = none ∧ ∀ name ∈ names, cf name = none := by
  induction names generalizing acc with
  | nil => simp
  | cons n rest ih =>
    rw [List.foldl_cons, ih]
    cases hn : cf n with
    | none => simp [hn]
    | some c => simp [hn]

/-- The keys of the map built from the comma-separated names are exactly the
casefolded forms of the names that casefold. -/
theorem resolveTargets_mapGet (cf : GoString → Option GoString) (target k : GoString) :
    mapGet (resolveTargets cf target) k = true ↔ ∃ name ∈ Split target ',', cf name = some k := by
  unfold resolveTargets
  rw [resolve_foldl_mapGet]
  simp [mapGet]

/-- The map built from the comma-separated names is nil exactly when no name
casefolds. -/
theorem resolveTargets_eq_none (cf : GoString → Option GoString) (target : GoString) :
    resolveTargets cf target = none ↔ ∀ name ∈ Split target ',', cf name = none := by
  unfold resolveTargets
  rw [resolve_foldl_none]
  simp

theorem unicodeToLower_of_ascii (lowerCase : Char → Char) (c : Char)
    (h : (asciiLower c).toNat ≤ 127) : unicodeToLower lowerCase c = asciiLower c := by
  unfold unicodeToLower
  by_cases hc : c.toNat ≤ 127
  · rw [if_pos hc]
  · exfalso
    apply hc
    unfold asciiLower at h
    split_ifs at h with h1
    · omega
    · exact h

theorem ToLower_of_ascii (lowerCase : Char → Char) (s t : GoString)
    (h : s.map asciiLower = t) (ht : ∀ c ∈ t, c.toNat ≤ 127) : ToLower lowerCase s = t := by
  subst h
  unfold ToLower
  apply List.map_congr_left
  intro c hc
  exact unicodeToLower_of_ascii lowerCase c (ht _ (List.mem_map_of_mem _ hc))

theorem ToLower_play (lowerCase : Char → Char) (s : GoString)
    (h : s.map asciiLower = "play".toList) : ToLower lowerCase s = "play".toList :=
  ToLower_of_ascii lowerCase s _ h (by decide)

theorem Sprintf_plain (other : GoString → List GoString → GoString) (format : GoString)
    (args : List GoString) (h : plainFormat format = true) :
    Sprintf other format args = sprintfPlain format args := by
  simp [Sprintf, h]

theorem sprintfPlain_type_verb :
    plainFormat "No such module [%T]".toList = true
      ∧ sprintfPlain "No such module [%T]".toList ["*foo".toList]
          = "No such module [string]".toList := by
  decide

theorem Sprintf_no_such_module (other : GoString → List GoString → GoString) (a : GoString) :
    Sprintf other "No such module [%s]".toList [a]
      = "No such module [".toList ++ a ++ "]".toList := by
  rw [Sprintf_plain other _ _ (by decide)]
  rfl

theorem Sprintf_does_not_emulate (other : GoString → List GoString → GoString)
    (a : GoString) :
    Sprintf other "Oragono does not emulate the ZNC module %s".toList [a]
      = "Oragono does not emulate the ZNC module ".toList ++ a := by
  rw [Sprintf_plain other _ _ (by decide)]
  simp [sprintfPlain, sprintfExtra]

/-! ## The wire-time codec: claims C1 to C3 -/

/-- C1: for every string `s` that is a decimal representation of an integer `n` in
the `int64` range (so `s` has no `'.'`), `zncWireTimeToTime s` is `time.Unix(n, 0)`,
the time whose `Unix()` is `n` and whose `Nanosecond()` is 0; and
`zncWireTimeToTime "0"` is the epoch `time.Unix(0, 0)`. -/
theorem zncWireTimeToTime_decimal_integer (oor : F64 → Int) (s : GoString) (n : Int)
    (hs : isDecimalOf s n = true) (hn : inInt64 n) :
    '.' ∉ s
      ∧ zncWireTimeToTime oor s = Unix n 0
      ∧ (zncWireTimeToTime oor s).Unix = n
      ∧ (zncWireTimeToTime oor s).Nanosecond = 0
      ∧ zncWireTimeToTime oor "0".toList = Unix 0 0 := by
  have h := zncWireTimeToTime_integer oor s n hs hn
  refine ⟨dot_not_mem_of_isDecimalOf s n hs, h, ?_, ?_, ?_⟩
  · rw [h]
    exact Time_Unix_Unix n hn
  · rw [h]
    exact Time_Nanosecond_Unix n
  · exact zncWireTimeToTime_integer oor _ 0 (by decide) (by decide)

/-- Witness of C1 at the timestamp of the comment in irc/znc.go, `"1558374442"`. -/
theorem zncWireTimeToTime_decimal_integer_witness :
    isDecimalOf "1558374442".toList 1558374442 = true ∧ inInt64 1558374442
      ∧ zncWireTimeToTime oorAmd64 "1558374442".toList = Unix 1558374442 0
      ∧ (zncWireTimeToTime oorAmd64 "1558374442".toList).Unix = 1558374442 :=
  ⟨by decide, by decide,
    (zncWireTimeToTime_decimal_integer oorAmd64 "1558374442".toList 1558374442
      (by decide) (by decide)).2.1,
    (zncWireTimeToTime_decimal_integer oorAmd64 "1558374442".toList 1558374442
      (by decide) (by decide)).2.2.1⟩

/-- C2, counterexample: `"1.0157"` has integer part 1 and fraction 0.0157, so the
claim asks for 1 s + 15700000 ns; the code returns 1 s + 15699999 ns, because the
`float64` product `0.0157 * 1e9` lies just below 15700000 and is truncated. -/
theorem zncWireTimeToTime_fraction_truncated :
    zncWireTimeToTime oorAmd64 "1.0157".toList = Unix 1 15699999
      ∧ zncWireTimeToTime oorAmd64 "1.0157".toList ≠ Unix 1 15700000 := by
  decide!

/-- C2, amended: for every string `<digits>.<digits>` whose integer part `n` fits an
`int64`, `zncWireTimeToTime` returns `time.Unix(n, ns)` where `ns` is the `float64`
nearest to `0.f`, multiplied in `float64` by `1e9` and truncated to `int64`.  This
`ns` lies strictly between `0.f * 1e9 - 2` and `0.f * 1e9 + 1`; for a fraction of at
most nine digits it is `f * 1e9` or one nanosecond less, for a fraction of at most
three digits (millisecond precision) it is exactly `f * 1e9`; and
`zncWireTimeToTime "1.5"` is `time.Unix(1, 500000000)`. -/
theorem zncWireTimeToTime_fraction (oor : F64 → Int) (ip fp : GoString)
    (hip : isDigits ip = true) (hfp : isDigits fp = true)
    (hn : (decimalValue ip : Int) ≤ maxInt64) :
    zncWireTimeToTime oor (ip ++ '.' :: fp)
        = Unix (decimalValue ip)
            (fracNanos oor (roundF64 false (decimalValue fp) (10 ^ fp.length)))
      ∧ (∃ ns : Nat,
          zncWireTimeToTime oor (ip ++ '.' :: fp) = Unix (decimalValue ip) (ns : Int)
            ∧ decimalValue fp * 10 ^ 9 < (ns + 2) * 10 ^ fp.length
            ∧ ns * 10 ^ fp.length < decimalValue fp * 10 ^ 9 + 10 ^ fp.length
            ∧ (fp.length ≤ 9 →
                ns = decimalValue fp * 10 ^ (9 - fp.length)
                  ∨ ns + 1 = decimalValue fp * 10 ^ (9 - fp.length)))
      ∧ (fp.length ≤ 3 →
          zncWireTimeToTime oor (ip ++ '.' :: fp)
            = Unix (decimalValue ip) ((decimalValue fp * 10 ^ (9 - fp.length) : Nat) : Int))
      ∧ zncWireTimeToTime oor "1.5".toList = Unix 1 500000000 := by
  have h := zncWireTimeToTime_digits_dot_digits oor ip fp hip hfp hn
  refine ⟨h, ?_, ?_, ?_⟩
  · obtain ⟨ns, hns, h1, h2, h3⟩ := fracNanos_bound oor fp hfp
    exact ⟨ns, by rw [h, hns], h1, h2, h3⟩
  · intro hlen
    rw [h, fracNanos_short_fraction oor fp hfp hlen]
  · have h15 := zncWireTimeToTime_digits_dot_digits oor "1".toList "5".toList
      (by decide) (by decide) (by decide)
    have hfr := fracNanos_short_fraction oor "5".toList (by decide) (by decide)
    have e1 : "1".toList ++ '.' :: "5".toList = "1.5".toList := by decide
    have e2 : ((decimalValue "1".toList : Nat) : Int) = 1 := by decide
    have e3 : ((decimalValue "5".toList * 10 ^ (9 - "5".toList.length) : Nat) : Int)
        = 500000000 := by decide
    rw [e1, hfr, e2, e3] at h15
    exact h15

/-- Witness of C2 (amended) at `"1558374442.123"`. -/
theorem zncWireTimeToTime_fraction_witness :
    isDigits "1558374442".toList = true ∧ isDigits "123".toList = true
      ∧ (decimalValue "1558374442".toList : Int) ≤ maxInt64
      ∧ "123".toList.length ≤ 3
      ∧ zncWireTimeToTime oorAmd64 ("1558374442".toList ++ '.' :: "123".toList)
          = Unix 1558374442 123000000 :=
  ⟨by decide, by decide, by decide, by decide,
    (zncWireTimeToTime_fraction oorAmd64 "1558374442".toList "123".toList
      (by decide) (by decide) (by decide)).2.2.1 (by decide)⟩

/-- C3, counterexample: the integer segment `"9223372036854775808"` cannot be parsed
as an `int64` (`ParseInt` fails with a range error) and the fraction segment is
empty and cannot be parsed either, yet the segment contributes `2^63 - 1` seconds,
not zero, and the result is not the epoch. -/
theorem zncWireTimeToTime_range_error_not_epoch :
    (ParseInt (secondsPortion "9223372036854775808".toList)).2 = some NumErr.ErrRange
      ∧ (ParseFloat (fracPortion "9223372036854775808".toList)).2 = some NumErr.ErrSyntax
      ∧ zncWireTimeToTime oorAmd64 "9223372036854775808".toList = Unix 9223372036854775807 0
      ∧ zncWireTimeToTime oorAmd64 "9223372036854775808".toList ≠ Unix 0 0 := by
  decide!

/-- C3, amended: `zncWireTimeToTime` is a total function and never fails.  An
integer segment with a syntax error contributes zero seconds; an integer segment
out of the `int64` range contributes the clamped value `2^63 - 1` or `-2^63`; a
fraction segment with a syntax error contributes zero nanoseconds; a fraction
segment out of the `float64` range is an infinity, whose conversion is the
platform's; so whenever both segments have a syntax error (as in `""` and
`"abc"`) the result is exactly the Unix epoch. -/
theorem zncWireTimeToTime_malformed (oor : F64 → Int) (str : GoString) :
    ((ParseInt (secondsPortion str)).2 = some NumErr.ErrSyntax →
        zncWireTimeToTime oor str
          = Unix 0 (fracNanos oor (ParseFloat (fracPortion str)).1))
      ∧ ((ParseInt (secondsPortion str)).2 = some NumErr.ErrRange →
          (ParseInt (secondsPortion str)).1 = maxInt64
            ∨ (ParseInt (secondsPortion str)).1 = minInt64)
      ∧ ((ParseFloat (fracPortion str)).2 = some NumErr.ErrSyntax →
          zncWireTimeToTime oor str = Unix (ParseInt (secondsPortion str)).1 0)
      ∧ ((ParseFloat (fracPortion str)).2 = some NumErr.ErrRange →
          ∃ sgn, zncWireTimeToTime oor str
            = Unix (ParseInt (secondsPortion str)).1 (wrap64 (oor (F64.inf sgn))))
      ∧ ((ParseInt (secondsPortion str)).2 = some NumErr.ErrSyntax
            ∧ (ParseFloat (fracPortion str)).2 = some NumErr.ErrSyntax →
          zncWireTimeToTime oor str = Unix 0 0)
      ∧ zncWireTimeToTime oor "".toList = Unix 0 0
      ∧ zncWireTimeToTime oor "abc".toList = Unix 0 0 := by
  have both : ∀ s : GoString, (ParseInt (secondsPortion s)).2 = some NumErr.ErrSyntax
      ∧ (ParseFloat (fracPortion s)).2 = some NumErr.ErrSyntax →
      zncWireTimeToTime oor s = Unix 0 0 := by
    intro s h
    unfold zncWireTimeToTime
    rw [ParseInt_syntax_error _ h.1, ParseFloat_syntax_error _ h.2]
    simp only [fracNanos_zero]
  refine ⟨?_, ParseInt_range _, ?_, ?_, both str, both _ ⟨by decide, by decide⟩,
    both _ ⟨by decide, by decide⟩⟩
  · intro h
    unfold zncWireTimeToTime
    rw [ParseInt_syntax_error _ h]
  · intro h
    unfold zncWireTimeToTime
    rw [ParseFloat_syntax_error _ h]
    simp only [fracNanos_zero]
  · intro h
    obtain ⟨sgn, hs⟩ := ParseFloat_range _ h
    refine ⟨sgn, ?_⟩
    unfold zncWireTimeToTime
    rw [hs]
    simp only [fracNanos_inf]

/-- Witness of C3 (amended) at `"abc.def"`: both segments have a syntax error. -/
theorem zncWireTimeToTime_malformed_witness :
    ((ParseInt (secondsPortion "abc.def".toList)).2 = some NumErr.ErrSyntax
        ∧ (ParseFloat (fracPortion "abc.def".toList)).2 = some NumErr.ErrSyntax)
      ∧ zncWireTimeToTime oorAmd64 "abc.def".toList = Unix 0 0 :=
  ⟨⟨by decide, by decide⟩,
    (zncWireTimeToTime_malformed oorAmd64 "abc.def".toList).2.2.2.2.1 ⟨by decide, by decide⟩⟩

/-! ## The playback handler: claims C4 to C9 -/

/-- C4: a parameter list with fewer than 2 elements, or whose first element is not
`"play"` once lower-cased, leaves the world as it was: the stored playback request
is unchanged and no call (history query, replay, flush, addition to the response
buffer) is logged.  Conversely a list with at least 2 elements whose first element
lower-cases to `"play"`, in particular any ASCII letter-case variant of `"play"`,
is accepted: the handler stores the request the list describes. -/
theorem zncPlaybackHandler_validation {Item Channel : Type} (env : Env Item Channel)
    (command : GoString) (params : List GoString) (w : World Item Channel) :
    ((params.length < 2 ∨ ToLower env.lowerCase (params.getD 0 []) ≠ "play".toList) →
        zncPlaybackHandler env command params w = w)
      ∧ ((2 ≤ params.length ∧ ToLower env.lowerCase (params.getD 0 []) = "play".toList) →
          (zncPlaybackHandler env command params w).session.zncPlaybackTimes
            = some (requestOf env params))
      ∧ ((2 ≤ params.length ∧ (params.getD 0 []).map asciiLower = "play".toList) →
          (zncPlaybackHandler env command params w).session.zncPlaybackTimes
            = some (requestOf env params)) := by
  refine ⟨?_, ?_, ?_⟩
  · intro h
    apply zncPlaybackHandler_rejected
    cases hacc : accepted env.lowerCase params with
    | false => rfl
    | true =>
      rw [accepted_iff] at hacc
      rcases h with h | h
      · omega
      · exact absurd hacc.2 h
  · intro h
    rw [zncPlaybackHandler_accepted env command params w ((accepted_iff _ _).2 h)]
  · intro h
    rw [zncPlaybackHandler_accepted env command params w
      ((accepted_iff _ _).2 ⟨h.1, ToLower_play _ _ h.2⟩)]

/-- Witness of C4: `["hello", "*"]` and `["play"]` are ignored by a session that
holds a request; `["PlaY", "*"]` is accepted by a fresh session. -/
theorem zncPlaybackHandler_validation_witness :
    (["hello".toList, "*".toList].length < 2
        ∨ ToLower sampleEnv.lowerCase (["hello".toList, "*".toList].getD 0 []) ≠ "play".toList)
      ∧ zncPlaybackHandler sampleEnv "*playback".toList ["hello".toList, "*".toList]
          sampleWorldBusy = sampleWorldBusy
      ∧ zncPlaybackHandler sampleEnv "*playback".toList ["play".toList] sampleWorldBusy
          = sampleWorldBusy
      ∧ (zncPlaybackHandler sampleEnv "*playback".toList ["PlaY".toList, "*".toList]
          sampleWorld).session.zncPlaybackTimes = some ⟨Time.zero, Time.zero, none⟩ :=
  ⟨by decide,
    (zncPlaybackHandler_validation sampleEnv "*playback".toList ["hello".toList, "*".toList]
      sampleWorldBusy).1 (by decide),
    (zncPlaybackHandler_validation sampleEnv "*playback".toList ["play".toList]
      sampleWorldBusy).1 (by decide),
    (zncPlaybackHandler_validation sampleEnv "*playback".toList ["PlaY".toList, "*".toList]
      sampleWorld).2.2 (by decide)⟩

/-- C5: after an accepted playback command the session holds a request whose
`after` is `zncWireTimeToTime(params[2])` when a third parameter exists and the
zero `time.Time` otherwise, and whose `before` is `zncWireTimeToTime(params[3])`
when a fourth parameter exists and the zero `time.Time` (for which `IsZero()`
holds) otherwise; the command
`play * 1000 2000` stores `after = time.Unix(1000, 0)`, `before = time.Unix(2000, 0)`
and nil targets. -/
theorem zncPlaybackHandler_bounds {Item Channel : Type} (env : Env Item Channel)
    (command : GoString) (params : List GoString) (w : World Item Channel)
    (h : accepted env.lowerCase params = true) :
    (∃ req, (zncPlaybackHandler env command params w).session.zncPlaybackTimes = some req
        ∧ req.after
            = (if 2 < params.length then zncWireTimeToTime env.oor (params.getD 2 [])
               else Time.zero)
        ∧ req.before
            = (if 3 < params.length then zncWireTimeToTime env.oor (params.getD 3 [])
               else Time.zero))
      ∧ Time.zero.IsZero = true
      ∧ (zncPlaybackHandler env command
            ["play".toList, "*".toList, "1000".toList, "2000".toList] w).session.zncPlaybackTimes
          = some ⟨Unix 1000 0, Unix 2000 0, none⟩ := by
  refine ⟨?_, by decide, ?_⟩
  · exact ⟨requestOf env params,
      by rw [zncPlaybackHandler_accepted env command params w h], rfl, rfl⟩
  · have hacc : accepted env.lowerCase
        ["play".toList, "*".toList, "1000".toList, "2000".toList] = true :=
      (accepted_iff _ _).2 ⟨by decide, ToLower_play _ _ (by decide)⟩
    rw [zncPlaybackHandler_accepted env command _ w hacc]
    have h1 : zncWireTimeToTime env.oor "1000".toList = Unix 1000 0 :=
      zncWireTimeToTime_integer env.oor _ 1000 (by decide) (by decide)
    have h2 : zncWireTimeToTime env.oor "2000".toList = Unix 2000 0 :=
      zncWireTimeToTime_integer env.oor _ 2000 (by decide) (by decide)
    simp [requestOf, boundAt]
    exact ⟨h1, h2⟩

/-- Witness of C5 at `play #general 1558374442`: a lower bound and no upper bound. -/
theorem zncPlaybackHandler_bounds_witness :
    accepted sampleEnv.lowerCase
        ["play".toList, "#general".toList, "1558374442".toList] = true
      ∧ ∃ req, (zncPlaybackHandler sampleEnv "*playback".toList
            ["play".toList, "#general".toList, "1558374442".toList]
            sampleWorld).session.zncPlaybackTimes = some req
          ∧ req.after
            = (if 2 < ["play".toList, "#general".toList, "1558374442".toList].length then
                zncWireTimeToTime sampleEnv.oor
                  (["play".toList, "#general".toList, "1558374442".toList].getD 2 [])
               else Time.zero)
          ∧ req.before
            = (if 3 < ["play".toList, "#general".toList, "1558374442".toList].length then
                zncWireTimeToTime sampleEnv.oor
                  (["play".toList, "#general".toList, "1558374442".toList].getD 3 [])
               else Time.zero) :=
  ⟨by decide,
    (zncPlaybackHandler_bounds sampleEnv "*playback".toList
      ["play".toList, "#general".toList, "1558374442".toList] sampleWorld (by decide)).1⟩

/-- C6: last write wins, no merging.  The request stored by an accepted command
does not depend on the world it is handled in, so it is the same after any other
command has been handled first, and afterwards the session holds exactly one
request, the one the command describes. -/
theorem zncPlaybackHandler_last_write_wins {Item Channel : Type} (env : Env Item Channel)
    (command1 command2 : GoString) (params1 params2 : List GoString)
    (w w' : World Item Channel) (h : accepted env.lowerCase params2 = true) :
    (zncPlaybackHandler env command2 params2 w).session
        = (zncPlaybackHandler env command2 params2 w').session
      ∧ (zncPlaybackHandler env command2 params2
            (zncPlaybackHandler env command1 params1 w)).session
          = (zncPlaybackHandler env command2 params2 w).session
      ∧ (zncPlaybackHandler env command2 params2 w).session.zncPlaybackTimes
          = some (requestOf env params2) := by
  simp only [zncPlaybackHandler_accepted env command2 params2 _ h, and_self]

/-- Witness of C6: `play #dev 7` after `play * 1000 2000` leaves what `play #dev 7`
alone leaves. -/
theorem zncPlaybackHandler_last_write_wins_witness :
    accepted sampleEnv.lowerCase ["play".toList, "#dev".toList, "7".toList] = true
      ∧ (zncPlaybackHandler sampleEnv "*playback".toList
            ["play".toList, "#dev".toList, "7".toList]
            (zncPlaybackHandler sampleEnv "*playback".toList
              ["play".toList, "*".toList, "1000".toList, "2000".toList] sampleWorld)).session
          = (zncPlaybackHandler sampleEnv "*playback".toList
              ["play".toList, "#dev".toList, "7".toList] sampleWorld).session :=
  ⟨by decide,
    (zncPlaybackHandler_last_write_wins sampleEnv "*playback".toList "*playback".toList
      ["play".toList, "*".toList, "1000".toList, "2000".toList]
      ["play".toList, "#dev".toList, "7".toList] sampleWorld sampleWorld (by decide)).2.1⟩

/-- C7, the code at the failing input: for a target parameter none of whose names
casefolds (as `"#bad name"`, which is not `"*"`), the handler stores nil targets,
the very request `play *` stores, and not an empty set of channel names. -/
theorem zncPlaybackHandler_targets_all_names_fail {Item Channel : Type}
    (env : Env Item Channel) (command : GoString) (target : GoString)
    (w : World Item Channel)
    (hfail : ∀ name ∈ Split target ',', env.casefoldChannel name = none) :
    (zncPlaybackHandler env command ["play".toList, target] w).session.zncPlaybackTimes
        = some ⟨Time.zero, Time.zero, none⟩
      ∧ (zncPlaybackHandler env command ["play".toList, target] w).session
          = (zncPlaybackHandler env command ["play".toList, "*".toList] w).session
      ∧ (zncPlaybackHandler env command ["play".toList, target] w).session.zncPlaybackTimes
          ≠ some ⟨Time.zero, Time.zero, some []⟩ := by
  have hacc : ∀ t : GoString, accepted env.lowerCase ["play".toList, t] = true := fun t =>
    (accepted_iff _ _).2 ⟨by simp, ToLower_play _ _ (by rfl)⟩
  have hnone := (resolveTargets_eq_none env.casefoldChannel target).2 hfail
  have e1 : (zncPlaybackHandler env command ["play".toList, target] w).session.zncPlaybackTimes
      = some ⟨Time.zero, Time.zero, none⟩ := by
    rw [zncPlaybackHandler_accepted env command _ w (hacc target)]
    simp [requestOf, boundAt, hnone]
  refine ⟨e1, ?_, ?_⟩
  · rw [zncPlaybackHandler_accepted env command _ w (hacc target),
      zncPlaybackHandler_accepted env command _ w (hacc _)]
    simp [requestOf, boundAt, hnone]
  · rw [e1]
    simp

/-- Witness of C7 at the failing input `["play", "#bad name"]`. -/
theorem zncPlaybackHandler_targets_all_names_fail_witness :
    "#bad name".toList ≠ "*".toList
      ∧ (∀ name ∈ Split "#bad name".toList ',', sampleEnv.casefoldChannel name = none)
      ∧ (zncPlaybackHandler sampleEnv "*playback".toList ["play".toList, "#bad name".toList]
          sampleWorld).session.zncPlaybackTimes = some ⟨Time.zero, Time.zero, none⟩ :=
  ⟨by decide, by decide,
    (zncPlaybackHandler_targets_all_names_fail sampleEnv "*playback".toList "#bad name".toList
      sampleWorld (by decide)).1⟩

theorem channelCycles_no_history {Item Channel : Type} (channels : List Channel)
    (req : Option zncPlaybackTimes) (c : Call Item Channel × Option zncPlaybackTimes)
    (h : c ∈ channelCycles channels req) :
    c.1.isHistoryBetween = false ∧ c.1.isReplayPrivmsgHistory = false := by
  rcases channelCycles_mem channels req c h with ⟨ch, _, he⟩ | he <;> subst he <;> exact ⟨rfl, rfl⟩

theorem countP_channelCycles_history {Item Channel : Type} (channels : List Channel)
    (req : Option zncPlaybackTimes) :
    (channelCycles channels req : List (Call Item Channel × Option zncPlaybackTimes)).countP
        (fun c => c.1.isHistoryBetween) = 0
      ∧ (channelCycles channels req : List (Call Item Channel × Option zncPlaybackTimes)).countP
        (fun c => c.1.isReplayPrivmsgHistory) = 0 := by
  constructor <;>
  · rw [List.countP_eq_zero]
    intro c hc
    have := channelCycles_no_history channels req c hc
    simp [this.1, this.2]

theorem countP_channelCycles_autoReplay {Item Channel : Type} (channels : List Channel)
    (req : Option zncPlaybackTimes) :
    (channelCycles channels req : List (Call Item Channel × Option zncPlaybackTimes)).countP
        (fun c => c.1.isAutoReplayHistory) = channels.length
      ∧ (channelCycles channels req : List (Call Item Channel × Option zncPlaybackTimes)).countP
        (fun c => c.1.isFlush) = channels.length := by
  induction channels with
  | nil => exact ⟨rfl, rfl⟩
  | cons ch rest ih =>
    have hc : (channelCycles (ch :: rest) req : List (Call Item Channel × Option zncPlaybackTimes))
        = (Call.autoReplayHistory ch [], req) :: (Call.rbFlush true, req)
            :: channelCycles rest req := rfl
    rw [hc]
    simp only [List.countP_cons, ih.1, ih.2]
    simp [Call.isAutoReplayHistory, Call.isFlush]

/-- C8: for an accepted playback command, if the target parameter is exactly `"*"`
the handler logs, before anything else, exactly one history range query with the
decoded bounds and the limit `ChathistoryMax`, then exactly one private-message
replay of the items that query returns, with its marker argument `true`; for any
other target parameter it logs no history query and no private-message replay at
all. -/
theorem zncPlaybackHandler_immediate_replay {Item Channel : Type} (env : Env Item Channel)
    (command : GoString) (params : List GoString) (w : World Item Channel)
    (h : accepted env.lowerCase params = true) :
    (params.getD 1 [] = "*".toList →
        (zncPlaybackHandler env command params w).calls
            = w.calls
              ++ [(Call.historyBetween (boundAt env.oor params 2) (boundAt env.oor params 3)
                      false env.chathistoryMax, w.session.zncPlaybackTimes),
                  (Call.replayPrivmsgHistory
                      (env.between (boundAt env.oor params 2) (boundAt env.oor params 3)
                        false env.chathistoryMax) true, w.session.zncPlaybackTimes)]
              ++ channelCycles env.channels (some (requestOf env params))
          ∧ ((zncPlaybackHandler env command params w).calls.drop w.calls.length).countP
              (fun c => c.1.isHistoryBetween) = 1
          ∧ ((zncPlaybackHandler env command params w).calls.drop w.calls.length).countP
              (fun c => c.1.isReplayPrivmsgHistory) = 1)
      ∧ (params.getD 1 [] ≠ "*".toList →
          (zncPlaybackHandler env command params w).calls
              = w.calls ++ channelCycles env.channels (some (requestOf env params))
            ∧ ((zncPlaybackHandler env command params w).calls.drop w.calls.length).countP
                (fun c => c.1.isHistoryBetween) = 0
            ∧ ((zncPlaybackHandler env command params w).calls.drop w.calls.length).countP
                (fun c => c.1.isReplayPrivmsgHistory) = 0) := by
  have hcy := @countP_channelCycles_history Item Channel env.channels
    (some (requestOf env params))
  rw [zncPlaybackHandler_accepted env command params w h]
  constructor
  · intro hs
    simp only [hs, if_true, immediateReplay, List.append_assoc, List.drop_left, true_and,
      List.cons_append, List.nil_append, List.countP_cons, hcy.1, hcy.2]
    simp [Call.isHistoryBetween, Call.isReplayPrivmsgHistory]
  · intro hs
    simp only [hs, if_false, List.append_nil, List.drop_left, true_and]
    exact hcy

/-- Witness of C8 at `play * 1000 2000` and at `play #general`. -/
theorem zncPlaybackHandler_immediate_replay_witness :
    accepted sampleEnv.lowerCase
        ["play".toList, "*".toList, "1000".toList, "2000".toList] = true
      ∧ ((zncPlaybackHandler sampleEnv "*playback".toList
            ["play".toList, "*".toList, "1000".toList, "2000".toList] sampleWorld).calls.drop
          sampleWorld.calls.length).countP (fun c => c.1.isHistoryBetween) = 1
      ∧ ((zncPlaybackHandler sampleEnv "*playback".toList
            ["play".toList, "#general".toList] sampleWorld).calls.drop
          sampleWorld.calls.length).countP (fun c => c.1.isHistoryBetween) = 0 :=
  ⟨by decide,
    ((zncPlaybackHandler_immediate_replay sampleEnv "*playback".toList
      ["play".toList, "*".toList, "1000".toList, "2000".toList] sampleWorld (by decide)).1
      (by decide)).2.1,
    ((zncPlaybackHandler_immediate_replay sampleEnv "*playback".toList
      ["play".toList, "#general".toList] sampleWorld (by decide)).2 (by decide)).2.1⟩

/-- C9: for an accepted playback command the handler ends with exactly one
replay-then-flush cycle per channel of `client.Channels()`, in that order: one
`autoReplayHistory` call for the channel with the empty string, directly followed
by one blocking flush.  Nothing logged before the cycles is an auto-replay or a
flush, so the command triggers as many auto-replays, and as many flushes, as there
are joined channels, and each channel is replayed as often as it is listed (once
for a joined channel, never for a channel not joined). -/
theorem zncPlaybackHandler_channel_cycles {Item Channel : Type} [DecidableEq Item]
    [DecidableEq Channel] (env : Env Item Channel)
    (command : GoString) (params : List GoString) (w : World Item Channel)
    (h : accepted env.lowerCase params = true) :
    (∃ pre : List (Call Item Channel × Option zncPlaybackTimes),
        (zncPlaybackHandler env command params w).calls
            = w.calls ++ pre
              ++ env.channels.flatMap (fun channel =>
                  [(Call.autoReplayHistory channel [], some (requestOf env params)),
                   (Call.rbFlush true, some (requestOf env params))])
          ∧ ∀ c ∈ pre, c.1.isAutoReplayHistory = false ∧ c.1.isFlush = false)
      ∧ ((zncPlaybackHandler env command params w).calls.drop w.calls.length).countP
          (fun c => c.1.isAutoReplayHistory) = env.channels.length
      ∧ ((zncPlaybackHandler env command params w).calls.drop w.calls.length).countP
          (fun c => c.1.isFlush) = env.channels.length
      ∧ ∀ channel : Channel,
          ((zncPlaybackHandler env command params w).calls.drop w.calls.length).countP
              (fun c => decide (c.1 = Call.autoReplayHistory channel []))
            = env.channels.countP (fun c => decide (c = channel)) := by
  have hcy := @countP_channelCycles_autoReplay Item Channel env.channels
    (some (requestOf env params))
  rw [zncPlaybackHandler_accepted env command params w h]
  refine ⟨⟨_, rfl, ?_⟩, ?_, ?_, ?_⟩
  · intro c hc
    split_ifs at hc
    · simp only [immediateReplay, List.mem_cons, List.mem_singleton, List.not_mem_nil,
        or_false] at hc
      rcases hc with hc | hc <;> subst hc <;> exact ⟨rfl, rfl⟩
    · simp at hc
  · simp only [List.append_assoc, List.drop_left, List.countP_append, hcy.1]
    split_ifs <;> simp [immediateReplay, List.countP_cons, Call.isAutoReplayHistory]
  · simp only [List.append_assoc, List.drop_left, List.countP_append, hcy.2]
    split_ifs <;> simp [immediateReplay, List.countP_cons, Call.isFlush]
  · intro channel
    simp only [List.append_assoc, List.drop_left, List.countP_append, channelCycles_countP]
    split_ifs <;> simp [immediateReplay, List.countP_cons]

/-- Witness of C9 at `play #general`: one cycle for the joined channel `#general`, none
for `#elsewhere`. -/
theorem zncPlaybackHandler_channel_cycles_witness :
    accepted sampleEnv.lowerCase ["play".toList, "#general".toList] = true
      ∧ (∀ channel : GoString,
          ((zncPlaybackHandler sampleEnv "*playback".toList ["play".toList, "#general".toList]
              sampleWorld).calls.drop sampleWorld.calls.length).countP
              (fun c => decide (c.1 = Call.autoReplayHistory channel []))
            = sampleEnv.channels.countP (fun c => decide (c = channel)))
      ∧ sampleEnv.channels.countP (fun c => decide (c = "#general".toList)) = 1
      ∧ sampleEnv.channels.countP (fun c => decide (c = "#elsewhere".toList)) = 0 :=
  ⟨by decide,
    (zncPlaybackHandler_channel_cycles sampleEnv "*playback".toList
      ["play".toList, "#general".toList] sampleWorld (by decide)).2.2.2,
    by decide, by decide⟩

/-! ## The module router: claim C10 -/

theorem zncHandlers_lookup_none (Item Channel : Type) (command : GoString)
    (h : command ∉ (zncHandlers Item Channel).map Prod.fst) :
    (zncHandlers Item Channel).lookup command = none := by
  have hne : command ≠ "*playback".toList := by
    intro e
    apply h
    rw [e]
    simp [zncHandlers]
  have hb : (command == "*playback".toList) = false := by simpa using hne
  show List.lookup command [("*playback".toList, zncPlaybackHandler)] = none
  simp only [List.lookup, hb]

/-- C10, counterexample: for a requester whose language translates
`"No such module [%s]"`, the second notice for the unregistered module `*foo` does
not have the text `"No such module [*foo]"`. -/
theorem zncModuleHandler_notice_is_translated :
    ToLower sampleEnvTranslated.lowerCase "*foo".toList
        ∉ (zncHandlers Nat GoString).map Prod.fst
      ∧ (zncModuleHandler sampleEnvTranslated "*foo".toList ["bar".toList] sampleWorld).calls
          = [(Call.rbAdd "irc.example.com".toList "NOTICE".toList
                ["alice".toList, "Oragono does not emulate the ZNC module *foo".toList], none),
             (Call.rbAdd "*status!znc@znc.in".toList "NOTICE".toList
                ["alice".toList, "Kein solches Modul [*foo]".toList], none)]
      ∧ (zncModuleHandler sampleEnvTranslated "*foo".toList ["bar".toList] sampleWorld).calls
          ≠ [(Call.rbAdd "irc.example.com".toList "NOTICE".toList
                ["alice".toList, "Oragono does not emulate the ZNC module *foo".toList], none),
             (Call.rbAdd "*status!znc@znc.in".toList "NOTICE".toList
                ["alice".toList, "No such module [*foo]".toList], none)] := by
  decide

/-- C10, amended: for every module name whose lower-cased form is not a key of the
module registry, `zncModuleHandler` invokes no handler and adds exactly two entries
to the response buffer, in this order: a NOTICE from the server's name and a NOTICE
from `"*status!znc@znc.in"`, both addressed to the requester's nickname; their
texts are `fmt.Sprintf` of the requester's translations (`client.t`) of
`"Oragono does not emulate the ZNC module %s"` and of `"No such module [%s]"` with
the lower-cased module name, so the second text is
`"No such module [<lower-cased name>]"` when that text is left untranslated. -/
theorem zncModuleHandler_unknown_module {Item Channel : Type} (env : Env Item Channel)
    (command : GoString) (params : List GoString) (w : World Item Channel)
    (h : ToLower env.lowerCase command ∉ (zncHandlers Item Channel).map Prod.fst) :
    (zncModuleHandler env command params w).session = w.session
      ∧ (zncModuleHandler env command params w).calls
          = w.calls
            ++ [(Call.rbAdd env.serverName "NOTICE".toList
                  [env.nick,
                   Sprintf env.sprintfOther
                     (env.t "Oragono does not emulate the ZNC module %s".toList)
                     [ToLower env.lowerCase command]], w.session.zncPlaybackTimes),
                (Call.rbAdd "*status!znc@znc.in".toList "NOTICE".toList
                  [env.nick,
                   Sprintf env.sprintfOther (env.t "No such module [%s]".toList)
                     [ToLower env.lowerCase command]], w.session.zncPlaybackTimes)]
      ∧ (plainFormat (env.t "Oragono does not emulate the ZNC module %s".toList) = true →
          Sprintf env.sprintfOther (env.t "Oragono does not emulate the ZNC module %s".toList)
              [ToLower env.lowerCase command]
            = sprintfPlain (env.t "Oragono does not emulate the ZNC module %s".toList)
                [ToLower env.lowerCase command])
      ∧ (plainFormat (env.t "No such module [%s]".toList) = true →
          Sprintf env.sprintfOther (env.t "No such module [%s]".toList)
              [ToLower env.lowerCase command]
            = sprintfPlain (env.t "No such module [%s]".toList)
                [ToLower env.lowerCase command])
      ∧ (env.t "Oragono does not emulate the ZNC module %s".toList
            = "Oragono does not emulate the ZNC module %s".toList →
          Sprintf env.sprintfOther (env.t "Oragono does not emulate the ZNC module %s".toList)
              [ToLower env.lowerCase command]
            = "Oragono does not emulate the ZNC module ".toList ++ ToLower env.lowerCase command)
      ∧ (env.t "No such module [%s]".toList = "No such module [%s]".toList →
          Sprintf env.sprintfOther (env.t "No such module [%s]".toList)
              [ToLower env.lowerCase command]
            = "No such module [".toList ++ ToLower env.lowerCase command ++ "]".toList) := by
  have h := zncHandlers_lookup_none Item Channel _ h
  refine ⟨?_, ?_, ?_, ?_, ?_, ?_⟩
  · simp only [zncModuleHandler, h, World.call_session]
  · simp only [zncModuleHandler, h, World.call, List.append_assoc, List.cons_append,
      List.nil_append]
  · intro hp
    exact Sprintf_plain _ _ _ hp
  · intro hp
    exact Sprintf_plain _ _ _ hp
  · intro ht
    rw [ht, Sprintf_does_not_emulate]
  · intro ht
    rw [ht, Sprintf_no_such_module]

/-- Witness of C10 (amended) at the module `*FOO`, for a requester without
translation. -/
theorem zncModuleHandler_unknown_module_witness :
    ToLower sampleEnv.lowerCase "*FOO".toList ∉ (zncHandlers Nat GoString).map Prod.fst
      ∧ (zncModuleHandler sampleEnv "*FOO".toList ["bar".toList] sampleWorld).calls
          = sampleWorld.calls
            ++ [(Call.rbAdd sampleEnv.serverName "NOTICE".toList
                  [sampleEnv.nick,
                   Sprintf sampleEnv.sprintfOther
                     (sampleEnv.t "Oragono does not emulate the ZNC module %s".toList)
                     [ToLower sampleEnv.lowerCase "*FOO".toList]],
                  sampleWorld.session.zncPlaybackTimes),
                (Call.rbAdd "*status!znc@znc.in".toList "NOTICE".toList
                  [sampleEnv.nick,
                   Sprintf sampleEnv.sprintfOther (sampleEnv.t "No such module [%s]".toList)
                     [ToLower sampleEnv.lowerCase "*FOO".toList]],
                  sampleWorld.session.zncPlaybackTimes)]
      ∧ Sprintf sampleEnv.sprintfOther (sampleEnv.t "No such module [%s]".toList)
            [ToLower sampleEnv.lowerCase "*FOO".toList] = "No such module [*foo]".toList :=
  ⟨by decide,
    (zncModuleHandler_unknown_module sampleEnv "*FOO".toList ["bar".toList] sampleWorld
      (by decide)).2.1,
    (zncModuleHandler_unknown_module sampleEnv "*FOO".toList ["bar".toList] sampleWorld
      (by decide)).2.2.2.2.2 rfl⟩

/-! ## Lemmas on `strings.Fields` -/

theorem splitOnP_isSpace_cons (s : GoString) :
    ∃ a l, s.splitOnP isSpace = a :: l := by
  cases h : s.splitOnP isSpace with
  | nil => exact absurd h (List.splitOnP_ne_nil _ _)
  | cons a l => exact ⟨a, l, rfl⟩

theorem fieldsLoop_eq (s cur : GoString) :
    fieldsLoop s cur
      = ((s.splitOnP isSpace).modifyHead (fun f => cur ++ f)).filter (fun f => f ≠ []) := by
  induction s generalizing cur with
  | nil =>
    by_cases h : cur = [] <;> simp [fieldsLoop, h]
  | cons c cs ih =>
    rw [List.splitOnP_cons]
    obtain ⟨a, l, hal⟩ := splitOnP_isSpace_cons cs
    by_cases hc : isSpace c = true
    · by_cases h : cur = []
      · simp [fieldsLoop, hc, h, ih, hal]
      · simp [fieldsLoop, hc, h, ih, hal]
    · simp [fieldsLoop, hc, ih, hal]

theorem Fields_eq (s : GoString) : Fields s = whitespaceDelimitedFields s := by
  obtain ⟨a, l, hal⟩ := splitOnP_isSpace_cons s
  simp [Fields, whitespaceDelimitedFields, fieldsLoop_eq, hal]

/-! ## The module router: claims C11, C14 and C17 -/

theorem zncHandlers_lookup_playback (Item Channel : Type) :
    (zncHandlers Item Channel).lookup "*playback".toList = some zncPlaybackHandler := by
  show List.lookup "*playback".toList [("*playback".toList, zncPlaybackHandler)] = some _
  simp [List.lookup]

theorem zncModuleHandler_playback {Item Channel : Type} (env : Env Item Channel)
    (command : GoString) (params : List GoString) (w : World Item Channel)
    (h : ToLower env.lowerCase command = "*playback".toList) :
    zncModuleHandler env command params w
      = zncPlaybackHandler env (ToLower env.lowerCase command) params w := by
  simp only [zncModuleHandler, h, zncHandlers_lookup_playback]

theorem zncModuleHandler_not_found {Item Channel : Type} (env : Env Item Channel)
    (command : GoString) (params : List GoString) (w : World Item Channel)
    (h : ToLower env.lowerCase command ≠ "*playback".toList) :
    zncModuleHandler env command params w
      = ⟨w.session,
          w.calls
            ++ [(Call.rbAdd env.serverName "NOTICE".toList
                  [env.nick,
                   Sprintf env.sprintfOther
                     (env.t "Oragono does not emulate the ZNC module %s".toList)
                     [ToLower env.lowerCase command]], w.session.zncPlaybackTimes),
                (Call.rbAdd "*status!znc@znc.in".toList "NOTICE".toList
                  [env.nick,
                   Sprintf env.sprintfOther (env.t "No such module [%s]".toList)
                     [ToLower env.lowerCase command]], w.session.zncPlaybackTimes)]⟩ := by
  have hk : ToLower env.lowerCase command ∉ (zncHandlers Item Channel).map Prod.fst := by
    simpa [zncHandlers] using h
  have hl := zncHandlers_lookup_none Item Channel _ hk
  simp only [zncModuleHandler, hl, World.call, List.append_assoc, List.cons_append,
    List.nil_append]

theorem zncPlaybackHandler_no_add {Item Channel : Type} (env : Env Item Channel)
    (command : GoString) (params : List GoString) (w : World Item Channel) :
    ∃ added, (zncPlaybackHandler env command params w).calls = w.calls ++ added
      ∧ ∀ e ∈ added, e.1.isAdd = false := by
  cases hacc : accepted env.lowerCase params with
  | false =>
    exact ⟨[], by rw [zncPlaybackHandler_rejected env command params w hacc]; simp, by simp⟩
  | true =>
    rw [zncPlaybackHandler_accepted env command params w hacc]
    refine ⟨_, List.append_assoc _ _ _, ?_⟩
    intro e he
    rcases List.mem_append.1 he with h1 | h2
    · split_ifs at h1
      · simp only [immediateReplay, List.mem_cons, List.mem_singleton, List.not_mem_nil,
          or_false] at h1
        rcases h1 with h1 | h1 <;> subst h1 <;> rfl
      · simp at h1
    · rcases channelCycles_mem env.channels _ e h2 with ⟨ch, _, he⟩ | he <;> subst he <;> rfl

/-- C11: for every module name whose lower-cased form is `"*playback"` and every
message text, `zncPrivmsgHandler` returns exactly what `zncPlaybackHandler` returns
on the full list `strings.Fields` makes of the message, which is the list of the
whitespace-delimited fields of the text, none dropped; and the calls it adds to
the log contain no `rb.Add`, so no not-found notice is emitted. -/
theorem zncPrivmsgHandler_playback {Item Channel : Type} (env : Env Item Channel)
    (command privmsg : GoString) (w : World Item Channel)
    (h : ToLower env.lowerCase command = "*playback".toList) :
    zncPrivmsgHandler env command privmsg w
        = zncPlaybackHandler env "*playback".toList (whitespaceDelimitedFields privmsg) w
      ∧ Fields privmsg = whitespaceDelimitedFields privmsg
      ∧ ∃ added, (zncPrivmsgHandler env command privmsg w).calls = w.calls ++ added
          ∧ ∀ e ∈ added, e.1.isAdd = false := by
  have e : zncPrivmsgHandler env command privmsg w
      = zncPlaybackHandler env "*playback".toList (whitespaceDelimitedFields privmsg) w := by
    unfold zncPrivmsgHandler
    rw [zncModuleHandler_playback env command _ w h, h, Fields_eq]
  refine ⟨e, Fields_eq privmsg, ?_⟩
  rw [e]
  exact zncPlaybackHandler_no_add env _ _ w

/-- Witness of C11 at the module name `*PlayBack` and the message
`"  PLAY   *  1000 "`. -/
theorem zncPrivmsgHandler_playback_witness :
    ToLower sampleEnv.lowerCase "*PlayBack".toList = "*playback".toList
      ∧ whitespaceDelimitedFields "  PLAY   *  1000 ".toList
          = ["PLAY".toList, "*".toList, "1000".toList]
      ∧ zncPrivmsgHandler sampleEnv "*PlayBack".toList "  PLAY   *  1000 ".toList sampleWorld
          = zncPlaybackHandler sampleEnv "*playback".toList
              (whitespaceDelimitedFields "  PLAY   *  1000 ".toList) sampleWorld :=
  ⟨by decide, by decide,
    (zncPrivmsgHandler_playback sampleEnv "*PlayBack".toList "  PLAY   *  1000 ".toList
      sampleWorld (by decide)).1⟩

/-- C14, counterexample: for the module `*playback` and the message `"play *"` the
first field, lower-cased, is `"play"`, which is no key of the registry, yet the
router finds the playback handler and a request is stored; for the module `*foo`
and the message `"*playback play *"` the first field is the registered key
`"*playback"`, yet the router finds no handler and answers with the two notices
that name `*foo`. -/
theorem zncPrivmsgHandler_key_is_not_first_field :
    (Fields "play *".toList).head? = some "play".toList
      ∧ ToLower sampleEnv.lowerCase "play".toList ∉ (zncHandlers Nat GoString).map Prod.fst
      ∧ (zncPrivmsgHandler sampleEnv "*playback".toList "play *".toList
            sampleWorld).session.zncPlaybackTimes = some ⟨Time.zero, Time.zero, none⟩
      ∧ (Fields "*playback play *".toList).head? = some "*playback".toList
      ∧ ToLower sampleEnv.lowerCase "*playback".toList
          ∈ (zncHandlers Nat GoString).map Prod.fst
      ∧ zncPrivmsgHandler sampleEnv "*foo".toList "*playback play *".toList sampleWorld
          = ⟨⟨none⟩,
              [(Call.rbAdd "irc.example.com".toList "NOTICE".toList
                  ["alice".toList, "Oragono does not emulate the ZNC module *foo".toList], none),
               (Call.rbAdd "*status!znc@znc.in".toList "NOTICE".toList
                  ["alice".toList, "No such module [*foo]".toList], none)]⟩ := by
  decide

/-- C14, amended: the router splits the message into whitespace-delimited fields and
passes all of them, the first included, to the handler as its parameters; the key
it looks up in the module registry is the lower-cased module name it receives as
`command` (the name of the virtual actor the message is addressed to), whatever
the message.  So the playback handler runs exactly when that name lower-cases to
`"*playback"`, and otherwise the two notices name the lower-cased module name. -/
theorem zncPrivmsgHandler_key_is_module_name {Item Channel : Type} (env : Env Item Channel)
    (command privmsg : GoString) (w : World Item Channel) :
    zncPrivmsgHandler env command privmsg w
      = if ToLower env.lowerCase command ∈ (zncHandlers Item Channel).map Prod.fst then
          zncPlaybackHandler env (ToLower env.lowerCase command) (Fields privmsg) w
        else
          ⟨w.session,
            w.calls
              ++ [(Call.rbAdd env.serverName "NOTICE".toList
                    [env.nick,
                     Sprintf env.sprintfOther
                     (env.t "Oragono does not emulate the ZNC module %s".toList)
                       [ToLower env.lowerCase command]], w.session.zncPlaybackTimes),
                  (Call.rbAdd "*status!znc@znc.in".toList "NOTICE".toList
                    [env.nick,
                     Sprintf env.sprintfOther (env.t "No such module [%s]".toList)
                       [ToLower env.lowerCase command]], w.session.zncPlaybackTimes)]⟩ := by
  have hk : ToLower env.lowerCase command ∈ (zncHandlers Item Channel).map Prod.fst
      ↔ ToLower env.lowerCase command = "*playback".toList := by
    simp [zncHandlers]
  unfold zncPrivmsgHandler
  by_cases h : ToLower env.lowerCase command = "*playback".toList
  · rw [if_pos (hk.2 h)]
    exact zncModuleHandler_playback env command _ w h
  · rw [if_neg (fun hm => h (hk.1 hm))]
    exact zncModuleHandler_not_found env command _ w h

/-- Witness of C14 (amended): the module name `*PLAYBACK` selects the playback
handler, which receives every field of `"play *"`, the first included. -/
theorem zncPrivmsgHandler_key_is_module_name_witness :
    zncPrivmsgHandler sampleEnv "*PLAYBACK".toList "play *".toList sampleWorld
      = zncPlaybackHandler sampleEnv "*playback".toList ["play".toList, "*".toList]
          sampleWorld :=
  (zncPrivmsgHandler_key_is_module_name sampleEnv "*PLAYBACK".toList "play *".toList
    sampleWorld).trans (by decide)

/-- C17: when the lower-cased module name is not registered, `zncModuleHandler`
leaves the session, with its stored playback request, as it was, and adds exactly
two calls to the log, both of them `rb.Add`: no history query, no private-message
replay, no channel auto-replay and no flush is made. -/
theorem zncModuleHandler_unknown_module_frame {Item Channel : Type} (env : Env Item Channel)
    (command : GoString) (params : List GoString) (w : World Item Channel)
    (h : ToLower env.lowerCase command ∉ (zncHandlers Item Channel).map Prod.fst) :
    (zncModuleHandler env command params w).session = w.session
      ∧ ∃ added, (zncModuleHandler env command params w).calls = w.calls ++ added
          ∧ added.length = 2
          ∧ ∀ e ∈ added, e.1.isAdd = true ∧ e.1.isHistoryBetween = false
              ∧ e.1.isReplayPrivmsgHistory = false ∧ e.1.isAutoReplayHistory = false
              ∧ e.1.isFlush = false ∧ e.2 = w.session.zncPlaybackTimes := by
  have hne : ToLower env.lowerCase command ≠ "*playback".toList := by
    intro e
    apply h
    rw [e]
    simp [zncHandlers]
  rw [zncModuleHandler_not_found env command params w hne]
  refine ⟨rfl, _, rfl, rfl, ?_⟩
  intro e he
  simp only [List.mem_cons, List.mem_singleton, List.not_mem_nil, or_false] at he
  rcases he with he | he <;> subst he <;> exact ⟨rfl, rfl, rfl, rfl, rfl, rfl⟩

/-- Witness of C17 at the module `*foo` and a session that holds a request. -/
theorem zncModuleHandler_unknown_module_frame_witness :
    ToLower sampleEnv.lowerCase "*foo".toList ∉ (zncHandlers Nat GoString).map Prod.fst
      ∧ (zncModuleHandler sampleEnv "*foo".toList ["bar".toList] sampleWorldBusy).session
          = sampleWorldBusy.session :=
  ⟨by decide,
    (zncModuleHandler_unknown_module_frame sampleEnv "*foo".toList ["bar".toList]
      sampleWorldBusy (by decide)).1⟩

/-! ## The playback handler: claims C15, C16 and C18 -/

theorem zncWireTimeToTime_syntax_errors (oor : F64 → Int) (str : GoString)
    (h1 : (ParseInt (secondsPortion str)).2 = some NumErr.ErrSyntax)
    (h2 : (ParseFloat (fracPortion str)).2 = some NumErr.ErrSyntax) :
    zncWireTimeToTime oor str = Unix 0 0 := by
  unfold zncWireTimeToTime
  rw [ParseInt_syntax_error _ h1, ParseFloat_syntax_error _ h2]
  simp only [fracNanos_zero]

theorem fracNanos_inInt64 (oor : F64 → Int) (x : F64) : inInt64 (fracNanos oor x) := by
  unfold fracNanos F64.toInt64
  split
  · rename_i v hv
    cases hx : F64.mul x (F64.ofNat 1000000000) with
    | fin s m e =>
      rw [hx] at hv
      simp only [F64.truncInt64] at hv
      split_ifs at hv with hs hin hin <;> (cases hv; exact hin)
    | inf s =>
      rw [hx] at hv
      simp [F64.truncInt64] at hv
    | nan =>
      rw [hx] at hv
      simp [F64.truncInt64] at hv
  · unfold inInt64 minInt64 maxInt64 wrap64
    omega

theorem unixTime_IsZero_false (a b : Int) (hb0 : 0 ≤ b) (hb : b < 1000000000)
    (ha : wrap64 (a + unixToInternal) ≠ 0) : (unixTime a b).IsZero = false := by
  have hw : b.toNat / 9223372036854775808 = 0 := Nat.div_eq_of_lt (by omega)
  simp [Time.IsZero, Time.sec, unixTime, hw, ha]

theorem Unix_IsZero_false (s ns : Int) (hs : s = 0 ∨ s = maxInt64 ∨ s = minInt64)
    (hns : inInt64 ns) : (Unix s ns).IsZero = false := by
  unfold inInt64 at hns
  unfold maxInt64 minInt64 at hs hns
  by_cases h1 : ns < 0 ∨ ns ≥ 1000000000
  · obtain ⟨n, hn⟩ : ∃ n, Int.tdiv ns 1000000000 = n := ⟨_, rfl⟩
    have hb : n * 1000000000 ≤ ns + 999999999 ∧ ns ≤ n * 1000000000 + 999999999 := by
      rw [← hn]
      by_cases h0 : 0 ≤ ns
      · rw [Int.tdiv_eq_ediv h0 (by norm_num)]
        omega
      · have e : ns = -(-ns) := by omega
        rw [e, Int.neg_tdiv, Int.tdiv_eq_ediv (by omega) (by norm_num)]
        omega
    have hu : Unix s ns
        = if ns - n * 1000000000 < 0 then
            unixTime (wrap64 (wrap64 (s + n) - 1)) (ns - n * 1000000000 + 1000000000)
          else unixTime (wrap64 (s + n)) (ns - n * 1000000000) := by
      simp only [Unix, h1, if_true, hn]
    rw [hu]
    split_ifs with h2
    · apply unixTime_IsZero_false _ _ (by omega) (by omega)
      unfold wrap64 unixToInternal
      omega
    · apply unixTime_IsZero_false _ _ (by omega) (by omega)
      unfold wrap64 unixToInternal
      omega
  · have hu : Unix s ns = unixTime s ns := by
      simp only [Unix, h1, if_false]
    rw [hu]
    apply unixTime_IsZero_false _ _ (by omega) (by omega)
    unfold wrap64 unixToInternal
    omega

theorem zncWireTimeToTime_int_error (oor : F64 → Int) (p : GoString)
    (h : (ParseInt (secondsPortion p)).2 ≠ none) :
    (zncWireTimeToTime oor p).IsZero = false := by
  unfold zncWireTimeToTime
  apply Unix_IsZero_false _ _ _ (fracNanos_inInt64 oor _)
  cases he : (ParseInt (secondsPortion p)).2 with
  | none => exact absurd he h
  | some e =>
    cases e with
    | ErrSyntax => exact Or.inl (ParseInt_syntax_error _ he)
    | ErrRange => exact Or.inr (ParseInt_range _ he)

theorem accepted_set_star (lowerCase : Char → Char) (params : List GoString)
    (h : accepted lowerCase params = true) :
    accepted lowerCase (params.set 1 "*".toList) = true := by
  rw [accepted_iff] at h ⊢
  obtain ⟨h1, h2⟩ := h
  match params, h1, h2 with
  | a :: b :: rest, _, h2 => exact ⟨by simp, by simpa using h2⟩

theorem boundAt_set_star (oor : F64 → Int) (params : List GoString) (i : Nat) (hi : 2 ≤ i) :
    boundAt oor (params.set 1 "*".toList) i = boundAt oor params i := by
  match params with
  | [] => rfl
  | [_] => rfl
  | a :: b :: rest =>
    obtain ⟨j, rfl⟩ : ∃ j, i = j + 2 := ⟨i - 2, by omega⟩
    simp [boundAt, List.getD]

/-- C15, counterexample: `play * abc` is accepted and its after parameter `"abc"`
is unparsable, yet the stored lower bound is `time.Unix(0, 0)`, the Unix epoch,
for which `IsZero` is false, whereas `play *`, where the parameter is absent,
stores the zero `time.Time`, for which `IsZero` is true; likewise for the before
parameter of `play * 1000 abc` against `play * 1000`. -/
theorem zncPlaybackHandler_unparsable_is_not_absent :
    accepted sampleEnv.lowerCase ["play".toList, "*".toList, "abc".toList] = true
      ∧ (ParseInt (secondsPortion "abc".toList)).2 = some NumErr.ErrSyntax
      ∧ (ParseFloat (fracPortion "abc".toList)).2 = some NumErr.ErrSyntax
      ∧ (zncPlaybackHandler sampleEnv "*playback".toList
            ["play".toList, "*".toList, "abc".toList] sampleWorld).session.zncPlaybackTimes
          = some ⟨Unix 0 0, Time.zero, none⟩
      ∧ (zncPlaybackHandler sampleEnv "*playback".toList
            ["play".toList, "*".toList] sampleWorld).session.zncPlaybackTimes
          = some ⟨Time.zero, Time.zero, none⟩
      ∧ (zncPlaybackHandler sampleEnv "*playback".toList
            ["play".toList, "*".toList, "1000".toList, "abc".toList]
            sampleWorld).session.zncPlaybackTimes
          = some ⟨Unix 1000 0, Unix 0 0, none⟩
      ∧ (zncPlaybackHandler sampleEnv "*playback".toList
            ["play".toList, "*".toList, "1000".toList] sampleWorld).session.zncPlaybackTimes
          = some ⟨Unix 1000 0, Time.zero, none⟩
      ∧ Unix 0 0 ≠ Time.zero
      ∧ (Unix 0 0).IsZero = false ∧ Time.zero.IsZero = true := by
  decide!

/-- C15, amended: a timestamp decode failure never propagates, but it does not
store the bound of an absent parameter.  For every accepted playback command, an
absent after (before) parameter stores the zero `time.Time`, for which `IsZero` is
true.  A present after (before) parameter stores `time.Unix(s, ns)`, where `s` is
what `ParseInt` returns for the integer segment and `ns` is
`int64(fraction * 1e9)` for what `ParseFloat` returns for the fraction segment,
the errors being ignored: `s` is 0 after a syntax error and `2^63 - 1` or `-2^63`
after a range error; `ns` is 0 after a syntax error and the platform's conversion
of an infinity after a range error.  Whenever `ParseInt` rejects the integer
segment, so whenever neither segment parses, `IsZero` is false for the stored
bound.  For `"abc"` the bound is `time.Unix(0, 0)`, the Unix epoch; for
`"9223372036854775808"` it is `time.Unix(2^63 - 1, 0)`. -/
theorem zncPlaybackHandler_unparsable_bound {Item Channel : Type} (env : Env Item Channel)
    (command : GoString) (params : List GoString) (w : World Item Channel)
    (hacc : accepted env.lowerCase params = true) :
    ∃ r, (zncPlaybackHandler env command params w).session.zncPlaybackTimes = some r
      ∧ (params.length ≤ 2 → r.after = Time.zero ∧ r.after.IsZero = true)
      ∧ (params.length ≤ 3 → r.before = Time.zero ∧ r.before.IsZero = true)
      ∧ (2 < params.length →
          r.after = Unix (ParseInt (secondsPortion (params.getD 2 []))).1
              (fracNanos env.oor (ParseFloat (fracPortion (params.getD 2 []))).1)
            ∧ ((ParseInt (secondsPortion (params.getD 2 []))).2 ≠ none →
                r.after.IsZero = false))
      ∧ (3 < params.length →
          r.before = Unix (ParseInt (secondsPortion (params.getD 3 []))).1
              (fracNanos env.oor (ParseFloat (fracPortion (params.getD 3 []))).1)
            ∧ ((ParseInt (secondsPortion (params.getD 3 []))).2 ≠ none →
                r.before.IsZero = false))
      ∧ (∀ p : GoString,
          ((ParseInt (secondsPortion p)).2 = some NumErr.ErrSyntax →
              (ParseInt (secondsPortion p)).1 = 0)
            ∧ ((ParseInt (secondsPortion p)).2 = some NumErr.ErrRange →
                (ParseInt (secondsPortion p)).1 = maxInt64
                  ∨ (ParseInt (secondsPortion p)).1 = minInt64)
            ∧ ((ParseFloat (fracPortion p)).2 = some NumErr.ErrSyntax →
                fracNanos env.oor (ParseFloat (fracPortion p)).1 = 0)
            ∧ ((ParseFloat (fracPortion p)).2 = some NumErr.ErrRange →
                ∃ sgn, fracNanos env.oor (ParseFloat (fracPortion p)).1
                  = wrap64 (env.oor (F64.inf sgn))))
      ∧ zncWireTimeToTime env.oor "abc".toList = Unix 0 0
      ∧ zncWireTimeToTime env.oor "9223372036854775808".toList = Unix maxInt64 0 := by
  refine ⟨requestOf env params, ?_, ?_, ?_, ?_, ?_, ?_, ?_, ?_⟩
  · rw [zncPlaybackHandler_accepted env command params w hacc]
  · intro hl
    have e : (requestOf env params).after = Time.zero := by
      show boundAt env.oor params 2 = Time.zero
      rw [boundAt, if_neg (by omega)]
    rw [e]
    exact ⟨rfl, by decide⟩
  · intro hl
    have e : (requestOf env params).before = Time.zero := by
      show boundAt env.oor params 3 = Time.zero
      rw [boundAt, if_neg (by omega)]
    rw [e]
    exact ⟨rfl, by decide⟩
  · intro hl
    have e : (requestOf env params).after = zncWireTimeToTime env.oor (params.getD 2 []) := by
      show boundAt env.oor params 2 = _
      rw [boundAt, if_pos hl]
    rw [e]
    exact ⟨rfl, fun hp => zncWireTimeToTime_int_error env.oor _ hp⟩
  · intro hl
    have e : (requestOf env params).before = zncWireTimeToTime env.oor (params.getD 3 []) := by
      show boundAt env.oor params 3 = _
      rw [boundAt, if_pos hl]
    rw [e]
    exact ⟨rfl, fun hp => zncWireTimeToTime_int_error env.oor _ hp⟩
  · intro p
    refine ⟨ParseInt_syntax_error _, ParseInt_range _, ?_, ?_⟩
    · intro hf
      rw [ParseFloat_syntax_error _ hf, fracNanos_zero]
    · intro hf
      obtain ⟨sgn, hs⟩ := ParseFloat_range _ hf
      exact ⟨sgn, by rw [hs, fracNanos_inf]⟩
  · exact zncWireTimeToTime_syntax_errors _ _ (by decide) (by decide)
  · have hr : ParseInt (secondsPortion "9223372036854775808".toList)
        = (maxInt64, some NumErr.ErrRange) := by decide!
    have hf : (ParseFloat (fracPortion "9223372036854775808".toList)).2
        = some NumErr.ErrSyntax := by decide
    unfold zncWireTimeToTime
    rw [hr, ParseFloat_syntax_error _ hf]
    simp only [fracNanos_zero]

/-- Witness of C15 (amended) at `play * 9223372036854775808 abc`: the after
parameter is out of range, the before parameter is no number at all. -/
theorem zncPlaybackHandler_unparsable_bound_witness :
    accepted sampleEnv.lowerCase
        ["play".toList, "*".toList, "9223372036854775808".toList, "abc".toList] = true
      ∧ (ParseInt (secondsPortion "9223372036854775808".toList)).2 = some NumErr.ErrRange
      ∧ (ParseInt (secondsPortion "abc".toList)).2 = some NumErr.ErrSyntax
      ∧ ∃ r, (zncPlaybackHandler sampleEnv "*playback".toList
            ["play".toList, "*".toList, "9223372036854775808".toList, "abc".toList]
            sampleWorld).session.zncPlaybackTimes = some r
          ∧ r.after = Unix 9223372036854775807 0 ∧ r.after.IsZero = false
          ∧ r.before = Unix 0 0 ∧ r.before.IsZero = false :=
  ⟨by decide, by decide!, by decide,
    (zncPlaybackHandler_unparsable_bound sampleEnv "*playback".toList
      ["play".toList, "*".toList, "9223372036854775808".toList, "abc".toList] sampleWorld
      (by decide)).elim
      (fun r h => ⟨r, h.1, (h.2.2.2.1 (by decide)).1.trans (by decide!),
        (h.2.2.2.1 (by decide)).2 (by decide!),
        (h.2.2.2.2.1 (by decide)).1.trans (by decide!),
        (h.2.2.2.2.1 (by decide)).2 (by decide)⟩)⟩

/-- C16: for every accepted command the log grows by two blocks, in this order.  The
first block is the immediate private-message replay (the history query and the
replay, present exactly when the target is `"*"`), every call of which was made
while the session still held the request it had before the command: the replay
precedes the store.  The second block is the channel cycles, one auto-replay per
channel, every call of which was made while the session already held the request
of this command, the request the session holds in the end: the store precedes
the first `autoReplayHistory`.  No auto-replay is in the first block and no
private-message replay in the second. -/
theorem zncPlaybackHandler_effect_order {Item Channel : Type} (env : Env Item Channel)
    (command : GoString) (params : List GoString) (w : World Item Channel)
    (hacc : accepted env.lowerCase params = true) :
    ∃ pm ch, (zncPlaybackHandler env command params w).calls = w.calls ++ pm ++ ch
      ∧ (zncPlaybackHandler env command params w).session.zncPlaybackTimes
          = some (requestOf env params)
      ∧ (∀ e ∈ pm, e.2 = w.session.zncPlaybackTimes ∧ e.1.isAutoReplayHistory = false
          ∧ e.1.isFlush = false)
      ∧ (∀ e ∈ ch, e.2 = some (requestOf env params) ∧ e.1.isHistoryBetween = false
          ∧ e.1.isReplayPrivmsgHistory = false)
      ∧ pm.countP (fun e => e.1.isReplayPrivmsgHistory)
          = (if params.getD 1 [] = "*".toList then 1 else 0)
      ∧ ch.countP (fun e => e.1.isAutoReplayHistory) = env.channels.length := by
  refine ⟨if params.getD 1 [] = "*".toList then
      immediateReplay env (boundAt env.oor params 2) (boundAt env.oor params 3)
        w.session.zncPlaybackTimes
    else [], channelCycles env.channels (some (requestOf env params)), ?_, ?_, ?_, ?_, ?_, ?_⟩
  · rw [zncPlaybackHandler_accepted env command params w hacc]
  · rw [zncPlaybackHandler_accepted env command params w hacc]
  · intro e he
    split_ifs at he
    · simp only [immediateReplay, List.mem_cons, List.mem_singleton, List.not_mem_nil,
        or_false] at he
      rcases he with he | he <;> subst he <;> exact ⟨rfl, rfl, rfl⟩
    · simp at he
  · intro e he
    rcases channelCycles_mem env.channels _ e he with ⟨c, _, h⟩ | h <;> subst h <;>
      exact ⟨rfl, rfl, rfl⟩
  · split_ifs
    · rfl
    · rfl
  · exact (countP_channelCycles_autoReplay env.channels _).1

/-- Witness of C16 at `play * 1000` on a session that holds an older request: the
private-message replay is logged with the older request, the channel auto-replays
with the new one. -/
theorem zncPlaybackHandler_effect_order_witness :
    accepted sampleEnv.lowerCase ["play".toList, "*".toList, "1000".toList] = true
      ∧ (zncPlaybackHandler sampleEnv "*playback".toList
            ["play".toList, "*".toList, "1000".toList] sampleWorldBusy).calls
          = sampleWorldBusy.calls
            ++ [(Call.historyBetween (Unix 1000 0) Time.zero false 1000,
                  some ⟨Unix 5 0, Unix 6 0, some [("#old".toList, true)]⟩),
                (Call.replayPrivmsgHistory [1, 2, 3] true,
                  some ⟨Unix 5 0, Unix 6 0, some [("#old".toList, true)]⟩),
                (Call.autoReplayHistory "#general".toList [],
                  some ⟨Unix 1000 0, Time.zero, none⟩),
                (Call.rbFlush true, some ⟨Unix 1000 0, Time.zero, none⟩),
                (Call.autoReplayHistory "#dev".toList [],
                  some ⟨Unix 1000 0, Time.zero, none⟩),
                (Call.rbFlush true, some ⟨Unix 1000 0, Time.zero, none⟩)]
      ∧ ∃ pm ch, (zncPlaybackHandler sampleEnv "*playback".toList
            ["play".toList, "*".toList, "1000".toList] sampleWorldBusy).calls
              = sampleWorldBusy.calls ++ pm ++ ch
          ∧ (∀ e ∈ pm, e.2 = sampleWorldBusy.session.zncPlaybackTimes)
          ∧ (∀ e ∈ ch, e.2 = some (requestOf sampleEnv
              ["play".toList, "*".toList, "1000".toList])) :=
  ⟨by decide, by decide!,
    (zncPlaybackHandler_effect_order sampleEnv "*playback".toList
      ["play".toList, "*".toList, "1000".toList] sampleWorldBusy (by decide)).elim
      (fun pm h => h.elim (fun ch h2 =>
        ⟨pm, ch, h2.1, fun e he => (h2.2.2.1 e he).1, fun e he => (h2.2.2.2.1 e he).1⟩))⟩

/-- C18: for every accepted playback command whose target parameter is not `"*"`, the
stored targets is nil exactly when every comma-separated name fails
`CasefoldChannel`, and is a set holding a casefolded name otherwise; when it is
nil the stored request is the very request the same command with target `"*"`
stores, although the command logged no history query and no private-message
replay. -/
theorem zncPlaybackHandler_targets_nil {Item Channel : Type} (env : Env Item Channel)
    (command : GoString) (params : List GoString) (w : World Item Channel)
    (hacc : accepted env.lowerCase params = true)
    (hstar : params.getD 1 [] ≠ "*".toList) :
    ∃ r, (zncPlaybackHandler env command params w).session.zncPlaybackTimes = some r
      ∧ (r.targets = none
          ↔ ∀ name ∈ Split (params.getD 1 []) ',', env.casefoldChannel name = none)
      ∧ (r.targets ≠ none
          ↔ ∃ name ∈ Split (params.getD 1 []) ',', ∃ cf, env.casefoldChannel name = some cf
              ∧ mapGet r.targets cf = true)
      ∧ (r.targets = none →
          (zncPlaybackHandler env command (params.set 1 "*".toList) w).session.zncPlaybackTimes
            = some r)
      ∧ ∃ added, (zncPlaybackHandler env command params w).calls = w.calls ++ added
          ∧ ∀ e ∈ added, e.1.isHistoryBetween = false ∧ e.1.isReplayPrivmsgHistory = false := by
  have ht : (requestOf env params).targets
      = resolveTargets env.casefoldChannel (params.getD 1 []) := by
    show (if params.getD 1 [] = "*".toList then none
      else resolveTargets env.casefoldChannel (params.getD 1 [])) = _
    rw [if_neg hstar]
  have hnone := resolveTargets_eq_none env.casefoldChannel (params.getD 1 [])
  refine ⟨requestOf env params, ?_, ?_, ?_, ?_, ?_⟩
  · rw [zncPlaybackHandler_accepted env command params w hacc]
  · rw [ht]
    exact hnone
  · rw [ht]
    constructor
    · intro hne
      have : ¬ ∀ name ∈ Split (params.getD 1 []) ',', env.casefoldChannel name = none :=
        fun hall => hne (hnone.2 hall)
      push_neg at this
      obtain ⟨name, hmem, hcf⟩ := this
      obtain ⟨cf, hcf2⟩ := Option.ne_none_iff_exists'.1 hcf
      exact ⟨name, hmem, cf, hcf2,
        (resolveTargets_mapGet env.casefoldChannel _ cf).2 ⟨name, hmem, hcf2⟩⟩
    · rintro ⟨name, hmem, cf, hcf, _⟩ hn
      have := hnone.1 hn name hmem
      rw [hcf] at this
      exact Option.noConfusion this
  · intro hn
    rw [zncPlaybackHandler_accepted env command _ w (accepted_set_star _ _ hacc)]
    have hlen : 1 < params.length := by
      have := ((accepted_iff _ _).1 hacc).1
      omega
    have hget : (params.set 1 "*".toList).getD 1 [] = "*".toList := by
      simp [List.getD, hlen]
    show some (requestOf env (params.set 1 "*".toList)) = some (requestOf env params)
    congr 1
    unfold requestOf
    rw [hget, if_pos rfl, boundAt_set_star _ _ 2 (by omega), boundAt_set_star _ _ 3 (by omega),
      if_neg hstar]
    rw [ht] at hn
    rw [hn]
  · rw [zncPlaybackHandler_accepted env command params w hacc, if_neg hstar]
    refine ⟨channelCycles env.channels (some (requestOf env params)), by simp, ?_⟩
    intro e he
    exact channelCycles_no_history env.channels _ e he

/-- Witness of C18 at `play #bad name,nochannel 1000`, none of whose names
casefolds. -/
theorem zncPlaybackHandler_targets_nil_witness :
    accepted sampleEnv.lowerCase
        ["play".toList, "#bad name,nochannel".toList, "1000".toList] = true
      ∧ "#bad name,nochannel".toList ≠ "*".toList
      ∧ (∀ name ∈ Split "#bad name,nochannel".toList ',',
          sampleEnv.casefoldChannel name = none)
      ∧ ∃ r, (zncPlaybackHandler sampleEnv "*playback".toList
            ["play".toList, "#bad name,nochannel".toList, "1000".toList]
            sampleWorld).session.zncPlaybackTimes = some r
          ∧ r.targets = none
          ∧ (zncPlaybackHandler sampleEnv "*playback".toList
              ["play".toList, "*".toList, "1000".toList]
              sampleWorld).session.zncPlaybackTimes = some r :=
  ⟨by decide, by decide, by decide,
    (zncPlaybackHandler_targets_nil sampleEnv "*playback".toList
      ["play".toList, "#bad name,nochannel".toList, "1000".toList] sampleWorld
      (by decide) (by decide)).elim
      (fun r h => ⟨r, h.1, h.2.1.2 (by decide), h.2.2.2.1 (h.2.1.2 (by decide))⟩)⟩

/-! ## The sign of a wire time: claim C19 -/

theorem zncWireTimeToTime_minus_digits_dot_digits (oor : F64 → Int) (ip fp : GoString)
    (hip : isDigits ip = true) (hfp : isDigits fp = true)
    (hn : minInt64 ≤ -(decimalValue ip : Int)) :
    zncWireTimeToTime oor ('-' :: ip ++ '.' :: fp)
      = Unix (-(decimalValue ip : Int))
          (fracNanos oor (roundF64 false (decimalValue fp) (10 ^ fp.length))) := by
  have hdot : '.' ∉ '-' :: ip := by
    intro h
    rcases List.mem_cons.1 h with h | h
    · exact absurd h (by decide)
    · exact dot_not_mem_of_isDigits ip hip h
  have e : '-' :: ip ++ '.' :: fp = ('-' :: ip) ++ '.' :: fp := rfl
  unfold zncWireTimeToTime
  rw [e, secondsPortion_append_dot _ fp hdot, fracPortion_append_dot _ fp hdot,
    ParseInt_minus ip hip hn, ParseFloat_dot_digits fp hfp]

theorem Unix_After_same_second (sec : Int) (ns : Nat) (h1 : minInt64 ≤ sec) (h2 : sec ≤ 0)
    (hns : ns ≤ 1000000000) :
    (Unix sec ns).After (Unix sec 0) = decide (1 ≤ ns)
      ∧ (Unix sec 0).After (Unix sec ns) = false := by
  unfold minInt64 at h1
  rw [Unix_zero_nsec]
  by_cases h9 : ns = 1000000000
  · subst h9
    have hu : Unix sec ((1000000000 : Nat) : Int) = unixTime (wrap64 (sec + 1)) 0 := by
      simp [Unix, Int.tdiv]
    rw [hu]
    simp only [Time.After, unixTime, Time.sec, Time.Nanosecond, Int.toNat_zero, Nat.zero_div,
      Nat.zero_mod]
    simp [wrap64, unixToInternal]
    omega
  · have hlt : ns < 1000000000 := by omega
    have hu : Unix sec (ns : Int) = unixTime sec ns := by
      unfold Unix
      rw [if_neg (by omega)]
    rw [hu]
    simp only [Time.After, unixTime, Time.sec, Time.Nanosecond, Int.toNat_ofNat, Int.toNat_zero]
    have hw : ns / 9223372036854775808 = 0 := Nat.div_eq_of_lt (by omega)
    have hm : ns % 1073741824 = ns := Nat.mod_eq_of_lt (by omega)
    simp [hw, hm]
    omega

/-- C19, counterexample: `"-1.0000000001"` has `n = 1` and the non-zero fraction
`0000000001`, yet the fraction is worth less than a nanosecond, the conversion to
`int64` truncates it to 0, and the result is `time.Unix(-1, 0)`, exactly epoch - 1
second and not strictly later. -/
theorem zncWireTimeToTime_negative_tiny_fraction :
    isDigits "1".toList = true ∧ 0 < decimalValue "1".toList
      ∧ isDigits "0000000001".toList = true ∧ decimalValue "0000000001".toList ≠ 0
      ∧ zncWireTimeToTime oorAmd64 "-1.0000000001".toList = Unix (-1) 0
      ∧ (zncWireTimeToTime oorAmd64 "-1.0000000001".toList).After (Unix (-1) 0) = false := by
  decide!

/-- C19, amended: the sign applies to the integer segment only.  For every input
`"-<n>.<f>"` with digit strings `n` (of value at most `2^63`) and `f`, the result is
`time.Unix(-n, ns)`, where `ns = int64(float64(0.f) * 1e9)` lies between 0 and
`10^9` and strictly between `0.f * 1e9 - 2` and `0.f * 1e9 + 1`: the nanoseconds are
added to `-n` seconds, never subtracted.  So the result is never earlier than
epoch - n seconds, and it is strictly later exactly when `ns ≥ 1`, which holds
whenever `0.f ≥ 2e-9` and, `ns` being exact there, whenever `f` is non-zero and has
at most three digits; `"-1.5"` decodes to `time.Unix(-1, 500000000)`, that is
epoch - 0.5 s.  A fraction below one nanosecond may leave the result at exactly
epoch - n seconds. -/
theorem zncWireTimeToTime_negative_fraction (oor : F64 → Int) (ip fp : GoString)
    (hip : isDigits ip = true) (hfp : isDigits fp = true)
    (hn : minInt64 ≤ -(decimalValue ip : Int)) :
    ∃ ns : Nat,
      zncWireTimeToTime oor ('-' :: ip ++ '.' :: fp) = Unix (-(decimalValue ip : Int)) (ns : Int)
        ∧ ns ≤ 1000000000
        ∧ decimalValue fp * 10 ^ 9 < (ns + 2) * 10 ^ fp.length
        ∧ ns * 10 ^ fp.length < decimalValue fp * 10 ^ 9 + 10 ^ fp.length
        ∧ (Unix (-(decimalValue ip : Int)) 0).After
            (zncWireTimeToTime oor ('-' :: ip ++ '.' :: fp)) = false
        ∧ (zncWireTimeToTime oor ('-' :: ip ++ '.' :: fp)).After
            (Unix (-(decimalValue ip : Int)) 0) = decide (1 ≤ ns)
        ∧ (2 * 10 ^ fp.length ≤ decimalValue fp * 10 ^ 9 →
            (zncWireTimeToTime oor ('-' :: ip ++ '.' :: fp)).After
              (Unix (-(decimalValue ip : Int)) 0) = true)
        ∧ (fp.length ≤ 3 → 0 < decimalValue fp →
            ns = decimalValue fp * 10 ^ (9 - fp.length)
              ∧ (zncWireTimeToTime oor ('-' :: ip ++ '.' :: fp)).After
                  (Unix (-(decimalValue ip : Int)) 0) = true)
        ∧ zncWireTimeToTime oor "-1.5".toList = Unix (-1) 500000000 := by
  have h := zncWireTimeToTime_minus_digits_dot_digits oor ip fp hip hfp hn
  obtain ⟨ns, hns, hlo, hhi, _⟩ := fracNanos_bound oor fp hfp
  have hd2 := (isDigits_iff fp).1 hfp
  have hlt := decimalValue_lt fp hd2.2
  have hpos : 0 < 10 ^ fp.length := by positivity
  have hle : ns ≤ 1000000000 := by
    have h3 : ns * 10 ^ fp.length < (1000000000 + 1) * 10 ^ fp.length := by
      have : decimalValue fp * 10 ^ 9 < 10 ^ fp.length * 10 ^ 9 :=
        Nat.mul_lt_mul_of_pos_right hlt (by positivity)
      nlinarith
    have := Nat.lt_of_mul_lt_mul_right h3
    omega
  have hz : zncWireTimeToTime oor ('-' :: ip ++ '.' :: fp)
      = Unix (-(decimalValue ip : Int)) (ns : Int) := by rw [h, hns]
  have hafter := Unix_After_same_second (-(decimalValue ip : Int)) ns hn (by omega) hle
  refine ⟨ns, hz, hle, hlo, hhi, ?_, ?_, ?_, ?_, ?_⟩
  · rw [hz]
    exact hafter.2
  · rw [hz]
    exact hafter.1
  · intro h2
    rw [hz, hafter.1]
    have : 1 ≤ ns := by
      by_contra hc
      have h0 : ns = 0 := by omega
      rw [h0] at hlo
      omega
    simpa using this
  · intro hlen hv
    have hex := fracNanos_short_fraction oor fp hfp hlen
    rw [hns] at hex
    have hex2 : ns = decimalValue fp * 10 ^ (9 - fp.length) := by exact_mod_cast hex
    refine ⟨hex2, ?_⟩
    rw [hz, hafter.1]
    have : 1 ≤ ns := by
      rw [hex2]
      exact Nat.mul_pos hv (by positivity)
    simpa using this
  · have h15 := zncWireTimeToTime_minus_digits_dot_digits oor "1".toList "5".toList
      (by decide) (by decide) (by decide)
    have hfr := fracNanos_short_fraction oor "5".toList (by decide) (by decide)
    have e1 : '-' :: "1".toList ++ '.' :: "5".toList = "-1.5".toList := by decide
    have e2 : (-((decimalValue "1".toList : Nat) : Int)) = -1 := by decide
    have e3 : ((decimalValue "5".toList * 10 ^ (9 - "5".toList.length) : Nat) : Int)
        = 500000000 := by decide
    rw [e1, hfr, e2, e3] at h15
    exact h15

/-- Witness of C19 (amended) at `"-1558374442.25"`. -/
theorem zncWireTimeToTime_negative_fraction_witness :
    isDigits "1558374442".toList = true ∧ isDigits "25".toList = true
      ∧ minInt64 ≤ -(decimalValue "1558374442".toList : Int)
      ∧ ∃ ns : Nat,
          zncWireTimeToTime oorAmd64 ('-' :: "1558374442".toList ++ '.' :: "25".toList)
              = Unix (-(decimalValue "1558374442".toList : Int)) (ns : Int)
            ∧ ns = decimalValue "25".toList * 10 ^ (9 - "25".toList.length)
            ∧ (zncWireTimeToTime oorAmd64
                ('-' :: "1558374442".toList ++ '.' :: "25".toList)).After
                  (Unix (-(decimalValue "1558374442".toList : Int)) 0) = true :=
  ⟨by decide, by decide, by decide,
    (zncWireTimeToTime_negative_fraction oorAmd64 "1558374442".toList "25".toList
      (by decide) (by decide) (by decide)).elim
      (fun ns h => ⟨ns, h.1, (h.2.2.2.2.2.2.2.1 (by decide) (by decide)).1,
        (h.2.2.2.2.2.2.2.1 (by decide) (by decide)).2⟩)⟩

/-! ## Lemmas on the token comparison -/

theorem ConstantTimeByteEq_zero (v : Nat) (hv : v < 256) :
    ConstantTimeByteEq v 0 = 1 ↔ v = 0 := by
  unfold ConstantTimeByteEq
  rw [Nat.xor_zero, Nat.shiftRight_eq_div_pow]
  constructor
  · intro h
    by_contra hne
    have : (v + 4294967295) % 4294967296 = v - 1 := by omega
    rw [this] at h
    have : (v - 1) / 2 ^ 31 = 0 := Nat.div_eq_of_lt (by omega)
    omega
  · intro h
    subst h
    decide

theorem foldl_or_xor_lt (l : List (Byte × Byte)) (v : Nat) (hv : v < 256) :
    l.foldl (fun v p => v ||| (p.1.val ^^^ p.2.val)) v < 256 := by
  induction l generalizing v with
  | nil => exact hv
  | cons p ps ih =>
    apply ih
    have h1 : p.1.val < 2 ^ 8 := p.1.isLt
    have h2 : p.2.val < 2 ^ 8 := p.2.isLt
    have hv8 : v < 2 ^ 8 := hv
    have h := Nat.or_lt_two_pow hv8 (Nat.xor_lt_two_pow h1 h2)
    exact h

theorem or_eq_zero_iff (a b : Nat) : a ||| b = 0 ↔ a = 0 ∧ b = 0 := by
  constructor
  · intro h
    constructor
    · apply Nat.eq_of_testBit_eq
      intro i
      have := congrArg (fun n => n.testBit i) h
      simp at this
      simp [this.1]
    · apply Nat.eq_of_testBit_eq
      intro i
      have := congrArg (fun n => n.testBit i) h
      simp at this
      simp [this.2]
  · rintro ⟨rfl, rfl⟩
    rfl

theorem foldl_or_xor_eq_zero (l : List (Byte × Byte)) (v : Nat) :
    l.foldl (fun v p => v ||| (p.1.val ^^^ p.2.val)) v = 0 ↔ v = 0 ∧ ∀ p ∈ l, p.1 = p.2 := by
  induction l generalizing v with
  | nil => simp
  | cons p ps ih =>
    rw [List.foldl_cons, ih, or_eq_zero_iff, Nat.xor_eq_zero]
    simp only [List.mem_cons, forall_eq_or_imp, Fin.val_inj]
    tauto

theorem zip_eq_iff (x y : List Byte) (h : x.length = y.length) :
    (∀ p ∈ x.zip y, p.1 = p.2) ↔ x = y := by
  induction x generalizing y with
  | nil =>
    cases y with
    | nil => simp
    | cons b bs => simp at h
  | cons a as ih =>
    cases y with
    | nil => simp at h
    | cons b bs =>
      have hl : as.length = bs.length := by simpa using h
      simp only [List.zip_cons_cons, List.mem_cons, forall_eq_or_imp, ih bs hl,
        List.cons.injEq]

theorem ConstantTimeCompare_eq_one (x y : List Byte) : ConstantTimeCompare x y = 1 ↔ x = y := by
  unfold ConstantTimeCompare
  by_cases h : x.length = y.length
  · rw [if_neg (by simpa using h), ConstantTimeByteEq_zero _ (foldl_or_xor_lt _ 0 (by omega)),
      foldl_or_xor_eq_zero, zip_eq_iff x y h]
    simp
  · rw [if_pos h]
    constructor
    · intro h0
      omega
    · intro e
      exact absurd (congrArg List.length e) h

/-! ## The token comparison: claim C12 -/

/-- C12: `SecretTokensMatch stored supplied` is true if and only if the stored token
is non-empty and the two tokens are equal byte for byte; an empty stored token
matches nothing, not even an empty supplied token. -/
theorem SecretTokensMatch_iff (storedToken suppliedToken : List Byte) :
    (SecretTokensMatch storedToken suppliedToken = true
        ↔ storedToken ≠ [] ∧ storedToken = suppliedToken)
      ∧ SecretTokensMatch [] suppliedToken = false
      ∧ SecretTokensMatch [] [] = false := by
  refine ⟨?_, rfl, rfl⟩
  unfold SecretTokensMatch
  by_cases h : storedToken = []
  · subst h
    simp
  · have hl : storedToken.length ≠ 0 := fun e => h (List.length_eq_zero.1 e)
    rw [if_neg hl, decide_eq_true_iff, ConstantTimeCompare_eq_one]
    simp [h]

/-- Witness of C12: a generated token matches itself and does not match the token
of a buffer that differs in one bit. -/
theorem SecretTokensMatch_iff_witness :
    SecretTokensMatch (GenerateSecretToken sampleBuffer) (GenerateSecretToken sampleBuffer)
        = true
      ∧ SecretTokensMatch (GenerateSecretToken sampleBuffer)
          (GenerateSecretToken sampleBufferLastBit) = false :=
  ⟨(SecretTokensMatch_iff (GenerateSecretToken sampleBuffer)
      (GenerateSecretToken sampleBuffer)).1.2 ⟨by decide, rfl⟩,
    by decide⟩

/-! ## Lemmas on the base32 encoder -/

theorem and_31 (x : Nat) : x &&& 31 = x % 32 := Nat.and_pow_two_sub_one_eq_mod x 5

theorem b32Alphabet_length : b32Alphabet.length = 32 := by decide

theorem b32Alphabet_getD_mem (x : Nat) : b32Alphabet.getD (x &&& 31) 0 ∈ b32Alphabet := by
  have h : x &&& 31 < b32Alphabet.length := by
    rw [and_31, b32Alphabet_length]
    omega
  rw [List.getD_eq_getElem _ _ h]
  exact List.getElem_mem h

theorem b32Symbols_mem (b : List Nat) (size : Nat) (c : Byte)
    (h : c ∈ b32Symbols b32Alphabet b size) : c ∈ b32Alphabet := by
  unfold b32Symbols at h
  obtain ⟨x, _, rfl⟩ := List.mem_map.1 h
  exact b32Alphabet_getD_mem x

theorem b32Encode_mem (src : List Byte) (size : Nat) (c : Byte)
    (h : c ∈ b32Encode b32Alphabet src size) : c ∈ b32Alphabet := by
  induction src, size using b32Encode.induct b32Alphabet with
  | case1 size => simp [b32Encode] at h
  | case2 s0 s1 s2 s3 s4 rest size ih =>
    rw [b32Encode] at h
    rcases List.mem_append.1 h with h | h
    · exact b32Symbols_mem _ _ c h
    · exact ih h
  | case3 src size h1 h2 =>
    rw [b32Encode] at h
    · exact b32Symbols_mem _ _ c h
    · exact h1
    · exact h2

theorem or_shift_2 : ∀ a < 4, ∀ c < 8, a ||| c * 4 = a + c * 4 := by decide
theorem or_shift_4 : ∀ a < 16, ∀ c < 2, a ||| c * 16 = a + c * 16 := by decide
theorem or_shift_1 : ∀ a < 2, ∀ c < 16, a ||| c * 2 = a + c * 2 := by decide
theorem or_shift_3 : ∀ a < 8, ∀ c < 4, a ||| c * 8 = a + c * 8 := by decide

theorem b32_block1 (s0 s1 : Nat) (h1 : s1 < 256) :
    ((s1 >>> 6) &&& 31) ||| ((s0 <<< 2) % 256 &&& 31) = s1 / 64 + s0 % 8 * 4 := by
  rw [Nat.shiftRight_eq_div_pow, Nat.shiftLeft_eq, and_31, and_31]
  have e1 : s1 / 2 ^ 6 % 32 = s1 / 64 := by omega
  have e2 : s0 * 2 ^ 2 % 256 % 32 = s0 % 8 * 4 := by omega
  rw [e1, e2]
  exact or_shift_2 _ (by omega) _ (by omega)

theorem b32_block3 (s1 s2 : Nat) (h2 : s2 < 256) :
    ((s2 >>> 4) &&& 31) ||| ((s1 <<< 4) % 256 &&& 31) = s2 / 16 + s1 % 2 * 16 := by
  rw [Nat.shiftRight_eq_div_pow, Nat.shiftLeft_eq, and_31, and_31]
  have e1 : s2 / 2 ^ 4 % 32 = s2 / 16 := by omega
  have e2 : s1 * 2 ^ 4 % 256 % 32 = s1 % 2 * 16 := by omega
  rw [e1, e2]
  exact or_shift_4 _ (by omega) _ (by omega)

theorem b32_block4 (s2 s3 : Nat) (h3 : s3 < 256) :
    (s3 >>> 7) ||| ((s2 <<< 1) % 256 &&& 31) = s3 / 128 + s2 % 16 * 2 := by
  rw [Nat.shiftRight_eq_div_pow, Nat.shiftLeft_eq, and_31]
  have e1 : s3 / 2 ^ 7 = s3 / 128 := by omega
  have e2 : s2 * 2 ^ 1 % 256 % 32 = s2 % 16 * 2 := by omega
  rw [e1, e2]
  exact or_shift_1 _ (by omega) _ (by omega)

theorem b32_block6 (s3 s4 : Nat) (h4 : s4 < 256) :
    (s4 >>> 5) ||| ((s3 <<< 3) % 256 &&& 31) = s4 / 32 + s3 % 4 * 8 := by
  rw [Nat.shiftRight_eq_div_pow, Nat.shiftLeft_eq, and_31]
  have e1 : s4 / 2 ^ 5 = s4 / 32 := by omega
  have e2 : s3 * 2 ^ 3 % 256 % 32 = s3 % 4 * 8 := by omega
  rw [e1, e2]
  exact or_shift_3 _ (by omega) _ (by omega)

/-- The eight 5-bit blocks of a full quantum, in arithmetic form. -/
theorem b32Quantum_five (s0 s1 s2 s3 s4 : Byte) :
    b32Quantum [s0, s1, s2, s3, s4]
      = [s0.val / 8, s1.val / 64 + s0.val % 8 * 4, s1.val / 2 % 32,
         s2.val / 16 + s1.val % 2 * 16, s3.val / 128 + s2.val % 16 * 2, s3.val / 4 % 32,
         s4.val / 32 + s3.val % 4 * 8, s4.val % 32] := by
  have h1 := s1.isLt
  have h2 := s2.isLt
  have h3 := s3.isLt
  have h4 := s4.isLt
  show [s0.val >>> 3,
     ((s1.val >>> 6) &&& 31) ||| ((s0.val <<< 2) % 256 &&& 31),
     (s1.val >>> 1) &&& 31,
     ((s2.val >>> 4) &&& 31) ||| ((s1.val <<< 4) % 256 &&& 31),
     (s3.val >>> 7) ||| ((s2.val <<< 1) % 256 &&& 31),
     (s3.val >>> 2) &&& 31,
     (s4.val >>> 5) ||| ((s3.val <<< 3) % 256 &&& 31),
     s4.val &&& 31] = _
  rw [b32_block1 _ _ h1, b32_block3 _ _ h2, b32_block4 _ _ h3, b32_block6 _ _ h4,
    and_31, and_31, and_31, Nat.shiftRight_eq_div_pow, Nat.shiftRight_eq_div_pow,
    Nat.shiftRight_eq_div_pow]

/-- The first two 5-bit blocks of a final quantum of one byte. -/
theorem b32Quantum_one (s0 : Byte) :
    (b32Quantum [s0]).take 2 = [s0.val / 8, s0.val % 8 * 4] := by
  show [s0.val >>> 3, 0 ||| ((s0.val <<< 2) % 256 &&& 31)] = _
  rw [Nat.zero_or, Nat.shiftRight_eq_div_pow, Nat.shiftLeft_eq, and_31]
  have e2 : s0.val * 2 ^ 2 % 256 % 32 = s0.val % 8 * 4 := by omega
  rw [e2]

theorem b32Alphabet_nodup : b32Alphabet.Nodup := by decide

theorem b32Alphabet_getD_inj (i j : Nat) (hi : i < 32) (hj : j < 32)
    (h : b32Alphabet.getD (i &&& 31) 0 = b32Alphabet.getD (j &&& 31) 0) : i = j := by
  have hi2 : i &&& 31 = i := by rw [and_31]; omega
  have hj2 : j &&& 31 = j := by rw [and_31]; omega
  rw [hi2, hj2] at h
  have hil : i < b32Alphabet.length := by rw [b32Alphabet_length]; exact hi
  have hjl : j < b32Alphabet.length := by rw [b32Alphabet_length]; exact hj
  rw [List.getD_eq_getElem _ _ hil, List.getD_eq_getElem _ _ hjl] at h
  exact (b32Alphabet_nodup.getElem_inj_iff).1 h

theorem length_sixteen (buf : List Byte) (h : buf.length = 16) :
    ∃ a0 a1 a2 a3 a4 a5 a6 a7 a8 a9 a10 a11 a12 a13 a14 a15,
      buf = [a0, a1, a2, a3, a4, a5, a6, a7, a8, a9, a10, a11, a12, a13, a14, a15] := by
  match buf, h with
  | [a0, a1, a2, a3, a4, a5, a6, a7, a8, a9, a10, a11, a12, a13, a14, a15], _ =>
    exact ⟨a0, a1, a2, a3, a4, a5, a6, a7, a8, a9, a10, a11, a12, a13, a14, a15, rfl⟩

/-- The token of a 16-byte buffer: the symbols of three full quanta and the first
two symbols of the last byte. -/
theorem GenerateSecretToken_sixteen (a0 a1 a2 a3 a4 a5 a6 a7 a8 a9 a10 a11 a12 a13 a14 a15 : Byte) :
    GenerateSecretToken [a0, a1, a2, a3, a4, a5, a6, a7, a8, a9, a10, a11, a12, a13, a14, a15]
      = [a0.val / 8, a1.val / 64 + a0.val % 8 * 4, a1.val / 2 % 32,
         a2.val / 16 + a1.val % 2 * 16, a3.val / 128 + a2.val % 16 * 2, a3.val / 4 % 32,
         a4.val / 32 + a3.val % 4 * 8, a4.val % 32,
         a5.val / 8, a6.val / 64 + a5.val % 8 * 4, a6.val / 2 % 32,
         a7.val / 16 + a6.val % 2 * 16, a8.val / 128 + a7.val % 16 * 2, a8.val / 4 % 32,
         a9.val / 32 + a8.val % 4 * 8, a9.val % 32,
         a10.val / 8, a11.val / 64 + a10.val % 8 * 4, a11.val / 2 % 32,
         a12.val / 16 + a11.val % 2 * 16, a13.val / 128 + a12.val % 16 * 2, a13.val / 4 % 32,
         a14.val / 32 + a13.val % 4 * 8, a14.val % 32,
         a15.val / 8, a15.val % 8 * 4].map (fun x => b32Alphabet.getD (x &&& 31) 0) := by
  have e1 : ([a0, a1, a2, a3, a4, a5, a6, a7, a8, a9, a10, a11, a12, a13, a14, a15].length * 8 + 4) / 5
      = 26 := by simp
  simp only [GenerateSecretToken, B32EncodeToString, b32Encode, b32EncodedLen, b32Symbols, e1]
  have m1 : min 26 8 = 8 := by decide
  have m2 : min (26 - 8) 8 = 8 := by decide
  have m3 : min (26 - 8 - 8) 8 = 8 := by decide
  have m4 : min (26 - 8 - 8 - 8) 8 = 2 := by decide
  rw [m1, m2, m3, m4, b32Quantum_five, b32Quantum_five, b32Quantum_five, b32Quantum_one]
  rfl

/-- The eight symbols of a full quantum determine its five bytes. -/
theorem b32_quantum_inj (a0 a1 a2 a3 a4 b0 b1 b2 b3 b4 : Byte)
    (h0 : b32Alphabet.getD (a0.val / 8 &&& 31) 0 = b32Alphabet.getD (b0.val / 8 &&& 31) 0)
    (h1 : b32Alphabet.getD ((a1.val / 64 + a0.val % 8 * 4) &&& 31) 0
      = b32Alphabet.getD ((b1.val / 64 + b0.val % 8 * 4) &&& 31) 0)
    (h2 : b32Alphabet.getD (a1.val / 2 % 32 &&& 31) 0
      = b32Alphabet.getD (b1.val / 2 % 32 &&& 31) 0)
    (h3 : b32Alphabet.getD ((a2.val / 16 + a1.val % 2 * 16) &&& 31) 0
      = b32Alphabet.getD ((b2.val / 16 + b1.val % 2 * 16) &&& 31) 0)
    (h4 : b32Alphabet.getD ((a3.val / 128 + a2.val % 16 * 2) &&& 31) 0
      = b32Alphabet.getD ((b3.val / 128 + b2.val % 16 * 2) &&& 31) 0)
    (h5 : b32Alphabet.getD (a3.val / 4 % 32 &&& 31) 0
      = b32Alphabet.getD (b3.val / 4 % 32 &&& 31) 0)
    (h6 : b32Alphabet.getD ((a4.val / 32 + a3.val % 4 * 8) &&& 31) 0
      = b32Alphabet.getD ((b4.val / 32 + b3.val % 4 * 8) &&& 31) 0)
    (h7 : b32Alphabet.getD (a4.val % 32 &&& 31) 0 = b32Alphabet.getD (b4.val % 32 &&& 31) 0) :
    a0 = b0 ∧ a1 = b1 ∧ a2 = b2 ∧ a3 = b3 ∧ a4 = b4 := by
  have A0 := a0.isLt
  have A1 := a1.isLt
  have A2 := a2.isLt
  have A3 := a3.isLt
  have A4 := a4.isLt
  have B0 := b0.isLt
  have B1 := b1.isLt
  have B2 := b2.isLt
  have B3 := b3.isLt
  have B4 := b4.isLt
  have k0 := b32Alphabet_getD_inj _ _ (by omega) (by omega) h0
  have k1 := b32Alphabet_getD_inj _ _ (by omega) (by omega) h1
  have k2 := b32Alphabet_getD_inj _ _ (by omega) (by omega) h2
  have k3 := b32Alphabet_getD_inj _ _ (by omega) (by omega) h3
  have k4 := b32Alphabet_getD_inj _ _ (by omega) (by omega) h4
  have k5 := b32Alphabet_getD_inj _ _ (by omega) (by omega) h5
  have k6 := b32Alphabet_getD_inj _ _ (by omega) (by omega) h6
  have k7 := b32Alphabet_getD_inj _ _ (by omega) (by omega) h7
  clear h0 h1 h2 h3 h4 h5 h6 h7
  refine ⟨Fin.ext ?_, Fin.ext ?_, Fin.ext ?_, Fin.ext ?_, Fin.ext ?_⟩
  · omega
  · omega
  · omega
  · omega
  · omega

/-- The two symbols of the last byte of a 16-byte buffer determine it. -/
theorem b32_last_byte_inj (a b : Byte)
    (h0 : b32Alphabet.getD (a.val / 8 &&& 31) 0 = b32Alphabet.getD (b.val / 8 &&& 31) 0)
    (h1 : b32Alphabet.getD (a.val % 8 * 4 &&& 31) 0 = b32Alphabet.getD (b.val % 8 * 4 &&& 31) 0) :
    a = b := by
  have A := a.isLt
  have B := b.isLt
  have k0 := b32Alphabet_getD_inj _ _ (by omega) (by omega) h0
  have k1 := b32Alphabet_getD_inj _ _ (by omega) (by omega) h1
  exact Fin.ext (by omega)

/-! ## The generated token: claims C13 and C20 -/

/-- C13: for every 16-byte buffer the token `B32Encoder` makes of it, which is what
`GenerateSecretToken` returns, has exactly `SecretTokenLength = 26` characters,
each of them a character of the alphabet `"abcdefghijkmnpqrstuvwxyz23456789"`; the
alphabet has 32 characters, none of them `'1'`, `'l'`, `'o'`, `'0'` or the padding
character `'='`. -/
theorem GenerateSecretToken_shape (buf : List Byte) (h : buf.length = 16) :
    (GenerateSecretToken buf).length = SecretTokenLength
      ∧ SecretTokenLength = 26
      ∧ (∀ c ∈ GenerateSecretToken buf, c ∈ b32Alphabet)
      ∧ b32Alphabet = "abcdefghijkmnpqrstuvwxyz23456789".toList.map byteOf
      ∧ b32Alphabet.length = 32
      ∧ byteOf '1' ∉ b32Alphabet ∧ byteOf 'l' ∉ b32Alphabet ∧ byteOf 'o' ∉ b32Alphabet
      ∧ byteOf '0' ∉ b32Alphabet ∧ byteOf '=' ∉ b32Alphabet := by
  refine ⟨?_, rfl, fun c hc => b32Encode_mem _ _ c hc, rfl, by decide, by decide, by decide,
    by decide, by decide, by decide⟩
  obtain ⟨a0, a1, a2, a3, a4, a5, a6, a7, a8, a9, a10, a11, a12, a13, a14, a15, rfl⟩ :=
    length_sixteen buf h
  rw [GenerateSecretToken_sixteen]
  rfl

/-- Witness of C13 at the buffer of the bytes 3, 20, 37, ..., whose token is
`"ankckpuhmbwzxc66xy9n92htai"`. -/
theorem GenerateSecretToken_shape_witness :
    sampleBuffer.length = 16
      ∧ GenerateSecretToken sampleBuffer = "ankckpuhmbwzxc66xy9n92htai".toList.map byteOf
      ∧ (GenerateSecretToken sampleBuffer).length = SecretTokenLength
      ∧ ∀ c ∈ GenerateSecretToken sampleBuffer, c ∈ b32Alphabet :=
  ⟨by decide, by decide, (GenerateSecretToken_shape sampleBuffer (by decide)).1,
    (GenerateSecretToken_shape sampleBuffer (by decide)).2.2.1⟩

/-- C20: the encoding of `B32Encoder` is injective on 16-byte buffers: two distinct
16-byte buffers yield distinct tokens, so a generated token determines all 128
bits of its buffer. -/
theorem GenerateSecretToken_injective (a b : List Byte) (ha : a.length = 16)
    (hb : b.length = 16) (hne : a ≠ b) :
    GenerateSecretToken a ≠ GenerateSecretToken b := by
  obtain ⟨a0, a1, a2, a3, a4, a5, a6, a7, a8, a9, a10, a11, a12, a13, a14, a15, rfl⟩ :=
    length_sixteen a ha
  obtain ⟨b0, b1, b2, b3, b4, b5, b6, b7, b8, b9, b10, b11, b12, b13, b14, b15, rfl⟩ :=
    length_sixteen b hb
  intro h
  apply hne
  rw [GenerateSecretToken_sixteen, GenerateSecretToken_sixteen] at h
  simp only [List.map_cons, List.map_nil, List.cons.injEq, and_true] at h
  obtain ⟨h0, h1, h2, h3, h4, h5, h6, h7, h8, h9, h10, h11, h12, h13, h14, h15, h16, h17, h18,
    h19, h20, h21, h22, h23, h24, h25⟩ := h
  obtain ⟨e0, e1, e2, e3, e4⟩ := b32_quantum_inj a0 a1 a2 a3 a4 b0 b1 b2 b3 b4
    h0 h1 h2 h3 h4 h5 h6 h7
  obtain ⟨e5, e6, e7, e8, e9⟩ := b32_quantum_inj a5 a6 a7 a8 a9 b5 b6 b7 b8 b9
    h8 h9 h10 h11 h12 h13 h14 h15
  obtain ⟨e10, e11, e12, e13, e14⟩ := b32_quantum_inj a10 a11 a12 a13 a14 b10 b11 b12 b13 b14
    h16 h17 h18 h19 h20 h21 h22 h23
  have e15 := b32_last_byte_inj a15 b15 h24 h25
  rw [e0, e1, e2, e3, e4, e5, e6, e7, e8, e9, e10, e11, e12, e13, e14, e15]

/-- Witness of C20 at two buffers that differ in the low bit of the last byte,
which reaches the token through its last symbol only. -/
theorem GenerateSecretToken_injective_witness :
    sampleBuffer.length = 16 ∧ sampleBufferLastBit.length = 16
      ∧ sampleBuffer ≠ sampleBufferLastBit
      ∧ GenerateSecretToken sampleBuffer ≠ GenerateSecretToken sampleBufferLastBit :=
  ⟨by decide, by decide, by decide,
    GenerateSecretToken_injective sampleBuffer sampleBufferLastBit (by decide) (by decide)
      (by decide)⟩

end Oragono
